import Mathlib

/-!
Shallow embedding of `NoiseMapGenerators_14.py` (repository TerrainGenerators).

Conventions used throughout this development:

* Python `random.randint(lo, hi)` is modelled by `randint`: it consumes one
  draw from an oracle `rng : ℕ → ℕ` (the `k`-th call reads `rng k`) and
  returns `lo + (rng k) % (hi - lo + 1)`, which ranges over exactly
  `[lo, hi]`; every sequence of in-range results is realised by some oracle.
  When `hi < lo`, Python raises `ValueError`; the model returns `none`, and
  `none` is propagated by every caller (a Python exception aborts the call).
* Python floats are modelled as exact rationals `ℚ`; every float operation
  performed by the translated code (`+ - * /`, `int()` truncation) is a
  rational operation.  `math.sqrt` appears in the source only inside
  comparisons of distances, where it is strictly monotone, so those
  comparisons are modelled by comparing squared distances.
* Python `//` on integers is floor division, `Int.fdiv`; `%` on integers
  with a positive divisor is `Int.emod`.
* Unbounded `while` loops take a fuel argument and return `none` when the
  fuel runs out; theorems about such functions are stated on runs that
  return `some`.
* Grids are row-major lists of rows, `grid[y][x]`, exactly as in the
  source.  Cell writes are modelled by `List.set`, which leaves the list
  unchanged when the index is out of range; the runs appearing in the
  theorems below only ever write in bounds (this is proved where it
  matters), so the model agrees with Python list assignment there.
-/

namespace TerrainGen

/-- Integer grid point `(x, y)`. -/
abbrev Pt : Type := ℤ × ℤ

/-- Rectangle `[x, y, w, h]` in grid-cell units, upper-left origin, exactly
the list format used by the Python source for rooms and corridors. -/
structure Rect where
  x : ℤ
  y : ℤ
  w : ℤ
  h : ℤ
deriving DecidableEq

/-- Random oracle: the `k`-th random draw of a run is `rng k`. -/
abbrev Rng : Type := ℕ → ℕ

/-- Model of `random.randint(lo, hi)`: one oracle draw, result in
`[lo, hi]`; `none` models the `ValueError` raised when `hi < lo`. -/
def randint (rng : Rng) (k : ℕ) (lo hi : ℤ) : Option (ℤ × ℕ) :=
  if lo ≤ hi then some (lo + Int.emod (rng k) (hi - lo + 1), k + 1) else none

/-- Integer grid, row-major: `grid[y][x]`, as returned by the dungeon
generators. -/
abbrev Grid : Type := List (List ℤ)

/-- Zero-filled grid with `rows` rows of `cols` zeroes each, as built by the
row/column loops of the dungeon generators. -/
def mkZeroGrid (rows cols : ℕ) : Grid :=
  List.replicate rows (List.replicate cols 0)

/-- Read `grid[y][x]`; out-of-range (including negative) indices give `0`.
All reads performed by the embedded code on the runs studied here are in
range. -/
def getCell (g : Grid) (p : Pt) : ℤ :=
  if 0 ≤ p.1 ∧ 0 ≤ p.2 then (g.getD p.2.toNat []).getD p.1.toNat 0 else 0

/-- Write `grid[y][x] = v`; out-of-range writes leave the grid unchanged
(Python raises or wraps there; the runs studied here only write in
bounds). -/
def setCell (g : Grid) (p : Pt) (v : ℤ) : Grid :=
  if 0 ≤ p.1 ∧ 0 ≤ p.2 then
    g.set p.2.toNat ((g.getD p.2.toNat []).set p.1.toNat v)
  else g

/-- Point lies in the half-open cell set of a rectangle: these are exactly
the cells the carving loops `range(x, x+w) × range(y, y+h)` touch. -/
def inRect (r : Rect) (p : Pt) : Prop :=
  r.x ≤ p.1 ∧ p.1 < r.x + r.w ∧ r.y ≤ p.2 ∧ p.2 < r.y + r.h

instance (r : Rect) (p : Pt) : Decidable (inRect r p) := by
  unfold inRect; infer_instance

/-- Point lies in the closed rectangle `[x, x+w] × [y, y+h]`: the
intersection test of the source compares these closed extents. -/
def inClosed (r : Rect) (p : Pt) : Prop :=
  r.x ≤ p.1 ∧ p.1 ≤ r.x + r.w ∧ r.y ≤ p.2 ∧ p.2 ≤ r.y + r.h

instance (r : Rect) (p : Pt) : Decidable (inClosed r p) := by
  unfold inClosed; infer_instance

/-- Centerpoint `(x + w // 2, y + h // 2)` of a rectangle
(`return_the_center_of_this_rectangle`, identical in both dungeon
generator classes); Python `//` is floor division. -/
def return_the_center_of_this_rectangle (upperleft_x upperleft_y width height : ℤ) : Pt :=
  (upperleft_x + Int.fdiv width 2, upperleft_y + Int.fdiv height 2)

/-- Centerpoint of a rectangle given as a `Rect`. -/
def rectCenter (r : Rect) : Pt :=
  return_the_center_of_this_rectangle r.x r.y r.w r.h

/-- Model of `define_corridor` (lines 1155-1190 and 2149-2177, identical in
both dungeon generator classes): builds a 1-cell-wide rectangle between
`(x, y)` and `(x2, y2)`; a negative extent is flipped and subtracted from
the origin.  The orientation is the string argument of the source. -/
def define_corridor (which_orientation : String) (x y x2 y2 : ℤ) : Rect :=
  let w := x2 - x
  let h := y2 - y
  if which_orientation = "horizontal" then
    if w < 0 then ⟨x - (-w), y, (-w) + 1, 1⟩ else ⟨x, y, w + 1, 1⟩
  else if which_orientation = "vertical" then
    if h < 0 then ⟨x, y - (-h), 1, (-h) + 1⟩ else ⟨x, y, 1, h + 1⟩
  else ⟨0, 0, 0, 0⟩

namespace DungeonMapGenerator

/-- Translation of `DungeonMapGenerator.check_these_two_rectangles_for_intersection`
(lines 1102-1148), including the vacuous `old_x >= old_x` comparison of the
source. -/
def check_these_two_rectangles_for_intersection (rectangle_alpha rectangle_beta : Rect) : Bool :=
  let new_x := rectangle_alpha.x
  let new_x2 := rectangle_alpha.x + rectangle_alpha.w
  let old_x := rectangle_beta.x
  let old_x2 := rectangle_beta.x + rectangle_beta.w
  let new_y := rectangle_alpha.y
  let new_y2 := rectangle_alpha.y + rectangle_alpha.h
  let old_y := rectangle_beta.y
  let old_y2 := rectangle_beta.y + rectangle_beta.h
  (((decide (new_x ≥ old_x) && decide (new_x ≤ old_x2)) ||
      (decide (new_x2 ≥ old_x) && decide (new_x2 ≤ old_x2))) &&
    ((decide (new_y ≥ old_y) && decide (new_y ≤ old_y2)) ||
      (decide (new_y2 ≥ old_y) && decide (new_y2 ≤ old_y2)))) ||
  (((decide (old_x ≥ old_x) && decide (old_x ≤ new_x2)) ||
      (decide (old_x2 ≥ new_x) && decide (old_x2 ≤ new_x2))) &&
    ((decide (old_y ≥ new_y) && decide (old_y ≤ new_y2)) ||
      (decide (old_y2 ≥ new_y) && decide (old_y2 ≤ new_y2)))) ||
  (decide (new_x ≥ old_x) && decide (new_x2 ≤ old_x2) &&
    decide (new_y ≤ old_y) && decide (new_y2 ≥ old_y2)) ||
  (decide (old_x > new_x) && decide (old_x2 < new_x2) &&
    decide (old_y < new_y) && decide (old_y2 > new_y2))

end DungeonMapGenerator

namespace MarkIIDungeonMapGenerator

/-- Translation of `MarkIIDungeonMapGenerator.check_these_two_rectangles_for_intersection`
(lines 2196-2245); the body is textually identical to the
`DungeonMapGenerator` version. -/
def check_these_two_rectangles_for_intersection (rectangle_alpha rectangle_beta : Rect) : Bool :=
  let new_x := rectangle_alpha.x
  let new_x2 := rectangle_alpha.x + rectangle_alpha.w
  let old_x := rectangle_beta.x
  let old_x2 := rectangle_beta.x + rectangle_beta.w
  let new_y := rectangle_alpha.y
  let new_y2 := rectangle_alpha.y + rectangle_alpha.h
  let old_y := rectangle_beta.y
  let old_y2 := rectangle_beta.y + rectangle_beta.h
  (((decide (new_x ≥ old_x) && decide (new_x ≤ old_x2)) ||
      (decide (new_x2 ≥ old_x) && decide (new_x2 ≤ old_x2))) &&
    ((decide (new_y ≥ old_y) && decide (new_y ≤ old_y2)) ||
      (decide (new_y2 ≥ old_y) && decide (new_y2 ≤ old_y2)))) ||
  (((decide (old_x ≥ old_x) && decide (old_x ≤ new_x2)) ||
      (decide (old_x2 ≥ new_x) && decide (old_x2 ≤ new_x2))) &&
    ((decide (old_y ≥ new_y) && decide (old_y ≤ new_y2)) ||
      (decide (old_y2 ≥ new_y) && decide (old_y2 ≤ new_y2)))) ||
  (decide (new_x ≥ old_x) && decide (new_x2 ≤ old_x2) &&
    decide (new_y ≤ old_y) && decide (new_y2 ≥ old_y2)) ||
  (decide (old_x > new_x) && decide (old_x2 < new_x2) &&
    decide (old_y < new_y) && decide (old_y2 > new_y2))

/-- Parameters of `MarkIIDungeonMapGenerator.generate_noise` (the supplied
call arguments; the body immediately replaces `map_width`/`map_height` by
the supplied values minus one, lines 2257-2265). -/
structure Params where
  supplied_map_width : ℤ
  supplied_map_height : ℤ
  room_max_size : ℤ
  room_min_size : ℤ
  room_max_count : ℤ
  room_min_count : ℤ

/-- One iteration of the room-attempt loop (lines 2292-2321): draw width,
height, then position (bounded so the room plus the reserved border fits),
reject the candidate when it intersects any accepted room. -/
def room_attempt (p : Params) (rng : Rng) (s : List Rect × ℕ) : Option (List Rect × ℕ) :=
  match randint rng s.2 p.room_min_size p.room_max_size with
  | none => none
  | some (new_room_width, k1) =>
    match randint rng k1 p.room_min_size p.room_max_size with
    | none => none
    | some (new_room_height, k2) =>
      match randint rng k2 1 ((p.supplied_map_width - 1 - 1) - new_room_width) with
      | none => none
      | some (new_room_x, k3) =>
        match randint rng k3 1 ((p.supplied_map_height - 1 - 1) - new_room_height) with
        | none => none
        | some (new_room_y, k4) =>
          let new_room_candidate : Rect :=
            ⟨new_room_x, new_room_y, new_room_width, new_room_height⟩
          let failed := s.1.any (fun o =>
            check_these_two_rectangles_for_intersection new_room_candidate o)
          some ((if failed then s.1 else s.1 ++ [new_room_candidate]), k4)

/-- The `for each_new_room_attempt in range(0, room_max_count)` loop. -/
def room_attempts (p : Params) (rng : Rng) : ℕ → List Rect × ℕ → Option (List Rect × ℕ)
  | 0, s => some s
  | n + 1, s => (room_attempt p rng s).bind (room_attempts p rng n)

/-- The outer `while len(list_of_candidate_rooms) < room_min_count` loop
(lines 2289-2325): each round restarts from the emptied list; `fuel` bounds
the number of rounds (the Python loop is unbounded). -/
def place_rooms (p : Params) (rng : Rng) : ℕ → ℕ → Option (List Rect × ℕ)
  | 0, k => if p.room_min_count ≤ 0 then some ([], k) else none
  | fuel + 1, k =>
    if p.room_min_count ≤ 0 then some ([], k)
    else
      (room_attempts p rng p.room_max_count.toNat ([], k)).bind (fun s =>
        if (s.1.length : ℤ) < p.room_min_count then place_rooms p rng fuel s.2
        else some s)

/-- Nearest-centerpoint search of the first linking pass (lines 2375-2413):
centerpoints equal to `alpha` are skipped; the source compares
`math.sqrt` of the squared distances, which selects the same first
minimizer as comparing the squared integer distances directly. -/
def nearest_other (alpha : Pt) (cps : List Pt) : Option Pt :=
  (cps.foldl
    (fun best each_centerpoint =>
      if each_centerpoint = alpha then best
      else
        let d := (each_centerpoint.1 - alpha.1) ^ 2 + (each_centerpoint.2 - alpha.2) ^ 2
        match best with
        | none => some (d, each_centerpoint)
        | some (bd, bcp) => if d < bd then some (d, each_centerpoint) else some (bd, bcp))
    none).map (fun b => b.2)

/-- Per-color update of the first linking pass (lines 2495-2542): when a
color already contains one of the four centerpoints, the missing ones are
appended to it (in the order alpha, beta, horizontal, vertical). -/
def grow_color (alpha beta hc vc : Pt) (color : List Pt) : List Pt :=
  let a_in := color.any (fun q => decide (q = alpha))
  let b_in := color.any (fun q => decide (q = beta))
  let h_in := color.any (fun q => decide (q = hc))
  let v_in := color.any (fun q => decide (q = vc))
  if a_in || b_in || h_in || v_in then
    color ++ (if a_in then [] else [alpha]) ++ (if b_in then [] else [beta]) ++
      (if h_in then [] else [hc]) ++ (if v_in then [] else [vc])
  else color

/-- Color bookkeeping after one corridor pair is created (lines 2474-2596):
with no colors yet, the four centerpoints found a new color; otherwise
every color containing one of them grows by the missing ones, and if none
does, a new color of exactly the four is appended. -/
def update_colors (colors : List (List Pt)) (alpha beta hc vc : Pt) : List (List Pt) :=
  if colors.length = 0 then [[alpha, beta, hc, vc]]
  else
    let fits := colors.any (fun c =>
      c.any (fun q => decide (q = alpha)) || c.any (fun q => decide (q = beta)) ||
        c.any (fun q => decide (q = hc)) || c.any (fun q => decide (q = vc)))
    let grown := colors.map (grow_color alpha beta hc vc)
    if fits then grown else grown ++ [[alpha, beta, hc, vc]]

/-- Mutable state of the first linking pass. -/
structure LinkState where
  list_of_all_centerpoints : List Pt
  list_of_room_connection_colors : List (List Pt)
  list_of_new_corridors : List Rect
  k : ℕ

/-- Body of the first linking pass for one room (lines 2368-2596): find the
nearest distinct centerpoint, draw the corridor direction, build one
horizontal and one vertical corridor, register their centerpoints, update
the colors.  When the search finds nothing (a single accepted room), the
source subscripts `None` and raises `TypeError` — modelled by `none`; note
the direction draw at line 2420 happens before that subscript. -/
def link_room (rng : Rng) (st : LinkState) (each_room : Rect) : Option LinkState :=
  let alpha := rectCenter each_room
  let closest := nearest_other alpha st.list_of_all_centerpoints
  match randint rng st.k 0 1 with
  | none => none
  | some (which_direction_first, k1) =>
    match closest with
    | none => none
    | some beta =>
      let new_horizontal_corridor :=
        if which_direction_first = 0 then
          define_corridor "horizontal" alpha.1 alpha.2 beta.1 beta.2
        else define_corridor "horizontal" beta.1 beta.2 alpha.1 alpha.2
      let new_vertical_corridor :=
        if which_direction_first = 0 then
          define_corridor "vertical" beta.1 beta.2 alpha.1 alpha.2
        else define_corridor "vertical" alpha.1 alpha.2 beta.1 beta.2
      let hc := rectCenter new_horizontal_corridor
      let vc := rectCenter new_vertical_corridor
      some
        { list_of_all_centerpoints := st.list_of_all_centerpoints ++ [hc, vc]
          list_of_room_connection_colors :=
            update_colors st.list_of_room_connection_colors alpha beta hc vc
          list_of_new_corridors := st.list_of_new_corridors ++
            [new_horizontal_corridor, new_vertical_corridor]
          k := k1 }

/-- The `for each_room in list_of_candidate_rooms` loop of the first
linking pass. -/
def first_pass (rng : Rng) (st : LinkState) : List Rect → Option LinkState
  | [] => some st
  | r :: rest => (link_room rng st r).bind (fun st1 => first_pass rng st1 rest)

/-- Average centerpoint of a color (lines 2652-2661): coordinate sums with
Python floor division `//` by the length. -/
def color_centroid (c : List Pt) : Pt :=
  (Int.fdiv (c.foldl (fun s q => s + q.1) 0) c.length,
    Int.fdiv (c.foldl (fun s q => s + q.2) 0) c.length)

/-- Search for the beta color whose centroid is nearest to the alpha
centroid (lines 2664-2707), over indices `1 .. len-1`; returns the index,
the color and its centroid.  Distance comparison as in `nearest_other`. -/
def nearest_color (colors : List (List Pt)) (alphaAvg : Pt) :
    Option (ℕ × List Pt × Pt) :=
  (((List.range colors.length).drop 1).foldl
    (fun best i =>
      let color_beta := colors.getD i []
      let avg := color_centroid color_beta
      let d := (avg.1 - alphaAvg.1) ^ 2 + (avg.2 - alphaAvg.2) ^ 2
      match best with
      | none => some (d, i, color_beta, avg)
      | some (bd, brest) => if d < bd then some (d, i, color_beta, avg) else some (bd, brest))
    none).map (fun b => b.2)

/-- Search for the member of a color nearest to a target point (lines
2712-2743); unlike `nearest_other` there is no skip-equal test here. -/
def nearest_member (c : List Pt) (target : Pt) : Option Pt :=
  (c.foldl
    (fun best q =>
      let d := (target.1 - q.1) ^ 2 + (target.2 - q.2) ^ 2
      match best with
      | none => some (d, q)
      | some (bd, bq) => if d < bd then some (d, q) else some (bd, bq))
    none).map (fun b => b.2)

/-- One iteration of the color-merging loop (lines 2642-2787): when more
than one color remains, take color 0 as alpha, find the nearest beta color
by centroid distance, connect the alpha member nearest to beta's centroid
with the beta member nearest to alpha's centroid by a corridor pair,
absorb beta's members into alpha and delete beta. -/
def merge_step (rng : Rng) (s : List (List Pt) × List Rect × ℕ) :
    Option (List (List Pt) × List Rect × ℕ) :=
  if 1 < s.1.length then
    let color_alpha := s.1.getD 0 []
    let alphaAvg := color_centroid color_alpha
    match nearest_color s.1 alphaAvg with
    | none => none
    | some (bidx, color_beta, betaAvg) =>
      match nearest_member color_alpha betaAvg with
      | none => none
      | some apt =>
        match nearest_member color_beta alphaAvg with
        | none => none
        | some bpt =>
          match randint rng s.2.2 0 1 with
          | none => none
          | some (which_direction_first, k1) =>
            let new_horizontal_corridor :=
              if which_direction_first = 0 then
                define_corridor "horizontal" apt.1 apt.2 bpt.1 bpt.2
              else define_corridor "horizontal" bpt.1 bpt.2 apt.1 apt.2
            let new_vertical_corridor :=
              if which_direction_first = 0 then
                define_corridor "vertical" bpt.1 bpt.2 apt.1 apt.2
              else define_corridor "vertical" apt.1 apt.2 bpt.1 bpt.2
            some ((s.1.set 0 (color_alpha ++ color_beta)).eraseIdx bidx,
              s.2.1 ++ [new_horizontal_corridor, new_vertical_corridor], k1)
  else some s

/-- The `for each_remaining_color in range(0, len(colors))` loop; the
iteration count is the color-list length captured once at loop entry. -/
def merge_loop (rng : Rng) :
    ℕ → List (List Pt) × List Rect × ℕ → Option (List (List Pt) × List Rect × ℕ)
  | 0, s => some s
  | n + 1, s => (merge_step rng s).bind (merge_loop rng n)

/-- Room rasterization (lines 2817-2823): unconditional `+= 1` on every
cell of the room. -/
def carve_room (g : Grid) (r : Rect) : Grid :=
  (List.range r.h.toNat).foldl
    (fun g1 (hu : ℕ) =>
      (List.range r.w.toNat).foldl
        (fun g2 (wu : ℕ) =>
          setCell g2 (r.x + (wu : ℤ), r.y + (hu : ℤ))
            (getCell g2 (r.x + (wu : ℤ), r.y + (hu : ℤ)) + 1))
        g1)
    g

/-- Corridor rasterization (lines 2829-2840): `+= 1` guarded by the cell
still being `0`. -/
def carve_corridor (g : Grid) (r : Rect) : Grid :=
  (List.range r.h.toNat).foldl
    (fun g1 (hu : ℕ) =>
      (List.range r.w.toNat).foldl
        (fun g2 (wu : ℕ) =>
          if getCell g2 (r.x + (wu : ℤ), r.y + (hu : ℤ)) = 0 then
            setCell g2 (r.x + (wu : ℤ), r.y + (hu : ℤ))
              (getCell g2 (r.x + (wu : ℤ), r.y + (hu : ℤ)) + 1)
          else g2)
        g1)
    g

/-- Whole `MarkIIDungeonMapGenerator.generate_noise` (lines 2250-2846):
placement, centerpoint collection, first linking pass, color merging, and
rasterization into a fresh `(height-1) × (width-1)` zero grid.  Returns
the grid together with the accepted room list (a local of the source). -/
def generate_noise (p : Params) (rng : Rng) (fuel : ℕ) : Option (Grid × List Rect) :=
  (place_rooms p rng fuel 0).bind (fun s =>
    let list_of_candidate_rooms := s.1
    let list_of_all_centerpoints := list_of_candidate_rooms.map rectCenter
    (first_pass rng ⟨list_of_all_centerpoints, [], [], s.2⟩ list_of_candidate_rooms).bind
      (fun st =>
        (merge_loop rng st.list_of_room_connection_colors.length
            (st.list_of_room_connection_colors, st.list_of_new_corridors, st.k)).map
          (fun m =>
            let g0 := mkZeroGrid (p.supplied_map_height - 1).toNat
              (p.supplied_map_width - 1).toNat
            let g1 := list_of_candidate_rooms.foldl carve_room g0
            let g2 := m.2.1.foldl carve_corridor g1
            (g2, list_of_candidate_rooms))))

end MarkIIDungeonMapGenerator

namespace DungeonMapGenerator

/-- Parameters of `DungeonMapGenerator.generate_noise` (the supplied call
arguments; the body subtracts one from the supplied width and height,
lines 1216-1221). -/
structure Params where
  supplied_map_width : ℤ
  supplied_map_height : ℤ
  room_max_size : ℤ
  room_min_size : ℤ
  room_max_count : ℤ
  room_min_count : ℤ

/-- One iteration of the room-attempt loop (lines 1280-1325): its position
bound `randint(1, map_width - w)` differs from the MarkII generator's. -/
def room_attempt (p : Params) (rng : Rng) (s : List Rect × ℕ) : Option (List Rect × ℕ) :=
  match randint rng s.2 p.room_min_size p.room_max_size with
  | none => none
  | some (new_room_width, k1) =>
    match randint rng k1 p.room_min_size p.room_max_size with
    | none => none
    | some (new_room_height, k2) =>
      match randint rng k2 1 ((p.supplied_map_width - 1) - new_room_width) with
      | none => none
      | some (new_room_x, k3) =>
        match randint rng k3 1 ((p.supplied_map_height - 1) - new_room_height) with
        | none => none
        | some (new_room_y, k4) =>
          let new_room : Rect := ⟨new_room_x, new_room_y, new_room_width, new_room_height⟩
          let failed := s.1.any (fun o =>
            check_these_two_rectangles_for_intersection new_room o)
          some ((if failed then s.1 else s.1 ++ [new_room]), k4)

/-- The `for each_room_attempt_number in range(0, room_max_count)` loop. -/
def room_attempts (p : Params) (rng : Rng) : ℕ → List Rect × ℕ → Option (List Rect × ℕ)
  | 0, s => some s
  | n + 1, s => (room_attempt p rng s).bind (room_attempts p rng n)

/-- The flag-driven `while are_there_enough_rooms_yet == False` loop (lines
1272-1335).  Unlike the MarkII placement loop its body runs at least once
even when `room_min_count <= 0`, because the flag starts `False`. -/
def place_rooms (p : Params) (rng : Rng) : ℕ → ℕ → Option (List Rect × ℕ)
  | 0, _ => none
  | fuel + 1, k =>
    (room_attempts p rng p.room_max_count.toNat ([], k)).bind (fun s =>
      if p.room_min_count ≤ (s.1.length : ℤ) then some s
      else place_rooms p rng fuel s.2)

/-- Whole `DungeonMapGenerator.generate_noise` (lines 1205-1479).  After
placement, the carve loop `for each_completed_room in list_of_rooms`
carves the first room's cells, draws `random.randint(0, 1)`, and then at
line 1393 calls `self.return_the_center_of_this_rectangle()` with none of
its four required arguments — an unconditional `TypeError`; even without
that line, `room_alpha_center` at lines 1413-1423 is never defined (its
assignments, lines 1377-1378, are commented out), a `NameError`.  So the
call raises on every run whose accepted room list is nonempty and returns
nothing: modelled by `none`.  With no accepted rooms the loop body never
runs and the zero grid is returned. -/
def generate_noise (p : Params) (rng : Rng) (fuel : ℕ) : Option Grid :=
  (place_rooms p rng fuel 0).bind (fun s =>
    let new_dungeon_map := mkZeroGrid (p.supplied_map_height - 1).toNat
      (p.supplied_map_width - 1).toNat
    match s.1 with
    | [] => some new_dungeon_map
    | _ :: _ => none)

end DungeonMapGenerator

/-- Cells `p` and `q` are 4-adjacent. -/
def adjStep (p q : Pt) : Prop :=
  (p.1 - q.1).natAbs + (p.2 - q.2).natAbs = 1

instance (p q : Pt) : Decidable (adjStep p q) := by
  unfold adjStep; infer_instance

/-- Point covered by (the half-open cell set of) some rectangle of the
list. -/
def covered (L : List Rect) (p : Pt) : Prop :=
  ∃ r ∈ L, inRect r p

instance (L : List Rect) (p : Pt) : Decidable (covered L p) := by
  unfold covered; infer_instance

/-- One step between adjacent cells that are both covered by `L`. -/
def reachStep (L : List Rect) (p q : Pt) : Prop :=
  covered L p ∧ covered L q ∧ adjStep p q

/-- Reachability through cells covered by the rectangles of `L`. -/
def reachIn (L : List Rect) : Pt → Pt → Prop :=
  Relation.ReflTransGen (reachStep L)

/-- One step between adjacent cells that are both excavated (value at
least 1) in the grid. -/
def excavStep (g : Grid) (p q : Pt) : Prop :=
  1 ≤ getCell g p ∧ 1 ≤ getCell g q ∧ adjStep p q

/-- Reachability through excavated cells of the grid, the graph of the
spec's full-connectivity property. -/
def gridReach (g : Grid) : Pt → Pt → Prop :=
  Relation.ReflTransGen (excavStep g)

/-- Point lies inside a `rows × cols` grid. -/
def inGridBounds (rows cols : ℕ) (p : Pt) : Prop :=
  0 ≤ p.1 ∧ p.1 < (cols : ℤ) ∧ 0 ≤ p.2 ∧ p.2 < (rows : ℤ)

instance (rows cols : ℕ) (p : Pt) : Decidable (inGridBounds rows cols p) := by
  unfold inGridBounds; infer_instance

/-- Python `int()` truncation toward zero on a rational. -/
def pyInt (q : ℚ) : ℤ :=
  if 0 ≤ q then ⌊q⌋ else ⌈q⌉

/-- Rational grid, row-major, for the terrain (float-valued) generators. -/
abbrev QGrid : Type := List (List ℚ)

/-- Read `grid[y][x]` of a rational grid; out-of-range reads give `0`. -/
def qGetCell (g : QGrid) (yy xx : ℤ) : ℚ :=
  if 0 ≤ xx ∧ 0 ≤ yy then (g.getD yy.toNat []).getD xx.toNat 0 else 0

/-- Write `grid[y][x] = v` on a rational grid; out-of-range writes leave
the grid unchanged. -/
def qSetCell (g : QGrid) (yy xx : ℤ) (v : ℚ) : QGrid :=
  if 0 ≤ xx ∧ 0 ≤ yy then g.set yy.toNat ((g.getD yy.toNat []).set xx.toNat v) else g

namespace PerlinNoiseGenerator

/-- Translation of `PerlinNoiseGenerator.smooth_noise` (lines 444-495):
bilinear combination of four wrapped samples of the random field, weighted
by the truncated-fractional parts of `x` and `y`.  Python `%` on integers
with positive divisor is `Int.emod`. -/
def smooth_noise (noise_array : QGrid) (noise_width noise_height : ℕ) (x y : ℚ) : ℚ :=
  let fractional_element_of_x := x - (pyInt x : ℚ)
  let fractional_element_of_y := y - (pyInt y : ℚ)
  let x1 := Int.emod (pyInt x + noise_width) noise_width
  let y1 := Int.emod (pyInt y + noise_height) noise_height
  let x2 := Int.emod (x1 + noise_width - 1) noise_width
  let y2 := Int.emod (y1 + noise_height - 1) noise_height
  fractional_element_of_x * fractional_element_of_y * qGetCell noise_array y1 x1 +
    fractional_element_of_x * (1 - fractional_element_of_y) * qGetCell noise_array y2 x1 +
    (1 - fractional_element_of_x) * fractional_element_of_y * qGetCell noise_array y1 x2 +
    (1 - fractional_element_of_x) * (1 - fractional_element_of_y) * qGetCell noise_array y2 x2

/-- The `while (size >= 1)` accumulation loop of
`totally_justified_turbulence_function` (lines 412-423).  The fuel only
needs to exceed the number of halvings of `size` down past `1`; the
callers below pass `octaves`, and `octaves / 2 ^ octaves < 1` for every
`octaves ≥ 1`, so the guard is already false whenever the fuel runs out
and the model agrees with the Python loop. -/
def turbulence_loop (noise_array : QGrid) (noise_width noise_height : ℕ) (x y : ℚ) :
    ℕ → ℚ → ℚ
  | 0, _ => 0
  | fuel + 1, size =>
    if 1 ≤ size then
      smooth_noise noise_array noise_width noise_height (x / size) (y / size) * size +
        turbulence_loop noise_array noise_width noise_height x y fuel (size / 2)
    else 0

/-- Translation of `totally_justified_turbulence_function` (lines 400-436):
accumulate, divide by the initial size, bias by `128`. -/
def totally_justified_turbulence_function (noise_array : QGrid)
    (noise_width noise_height : ℕ) (x y : ℚ) (size : ℕ) : ℚ :=
  turbulence_loop noise_array noise_width noise_height x y size (size : ℚ) /
    (size : ℚ) * 128

/-- Translation of `PerlinNoiseGenerator.generate_noise` (lines 312-392):
fill the `height × width` random field with `randint(0, 1000) / 1000.0`
(the draws are consumed row-major, so cell `(x, y)` reads draw
`y * width + x`), then emit `int(turbulence(x * frequency, y * frequency,
octaves))` for every cell. -/
def generate_noise (rng : Rng) (width height : ℕ) (frequency : ℚ) (octaves : ℕ) :
    List (List ℤ) :=
  let noise_array : QGrid := (List.range height).map (fun each_row =>
    (List.range width).map (fun each_column =>
      ((rng (each_row * width + each_column) % 1001 : ℕ) : ℚ) / 1000))
  (List.range height).map (fun (each_y : ℕ) =>
    (List.range width).map (fun (each_x : ℕ) =>
      pyInt (totally_justified_turbulence_function noise_array width height
        ((each_x : ℚ) * frequency) ((each_y : ℚ) * frequency) octaves)))

end PerlinNoiseGenerator

namespace PlasmaFractalGenerator

/-- Generation parameters of `PlasmaFractalGenerator` relevant to
`plasma_recursion`: displacement bounds and the subdivision cutoff. -/
structure Params where
  displacement_min : ℤ
  displacement_max : ℤ
  minimum_separation_distance : ℚ

/-- Translation of `PlasmaFractalGenerator.plasma_recursion` (lines
254-294).  Emits `[x, y, z]` cells in recursion order (upper-left,
upper-right, lower-left, lower-right), exactly the order in which the
source appends to `saved_noise_array`.  The recursion depth is bounded by
`fuel`; each subdivision halves the extents, so any fuel past
`log2 (max width height / msd) + 1` reproduces the Python recursion. -/
def plasma_recursion (p : Params) (rng : Rng) :
    ℕ → ℚ → ℚ → ℚ → ℚ → ℚ → ℚ → ℚ → ℚ → ℕ → Option (List (ℚ × ℚ × ℚ) × ℕ)
  | 0, _, _, _, _, _, _, _, _, _ => none
  | fuel + 1, x, y, supplied_width, supplied_height, uleft_corner, uright_corner,
      lleft_corner, lright_corner, k =>
    let new_width := supplied_width / 2
    let new_height := supplied_height / 2
    if supplied_width > p.minimum_separation_distance ∨
        supplied_height > p.minimum_separation_distance then
      match randint rng k p.displacement_min p.displacement_max with
      | none => none
      | some (random_midpoint_displacement, k1) =>
        let mid_z := (uleft_corner + uright_corner + lleft_corner + lright_corner) / 4 +
          (random_midpoint_displacement : ℚ)
        let top_z := (uleft_corner + uright_corner) / 2
        let bottom_z := (lleft_corner + lright_corner) / 2
        let left_z := (uleft_corner + lleft_corner) / 2
        let right_z := (uright_corner + lright_corner) / 2
        (plasma_recursion p rng fuel x y new_width new_height
            uleft_corner top_z left_z mid_z k1).bind (fun s1 =>
          (plasma_recursion p rng fuel (x + new_width) y new_width new_height
              top_z uright_corner mid_z right_z s1.2).bind (fun s2 =>
            (plasma_recursion p rng fuel x (y + new_height) new_width new_height
                left_z mid_z lleft_corner bottom_z s2.2).bind (fun s3 =>
              (plasma_recursion p rng fuel (x + new_width) (y + new_height) new_width
                  new_height mid_z right_z bottom_z lright_corner s3.2).map (fun s4 =>
                (s1.1 ++ s2.1 ++ s3.1 ++ s4.1, s4.2)))))
    else
      some ([(x, y, (uleft_corner + uright_corner + lleft_corner + lright_corner) / 4)], k)

/-- Translation of `PlasmaFractalGenerator.generate_noise` (lines 150-251):
run the recursion, build a `supplied_height × supplied_width` grid filled
with the sentinel `-1`, then scatter every emitted cell into
`array[int(y)][int(x)]` in list order (later cells overwrite earlier
ones). -/
def generate_noise (p : Params) (rng : Rng) (fuel : ℕ) (x y : ℚ)
    (supplied_width supplied_height : ℕ) (uleft_corner uright_corner lleft_corner
    lright_corner : ℚ) (k : ℕ) : Option (QGrid × ℕ) :=
  (plasma_recursion p rng fuel x y supplied_width supplied_height uleft_corner
      uright_corner lleft_corner lright_corner k).map (fun s =>
    let array_to_return : QGrid :=
      List.replicate supplied_height (List.replicate supplied_width (-1 : ℚ))
    (s.1.foldl (fun g each_cell =>
      qSetCell g (pyInt each_cell.2.1) (pyInt each_cell.1) each_cell.2.2)
      array_to_return, s.2))

end PlasmaFractalGenerator

namespace SimplexNoiseGenerator

/-- The fixed 256-entry seed sequence `noise_array_seed` of
`SimplexNoiseGenerator.__init__` (lines 559-571). -/
def the_noise_array_seed : List ℕ :=
  [151, 160, 137, 91, 90, 15,
   131, 13, 201, 95, 96, 53, 194, 233, 7, 225, 140, 36, 103, 30, 69, 142, 8, 99, 37, 240, 21, 10, 23,
   190, 6, 148, 247, 120, 234, 75, 0, 26, 197, 62, 94, 252, 219, 203, 117, 35, 11, 32, 57, 177, 33,
   88, 237, 149, 56, 87, 174, 20, 125, 136, 171, 168, 68, 175, 74, 165, 71, 134, 139, 48, 27, 166,
   77, 146, 158, 231, 83, 111, 229, 122, 60, 211, 133, 230, 220, 105, 92, 41, 55, 46, 245, 40, 244,
   102, 143, 54, 65, 25, 63, 161, 1, 216, 80, 73, 209, 76, 132, 187, 208, 89, 18, 169, 200, 196,
   135, 130, 116, 188, 159, 86, 164, 100, 109, 198, 173, 186, 3, 64, 52, 217, 226, 250, 124, 123,
   5, 202, 38, 147, 118, 126, 255, 82, 85, 212, 207, 206, 59, 227, 47, 16, 58, 17, 182, 189, 28, 42,
   223, 183, 170, 213, 119, 248, 152, 2, 44, 154, 163, 70, 221, 153, 101, 155, 167, 43, 172, 9,
   129, 22, 39, 253, 19, 98, 108, 110, 79, 113, 224, 232, 178, 185, 112, 104, 218, 246, 97, 228,
   251, 34, 242, 193, 238, 210, 144, 12, 191, 179, 162, 241, 81, 51, 145, 235, 249, 14, 239, 107,
   49, 192, 214, 31, 181, 199, 106, 157, 184, 84, 204, 176, 115, 121, 50, 45, 127, 4, 150, 254,
   138, 236, 205, 93, 222, 114, 67, 29, 24, 72, 243, 141, 128, 195, 78, 66, 215, 61, 156, 180]

/-- Mutable state of a `SimplexNoiseGenerator` instance: the fixed seed
sequence, the shuffled-and-doubled noise array, the hash number, and the
permutation table. -/
structure SimplexState where
  noise_array_seed : List ℕ
  noise_array : List ℕ
  hash_number : Option ℕ
  permutations_table : List ℕ

/-- The `while len(noise_array_seed_handler) > 1` shuffle of
`randomize_the_noise_array_seed` (lines 665-686): repeatedly pick
`randint(0, len - 1)`, append the picked element, remove it; the final
remaining element is appended without a draw.  Each iteration removes one
element, so with fuel equal to the initial handler length the `1 <
length` guard, never the fuel, ends the loop, and the model coincides
with the Python loop. -/
def shuffle_loop (rng : Rng) : ℕ → List ℕ → ℕ → List ℕ → List ℕ × ℕ
  | 0, handler, k, acc => (acc ++ [handler.getD 0 0], k)
  | fuel + 1, handler, k, acc =>
    if 1 < handler.length then
      let which_number_to_pick := rng k % handler.length
      shuffle_loop rng fuel (handler.eraseIdx which_number_to_pick) (k + 1)
        (acc ++ [handler.getD which_number_to_pick 0])
    else (acc ++ [handler.getD 0 0], k)

/-- Translation of `double_the_noise_array` (lines 713-736): the array is
appended to itself. -/
def double_the_noise_array (noise_array : List ℕ) : List ℕ :=
  noise_array ++ noise_array

/-- Translation of `generate_permutations_table` (lines 601-635): when the
hash number is `None` it becomes `len(noise_array) // 2 - 1`; the table is
`noise_array[i & hash]` for `i` over the noise-array length. -/
def generate_permutations_table (st : SimplexState) : SimplexState :=
  let hash_number :=
    match st.hash_number with
    | none => st.noise_array.length / 2 - 1
    | some hn => hn
  { st with
    hash_number := some hash_number
    permutations_table := (List.range st.noise_array.length).map
      (fun each_number => st.noise_array.getD (each_number &&& hash_number) 0) }

/-- Translation of `randomize_the_noise_array_seed` (lines 641-710):
shuffle a copy of the fixed seed sequence, install it as the noise array,
double it, and rebuild the permutation table. -/
def randomize_the_noise_array_seed (st : SimplexState) (rng : Rng) (k : ℕ) :
    SimplexState × ℕ :=
  let s := shuffle_loop rng st.noise_array_seed.length st.noise_array_seed k []
  let st1 := { st with noise_array := double_the_noise_array s.1 }
  (generate_permutations_table st1, s.2)

/-- State built by `SimplexNoiseGenerator.__init__` (lines 554-596): the
seed sequence is installed and `randomize_the_noise_array_seed` is run
once. -/
def simplex_init (supplied_hash : Option ℕ) (rng : Rng) (k : ℕ) : SimplexState × ℕ :=
  randomize_the_noise_array_seed ⟨the_noise_array_seed, [], supplied_hash, []⟩ rng k

/-- State effect of `SimplexNoiseGenerator.generate_noise` (lines 800-847):
its first statement is `self.randomize_the_noise_array_seed(...)` (line
823); the remainder of the body only reads the state to compute the
float-valued cells and never writes any field, so the post-call state is
exactly the reseeded state. -/
def generate_noise_state (st : SimplexState) (rng : Rng) (k : ℕ) : SimplexState × ℕ :=
  randomize_the_noise_array_seed st rng k

/-- The skewing constant `F2 = 0.5 * (math.sqrt(3.0) - 1.0)` of the class
body (line 541): the exact rational value of that IEEE-double expression
(`math.sqrt(3.0)` rounds to `7800463371553962 / 2^52`; the subtraction
and halving are exact), following this file's convention of modelling
every Python float by its exact rational value. -/
def F2 : ℚ := 1648431872091733 / 4503599627370496

/-- The unskewing constant `G2 = (3.0 - math.sqrt(3.0)) / 6.0` of the
class body (line 542): the exact rational value of the IEEE double
(the subtraction is exact, the division by 6 rounds once). -/
def G2 : ℚ := 951722585092921 / 4503599627370496

/-- The class-body gradient table `grad3` (lines 512-514); only the first
two components of each entry are read by the 2-D code. -/
def grad3 : List (List ℤ) :=
  [[1, 1, 0], [-1, 1, 0], [1, -1, 0], [-1, -1, 0],
   [1, 0, 1], [-1, 0, 1], [1, 0, -1], [-1, 0, -1],
   [0, 1, 1], [0, -1, 1], [0, 1, -1], [0, -1, -1]]

/-- Translation of `twodee_dot_product` (lines 743-749). -/
def twodee_dot_product (supplied_gradient : List ℤ) (x y : ℚ) : ℚ :=
  ((supplied_gradient.getD 0 0 : ℤ) : ℚ) * x +
    ((supplied_gradient.getD 1 0 : ℤ) : ℚ) * y

/-- Translation of `generate_raw_unoctaved_noise` (lines 852-1049) over
exact rationals: skew into simplex coordinates with `int()` truncation,
pick the middle corner by `x0 > y0`, hash the three corner gradients
through the permutation table (`&` on the nonnegative hash is bitwise,
matching Python's on arbitrary integers), sum the three kernel
contributions, and rescale by `x ↦ (70 * x + 1) * 128` (lines 1040-1043).
`self.hash_number` is always a number once a permutation table has been
built, so the `getD 0` default of the hash is never reached from
`generate_noise`. -/
def generate_raw_unoctaved_noise (st : SimplexState)
    (supplied_x supplied_y : ℚ) : ℚ :=
  let s := (supplied_x + supplied_y) * F2
  let i : ℤ := pyInt (supplied_x + s)
  let j : ℤ := pyInt (supplied_y + s)
  let t : ℚ := ((i + j : ℤ) : ℚ) * G2
  let unskewed_x_zero := (i : ℚ) - t
  let unskewed_y_zero := (j : ℚ) - t
  let x0 := supplied_x - unskewed_x_zero
  let y0 := supplied_y - unskewed_y_zero
  let i1 : ℕ := if y0 < x0 then 1 else 0
  let j1 : ℕ := if y0 < x0 then 0 else 1
  let x1 := x0 - (i1 : ℚ) + G2
  let y1 := y0 - (j1 : ℚ) + G2
  let x2 := x0 - 1 + 2 * G2
  let y2 := y0 - 1 + 2 * G2
  let hash : ℕ := st.hash_number.getD 0
  let ii : ℕ := (Int.land i (hash : ℤ)).toNat
  let jj : ℕ := (Int.land j (hash : ℤ)).toNat
  let gradient_i_zero :=
    (st.permutations_table.getD (ii + st.permutations_table.getD jj 0) 0) % 12
  let gradient_i_one :=
    (st.permutations_table.getD
      (ii + i1 + st.permutations_table.getD (jj + j1) 0) 0) % 12
  let gradient_i_two :=
    (st.permutations_table.getD
      (ii + 1 + st.permutations_table.getD (jj + 1) 0) 0) % 12
  let t0 := 1 / 2 - x0 * x0 - y0 * y0
  let n0 := if t0 < 0 then 0 else
    t0 * t0 * (t0 * t0) * twodee_dot_product (grad3.getD gradient_i_zero []) x0 y0
  let t1 := 1 / 2 - x1 * x1 - y1 * y1
  let n1 := if t1 < 0 then 0 else
    t1 * t1 * (t1 * t1) * twodee_dot_product (grad3.getD gradient_i_one []) x1 y1
  let t2 := 1 / 2 - x2 * x2 - y2 * y2
  let n2 := if t2 < 0 then 0 else
    t2 * t2 * (t2 * t2) * twodee_dot_product (grad3.getD gradient_i_two []) x2 y2
  (70 * (n0 + n1 + n2) + 1) * 128

/-- The octave loop of `generate_octaved_noise` (lines 768-795), carrying
`(total_noise_for_this_cell, frequency, amplitude, max_amplitude)`. -/
def octave_loop (st : SimplexState) (supplied_x supplied_y persistence : ℚ) :
    ℕ → ℚ × ℚ × ℚ × ℚ → ℚ × ℚ × ℚ × ℚ
  | 0, acc => acc
  | n + 1, (total, frequency, amplitude, max_amplitude) =>
    octave_loop st supplied_x supplied_y persistence n
      (total + generate_raw_unoctaved_noise st (supplied_x * frequency)
          (supplied_y * frequency) * amplitude,
        frequency * 2, amplitude * persistence, max_amplitude + amplitude)

/-- Translation of `generate_octaved_noise` (lines 754-795): run the
octave loop from `(0, scale, 1, 0)` and divide the total by the
accumulated maximal amplitude.  Rational division by zero is `0`, whereas
Python raises `ZeroDivisionError` on `octaves = 0`; every claim about
this function assumes `octaves ≥ 1`. -/
def generate_octaved_noise (st : SimplexState) (supplied_x supplied_y scale : ℚ)
    (octaves : ℕ) (persistence : ℚ) : ℚ :=
  let r := octave_loop st supplied_x supplied_y persistence octaves (0, scale, 1, 0)
  r.1 / r.2.2.2

/-- Full translation of `SimplexNoiseGenerator.generate_noise` (lines
800-847): reseed first (line 823), then build `supplied_y` rows of
`supplied_x` octaved-noise cells; returns the grid together with the
post-call state and oracle position. -/
def generate_noise (st : SimplexState) (rng : Rng) (k : ℕ)
    (supplied_x supplied_y : ℤ) (scale : ℚ) (octaves : ℕ) (persistence : ℚ) :
    QGrid × SimplexState × ℕ :=
  let s1 := randomize_the_noise_array_seed st rng k
  ((List.range supplied_y.toNat).map (fun (each_y : ℕ) =>
      (List.range supplied_x.toNat).map (fun (each_x : ℕ) =>
        generate_octaved_noise s1.1 (each_x : ℚ) (each_y : ℚ) scale octaves
          persistence)),
    s1)

end SimplexNoiseGenerator

namespace RoomFilledMapGenerator

/-- Instance state of `RoomFilledMapGenerator` after the parameter update
at the top of `generate_noise` (lines 1500-1529, 1531-1560); unlike the
dungeon generators, the `-= 1` adjustments are commented out, so the
supplied width and height are kept as they are. -/
structure Params where
  map_width : ℤ
  map_height : ℤ
  room_max_size : ℤ
  room_min_size : ℤ

/-- One grid-cell visit of the room-filling scan (lines 1624-1791, the
live "attempt number two"): draw a candidate width and height, clamp each
against the matching map edge (rejecting when the clamp goes below the
minimum size), reject when any cell of the 3x3 neighbourhood is carved,
rescan the candidate width and height against the already-carved map, and
carve the surviving room additively.  The two `randint` draws can raise
`ValueError` (`none`) when `room_min_size > room_max_size`. -/
def cell_attempt (p : Params) (rng : Rng) (g : Grid) (k : ℕ)
    (each_row_index each_column_index : ℤ) : Option (Grid × ℕ) :=
  match randint rng k p.room_min_size p.room_max_size with
  | none => none
  | some (new_room_width, k1) =>
    match randint rng k1 p.room_min_size p.room_max_size with
    | none => none
    | some (new_room_height, k2) =>
      let rowLen : ℤ := ((g.getD each_row_index.toNat []).length : ℤ)
      let mapLen : ℤ := (g.length : ℤ)
      let should1 : Bool := true
      let w1 := if rowLen - 1 ≤ each_column_index + new_room_width then
          new_room_width - (each_column_index + new_room_width - (rowLen - 1))
        else new_room_width
      let should2 := if rowLen - 1 ≤ each_column_index + new_room_width ∧
          w1 < p.room_min_size then false else should1
      let h1 := if mapLen - 1 ≤ each_row_index + new_room_height then
          new_room_height - (each_row_index + new_room_height - (mapLen - 1))
        else new_room_height
      let should3 := if mapLen - 1 ≤ each_row_index + new_room_height ∧
          h1 < p.room_min_size then false else should2
      let offsets : List ℤ := [-1, 0, 1]
      let should4 := if offsets.any (fun dy => offsets.any (fun dx =>
          decide (¬getCell g (each_column_index + dx, each_row_index + dy) = 0)))
        then false else should3
      let scanW := (List.range w1.toNat).foldl
        (fun (st : ℕ × Bool) (each_next : ℕ) =>
          let inner := offsets.foldl
            (fun (st2 : Bool × Bool) dy =>
              offsets.foldl
                (fun (st3 : Bool × Bool) dx =>
                  if st3.2 ∧ getCell g (each_column_index + dx + (each_next : ℤ),
                      each_row_index + dy) = 0 then
                    (true, st3.2)
                  else (st3.1, false))
                st2)
            (false, st.2)
          if inner.1 ∧ inner.2 then (st.1 + 1, inner.2) else (st.1, inner.2))
        (0, true)
      let w2 : ℤ := (scanW.1 : ℤ)
      let should5 := if w2 < p.room_min_size then false else should4
      let room_height_decrementor := (List.range h1.toNat).foldl
        (fun (d : ℕ) (each_next : ℕ) =>
          if offsets.any (fun dy => offsets.any (fun dx =>
              decide (¬getCell g (each_column_index + dx,
                each_row_index + dy + (each_next : ℤ)) = 0)))
          then d + 1 else d)
        0
      let h2 := h1 - (room_height_decrementor : ℤ)
      let should6 := if h2 < p.room_min_size then false else should5
      if should6 then
        some ((List.range h2.toNat).foldl
          (fun g1 (hh : ℕ) =>
            (List.range w2.toNat).foldl
              (fun g2 (ww : ℕ) =>
                setCell g2 (each_column_index + (ww : ℤ),
                    each_row_index + (hh : ℤ))
                  (getCell g2 (each_column_index + (ww : ℤ),
                    each_row_index + (hh : ℤ)) + 1))
              g1)
          g, k2)
      else some (g, k2)

/-- One row of the scan: the column range `range(1, len(map[row]) - 1)` is
fixed from the map state at row entry, exactly as Python evaluates it. -/
def row_scan (p : Params) (rng : Rng) (each_row_index : ℕ) (s : Grid × ℕ) :
    Option (Grid × ℕ) :=
  ((List.range ((s.1.getD each_row_index []).length - 1)).drop 1).foldl
    (fun acc each_column_index => acc.bind (fun s2 =>
      cell_attempt p rng s2.1 s2.2 (each_row_index : ℤ) (each_column_index : ℤ)))
    (some s)

/-- Translation of `RoomFilledMapGenerator.generate_noise` (lines
1531-1797): build a `map_height × map_width` zero grid, scan its interior
cells row-major over `range(1, len(map) - 1) × range(1, len(map[row]) - 1)`
attempting a room at each, and return the carved grid. -/
def generate_noise (p : Params) (rng : Rng) (k : ℕ) : Option (Grid × ℕ) :=
  let new_dungeon_map := mkZeroGrid p.map_height.toNat p.map_width.toNat
  ((List.range (new_dungeon_map.length - 1)).drop 1).foldl
    (fun acc each_row_index => acc.bind (fun s =>
      row_scan p rng each_row_index s))
    (some (new_dungeon_map, k))

end RoomFilledMapGenerator

/-- Concrete parameters for a demonstration MarkII run: a 10 × 10 map,
rooms of fixed size 2, exactly two rooms. -/
def markII_demo_params : MarkIIDungeonMapGenerator.Params :=
  ⟨10, 10, 2, 2, 2, 2⟩

/-- Concrete random oracle for the demonstration MarkII run: draws 6 and 7
(the second room's position) return 4, every other draw returns 0. -/
def markII_demo_rng : Rng :=
  fun k => if k = 6 ∨ k = 7 then 4 else 0

/-- The room list accepted by the demonstration MarkII run. -/
def markII_demo_rooms : List Rect :=
  [⟨1, 1, 2, 2⟩, ⟨5, 5, 2, 2⟩]

/-- The grid returned by the demonstration MarkII run. -/
def markII_demo_grid : Grid :=
  [[0, 0, 0, 0, 0, 0, 0, 0, 0],
   [0, 1, 1, 0, 0, 0, 0, 0, 0],
   [0, 1, 1, 1, 1, 1, 1, 0, 0],
   [0, 0, 0, 0, 0, 0, 1, 0, 0],
   [0, 0, 0, 0, 0, 0, 1, 0, 0],
   [0, 0, 0, 0, 0, 1, 1, 0, 0],
   [0, 0, 0, 0, 0, 1, 1, 0, 0],
   [0, 0, 0, 0, 0, 0, 0, 0, 0],
   [0, 0, 0, 0, 0, 0, 0, 0, 0]]

/-- The grid of the demonstration RoomFilled run (5 x 5 supplied size,
room sizes fixed to 2, the all-zero oracle): one 2 x 2 room at (1, 1). -/
def roomfilled_demo_grid : Grid :=
  [[0, 0, 0, 0, 0],
   [0, 1, 1, 0, 0],
   [0, 1, 1, 0, 0],
   [0, 0, 0, 0, 0],
   [0, 0, 0, 0, 0]]

/-- Shape of a row-major table: `rows` rows, each of length `cols`. -/
def tableShape {α : Type} (g : List (List α)) (rows cols : ℕ) : Prop :=
  g.length = rows ∧ ∀ row ∈ g, row.length = cols

/-- Every cell of the rectangle lies inside a `rows × cols` grid. -/
def rectInBounds (rows cols : ℕ) (r : Rect) : Prop :=
  ∀ q : Pt, inRect r q → inGridBounds rows cols q

/-- Facts the MarkII placement loop guarantees for every accepted room:
sizes drawn from `[room_min_size, room_max_size]` and position drawn so
that the room stays strictly inside the working `map_width × map_height`
area (which is the supplied size minus one). -/
def markIIRoomOK (p : MarkIIDungeonMapGenerator.Params) (r : Rect) : Prop :=
  p.room_min_size ≤ r.w ∧ r.w ≤ p.room_max_size ∧
  p.room_min_size ≤ r.h ∧ r.h ≤ p.room_max_size ∧
  1 ≤ r.x ∧ r.x + r.w ≤ p.supplied_map_width - 2 ∧
  1 ≤ r.y ∧ r.y + r.h ≤ p.supplied_map_height - 2

/-- Invariant of the color lists: every member of every color is a cell
covered by the rectangles placed so far, and all members of one color are
mutually reachable through covered cells. -/
def colorsInv (L : List Rect) (colors : List (List Pt)) : Prop :=
  ∀ c ∈ colors, (∀ pt ∈ c, covered L pt) ∧ ∀ pt ∈ c, ∀ qt ∈ c, reachIn L pt qt

/-- Invariant of the first linking pass: corridors stay inside the grid,
every known centerpoint is a covered cell, and the colors satisfy
`colorsInv` with respect to the rooms and the corridors so far. -/
def linkInv (rooms : List Rect) (rows cols : ℕ)
    (st : MarkIIDungeonMapGenerator.LinkState) : Prop :=
  (∀ r ∈ st.list_of_new_corridors, rectInBounds rows cols r) ∧
  (∀ pt ∈ st.list_of_all_centerpoints,
    covered (rooms ++ st.list_of_new_corridors) pt) ∧
  colorsInv (rooms ++ st.list_of_new_corridors) st.list_of_room_connection_colors

/-- Invariant of the merging loop, over the pair of the color list and the
corridor list. -/
def mergeInv (rooms : List Rect) (rows cols : ℕ)
    (colors : List (List Pt)) (cors : List Rect) : Prop :=
  (∀ r ∈ cors, rectInBounds rows cols r) ∧ colorsInv (rooms ++ cors) colors

/-!
Theorems.  Every claim of the specification is settled below; helper
lemmas are shared, each claim has exactly one theorem (plus counterexample
and witness theorems where required).
-/

/-- Helper: `getD` after `set` at the same in-range index. -/
theorem list_getD_set_self {α : Type} (l : List α) (i : ℕ) (v d : α)
    (h : i < l.length) : (l.set i v).getD i d = v := by
  simp [List.getD, List.getElem?_set_self, h]

/-- Helper: `getD` after `set` at a different index. -/
theorem list_getD_set_ne {α : Type} (l : List α) (i j : ℕ) (v d : α)
    (h : i ≠ j) : (l.set i v).getD j d = l.getD j d := by
  simp [List.getD, List.getElem?_set_ne h]

/-- Helper: an in-range `getD` is a member of the list. -/
theorem list_getD_mem {α : Type} (l : List α) (i : ℕ) (d : α)
    (h : i < l.length) : l.getD i d ∈ l := by
  simp only [List.getD_eq_getElem?_getD, List.getElem?_eq_getElem h, Option.getD_some]
  exact List.getElem_mem h

/-- Helper: an out-of-range `getD` returns the default. -/
theorem list_getD_default {α : Type} (l : List α) (i : ℕ) (d : α)
    (h : l.length ≤ i) : l.getD i d = d := by
  simp [List.getD, List.getElem?_eq_none h]

/-- Helper: `mkZeroGrid` has the announced shape. -/
theorem tableShape_mkZeroGrid (rows cols : ℕ) :
    tableShape (mkZeroGrid rows cols) rows cols := by
  constructor
  · simp [mkZeroGrid]
  · intro row hrow
    rw [List.eq_of_mem_replicate hrow]
    simp

/-- Helper: `setCell` preserves the table shape. -/
theorem tableShape_setCell (g : Grid) (rows cols : ℕ) (p : Pt) (v : ℤ)
    (h : tableShape g rows cols) : tableShape (setCell g p v) rows cols := by
  unfold setCell
  split
  · rcases Nat.lt_or_ge p.2.toNat g.length with hlt | hge
    · refine ⟨by simpa using h.1, ?_⟩
      intro row hrow
      rcases List.mem_or_eq_of_mem_set hrow with hmem | heq
      · exact h.2 row hmem
      · subst heq
        rw [List.length_set]
        exact h.2 _ (list_getD_mem _ _ _ hlt)
    · rw [List.set_eq_of_length_le hge]
      exact h
  · exact h

/-- C5 (amended): every `SimplexNoiseGenerator.generate_noise` call
reshuffles: the permutation table after the call is a function of the
fixed seed sequence, the hash number and the randomness drawn during the
call alone — the pre-call table (and noise array) are discarded, so the
table persists only from one reseed to the next `generate_noise` call,
not across calls. -/
theorem simplex_reseed_every_call (st1 st2 : SimplexNoiseGenerator.SimplexState)
    (rng : Rng) (k : ℕ)
    (hseed : st1.noise_array_seed = st2.noise_array_seed)
    (hhash : st1.hash_number = st2.hash_number) :
    (SimplexNoiseGenerator.generate_noise_state st1 rng k).1.permutations_table =
      (SimplexNoiseGenerator.generate_noise_state st2 rng k).1.permutations_table := by
  simp only [SimplexNoiseGenerator.generate_noise_state,
    SimplexNoiseGenerator.randomize_the_noise_array_seed,
    SimplexNoiseGenerator.generate_permutations_table,
    SimplexNoiseGenerator.double_the_noise_array, hseed, hhash]

/-- Helper: `randomize_the_noise_array_seed` keeps the seed-sequence field
and keeps an already-set hash number. -/
theorem simplex_randomize_fields (st : SimplexNoiseGenerator.SimplexState)
    (rng : Rng) (k : ℕ) (hn : ℕ) (h : st.hash_number = some hn) :
    (SimplexNoiseGenerator.randomize_the_noise_array_seed st rng k).1.noise_array_seed =
      st.noise_array_seed ∧
    (SimplexNoiseGenerator.randomize_the_noise_array_seed st rng k).1.hash_number =
      some hn := by
  simp [SimplexNoiseGenerator.randomize_the_noise_array_seed,
    SimplexNoiseGenerator.generate_permutations_table, h]

/-- Witness for `simplex_reseed_every_call`: two generator states built by
`__init__` from different oracles share the seed sequence and hash, so a
`generate_noise` call started from either produces the same permutation
table. -/
theorem simplex_reseed_every_call_witness :
    (SimplexNoiseGenerator.simplex_init (some 255) (fun _ => 0) 0).1.noise_array_seed =
      (SimplexNoiseGenerator.simplex_init (some 255) (fun _ => 1) 0).1.noise_array_seed ∧
    (SimplexNoiseGenerator.simplex_init (some 255) (fun _ => 0) 0).1.hash_number =
      (SimplexNoiseGenerator.simplex_init (some 255) (fun _ => 1) 0).1.hash_number ∧
    (SimplexNoiseGenerator.generate_noise_state
        (SimplexNoiseGenerator.simplex_init (some 255) (fun _ => 0) 0).1
        (fun _ => 2) 7).1.permutations_table =
      (SimplexNoiseGenerator.generate_noise_state
        (SimplexNoiseGenerator.simplex_init (some 255) (fun _ => 1) 0).1
        (fun _ => 2) 7).1.permutations_table := by
  have h1 := simplex_randomize_fields
    ⟨SimplexNoiseGenerator.the_noise_array_seed, [], some 255, []⟩ (fun _ => 0) 0 255 rfl
  have h2 := simplex_randomize_fields
    ⟨SimplexNoiseGenerator.the_noise_array_seed, [], some 255, []⟩ (fun _ => 1) 0 255 rfl
  have hseed : (SimplexNoiseGenerator.simplex_init (some 255)
      (fun _ => 0) 0).1.noise_array_seed =
      (SimplexNoiseGenerator.simplex_init (some 255) (fun _ => 1) 0).1.noise_array_seed := by
    rw [SimplexNoiseGenerator.simplex_init, SimplexNoiseGenerator.simplex_init, h1.1, h2.1]
  have hhash : (SimplexNoiseGenerator.simplex_init (some 255)
      (fun _ => 0) 0).1.hash_number =
      (SimplexNoiseGenerator.simplex_init (some 255) (fun _ => 1) 0).1.hash_number := by
    rw [SimplexNoiseGenerator.simplex_init, SimplexNoiseGenerator.simplex_init, h1.2, h2.2]
  exact ⟨hseed, hhash, simplex_reseed_every_call _ _ _ _ hseed hhash⟩

/-- Helper: reading any cell of a table whose entries all lie in an
interval containing `0` gives a value in that interval. -/
theorem qGetCell_bound (arr : QGrid) (lo hi : ℚ) (hlo : lo ≤ 0) (hhi : 0 ≤ hi)
    (hall : ∀ row ∈ arr, ∀ v ∈ row, lo ≤ v ∧ v ≤ hi) (yy xx : ℤ) :
    lo ≤ qGetCell arr yy xx ∧ qGetCell arr yy xx ≤ hi := by
  unfold qGetCell
  split
  · rcases Nat.lt_or_ge yy.toNat arr.length with hy | hy
    · have hrow := list_getD_mem arr yy.toNat [] hy
      rcases Nat.lt_or_ge xx.toNat (arr.getD yy.toNat []).length with hx | hx
      · exact hall _ hrow _ (list_getD_mem _ _ _ hx)
      · rw [list_getD_default _ _ _ hx]
        exact ⟨hlo, hhi⟩
    · rw [list_getD_default _ _ _ hy]
      simp only [List.getD_nil]
      exact ⟨hlo, hhi⟩
  · exact ⟨hlo, hhi⟩

/-- Helper: `pyInt` agrees with the floor on nonnegative arguments. -/
theorem pyInt_of_nonneg (q : ℚ) (h : 0 ≤ q) : pyInt q = ⌊q⌋ := by
  unfold pyInt
  exact if_pos h

/-- Helper: for nonnegative sample coordinates the bilinear weights of
`smooth_noise` are the genuine fractional parts, so the result is a convex
combination of field samples and stays in `[0, 1]`. -/
theorem smooth_noise_bound (arr : QGrid) (w h : ℕ) (x y : ℚ)
    (hx : 0 ≤ x) (hy : 0 ≤ y)
    (hall : ∀ row ∈ arr, ∀ v ∈ row, 0 ≤ v ∧ v ≤ 1) :
    0 ≤ PerlinNoiseGenerator.smooth_noise arr w h x y ∧
      PerlinNoiseGenerator.smooth_noise arr w h x y ≤ 1 := by
  simp only [PerlinNoiseGenerator.smooth_noise]
  rw [pyInt_of_nonneg x hx, pyInt_of_nonneg y hy]
  have hfx0 : 0 ≤ x - (⌊x⌋ : ℚ) := sub_nonneg.2 (Int.floor_le x)
  have hfy0 : 0 ≤ y - (⌊y⌋ : ℚ) := sub_nonneg.2 (Int.floor_le y)
  have hfx1 : x - (⌊x⌋ : ℚ) ≤ 1 := by
    have := Int.lt_floor_add_one x
    push_cast at this ⊢
    linarith
  have hfy1 : y - (⌊y⌋ : ℚ) ≤ 1 := by
    have := Int.lt_floor_add_one y
    push_cast at this ⊢
    linarith
  have hv1 := qGetCell_bound arr 0 1 le_rfl zero_le_one hall
    (Int.emod (⌊y⌋ + h) h) (Int.emod (⌊x⌋ + w) w)
  have hv2 := qGetCell_bound arr 0 1 le_rfl zero_le_one hall
    (Int.emod (Int.emod (⌊y⌋ + h) h + h - 1) h) (Int.emod (⌊x⌋ + w) w)
  have hv3 := qGetCell_bound arr 0 1 le_rfl zero_le_one hall
    (Int.emod (⌊y⌋ + h) h) (Int.emod (Int.emod (⌊x⌋ + w) w + w - 1) w)
  have hv4 := qGetCell_bound arr 0 1 le_rfl zero_le_one hall
    (Int.emod (Int.emod (⌊y⌋ + h) h + h - 1) h)
    (Int.emod (Int.emod (⌊x⌋ + w) w + w - 1) w)
  set a := x - (⌊x⌋ : ℚ) with ha
  set b := y - (⌊y⌋ : ℚ) with hb
  set v1 := qGetCell arr (Int.emod (⌊y⌋ + h) h) (Int.emod (⌊x⌋ + w) w)
  set v2 := qGetCell arr (Int.emod (Int.emod (⌊y⌋ + h) h + h - 1) h)
    (Int.emod (⌊x⌋ + w) w)
  set v3 := qGetCell arr (Int.emod (⌊y⌋ + h) h)
    (Int.emod (Int.emod (⌊x⌋ + w) w + w - 1) w)
  set v4 := qGetCell arr (Int.emod (Int.emod (⌊y⌋ + h) h + h - 1) h)
    (Int.emod (Int.emod (⌊x⌋ + w) w + w - 1) w)
  constructor
  · have t1 : 0 ≤ a * b * v1 := mul_nonneg (mul_nonneg hfx0 hfy0) hv1.1
    have t2 : 0 ≤ a * (1 - b) * v2 :=
      mul_nonneg (mul_nonneg hfx0 (by linarith)) hv2.1
    have t3 : 0 ≤ (1 - a) * b * v3 :=
      mul_nonneg (mul_nonneg (by linarith) hfy0) hv3.1
    have t4 : 0 ≤ (1 - a) * (1 - b) * v4 :=
      mul_nonneg (mul_nonneg (by linarith) (by linarith)) hv4.1
    linarith
  · have t1 : a * b * v1 ≤ a * b :=
      mul_le_of_le_one_right (mul_nonneg hfx0 hfy0) hv1.2
    have t2 : a * (1 - b) * v2 ≤ a * (1 - b) :=
      mul_le_of_le_one_right (mul_nonneg hfx0 (by linarith)) hv2.2
    have t3 : (1 - a) * b * v3 ≤ (1 - a) * b :=
      mul_le_of_le_one_right (mul_nonneg (by linarith) hfy0) hv3.2
    have t4 : (1 - a) * (1 - b) * v4 ≤ (1 - a) * (1 - b) :=
      mul_le_of_le_one_right (mul_nonneg (by linarith) (by linarith)) hv4.2
    have hsum : a * b + a * (1 - b) + (1 - a) * b + (1 - a) * (1 - b) = 1 := by ring
    linarith

/-- Helper: the turbulence accumulation stays between `0` and
`(2 - (1/2)^fuel) * size`: each pass adds at most `size` and the sizes are
halved, so the total is a partial geometric sum. -/
theorem turbulence_loop_bound (arr : QGrid) (w h : ℕ) (x y : ℚ)
    (hx : 0 ≤ x) (hy : 0 ≤ y)
    (hall : ∀ row ∈ arr, ∀ v ∈ row, 0 ≤ v ∧ v ≤ 1) :
    ∀ (fuel : ℕ) (size : ℚ), 0 ≤ size →
      0 ≤ PerlinNoiseGenerator.turbulence_loop arr w h x y fuel size ∧
        PerlinNoiseGenerator.turbulence_loop arr w h x y fuel size ≤
          (2 - (1 / 2) ^ fuel) * size := by
  intro fuel
  induction fuel with
  | zero =>
    intro size hs
    rw [PerlinNoiseGenerator.turbulence_loop]
    constructor
    · exact le_rfl
    · nlinarith
  | succ n ih =>
    intro size hs
    rw [PerlinNoiseGenerator.turbulence_loop]
    split
    · rename_i hsz
      have hszpos : (0 : ℚ) < size := lt_of_lt_of_le one_pos hsz
      have hrec := ih (size / 2) (by positivity)
      have hsm := smooth_noise_bound arr w h (x / size) (y / size)
        (div_nonneg hx hszpos.le) (div_nonneg hy hszpos.le) hall
      constructor
      · have hterm : 0 ≤ PerlinNoiseGenerator.smooth_noise arr w h (x / size)
            (y / size) * size := mul_nonneg hsm.1 hs
        linarith [hrec.1]
      · have hterm : PerlinNoiseGenerator.smooth_noise arr w h (x / size)
            (y / size) * size ≤ 1 * size := mul_le_mul_of_nonneg_right hsm.2 hs
        have hiden : (2 - (1 / 2 : ℚ) ^ (n + 1)) * size =
            size + (2 - (1 / 2) ^ n) * (size / 2) := by ring
        linarith [hrec.2]
    · have hpow : (1 / 2 : ℚ) ^ (n + 1) ≤ 1 :=
        pow_le_one₀ (by norm_num) (by norm_num)
      constructor
      · exact le_rfl
      · nlinarith

/-- Helper: the turbulence value with `octaves ≥ 1` lies in `[0, 256)`. -/
theorem turbulence_bound (arr : QGrid) (w h : ℕ) (x y : ℚ) (octaves : ℕ)
    (hx : 0 ≤ x) (hy : 0 ≤ y) (ho : 1 ≤ octaves)
    (hall : ∀ row ∈ arr, ∀ v ∈ row, 0 ≤ v ∧ v ≤ 1) :
    0 ≤ PerlinNoiseGenerator.totally_justified_turbulence_function arr w h x y octaves ∧
      PerlinNoiseGenerator.totally_justified_turbulence_function arr w h x y octaves <
        256 := by
  unfold PerlinNoiseGenerator.totally_justified_turbulence_function
  have hszpos : (0 : ℚ) < octaves := by
    have : (1 : ℚ) ≤ octaves := by exact_mod_cast ho
    linarith
  have hb := turbulence_loop_bound arr w h x y hx hy hall octaves octaves hszpos.le
  constructor
  · exact mul_nonneg (div_nonneg hb.1 hszpos.le) (by norm_num)
  · have hpow : (0 : ℚ) < (1 / 2) ^ octaves := by positivity
    have hdiv : PerlinNoiseGenerator.turbulence_loop arr w h x y octaves octaves /
        octaves ≤ 2 - (1 / 2) ^ octaves := by
      rw [div_le_iff₀ hszpos]
      linarith [hb.2]
    nlinarith

/-- C9 (amended): for nonnegative `frequency` and `octaves ≥ 1` every cell
of `PerlinNoiseGenerator.generate_noise` lies in `[0, 256)` (the claimed
band around the bias constant 128); for negative frequencies cells can
leave `[0, 256]`, see the counterexample. -/
theorem perlin_bounds_nonneg_frequency (rng : Rng) (width height : ℕ)
    (frequency : ℚ) (octaves : ℕ) (hf : 0 ≤ frequency) (ho : 1 ≤ octaves) :
    ∀ row ∈ PerlinNoiseGenerator.generate_noise rng width height frequency octaves,
      ∀ v ∈ row, 0 ≤ v ∧ v < 256 := by
  intro row hrow v hv
  simp only [PerlinNoiseGenerator.generate_noise, List.mem_map] at hrow
  obtain ⟨yy, -, hrow⟩ := hrow
  subst hrow
  simp only [List.mem_map] at hv
  obtain ⟨xx, -, hv⟩ := hv
  subst hv
  have hall : ∀ row ∈ (List.range height).map (fun each_row =>
      (List.range width).map (fun each_column =>
        ((rng (each_row * width + each_column) % 1001 : ℕ) : ℚ) / 1000)),
      ∀ v ∈ row, 0 ≤ v ∧ v ≤ 1 := by
    intro row hrow v hv
    simp only [List.mem_map] at hrow
    obtain ⟨r, -, hrow⟩ := hrow
    subst hrow
    simp only [List.mem_map] at hv
    obtain ⟨c, -, hv⟩ := hv
    subst hv
    constructor
    · positivity
    · rw [div_le_one (by norm_num)]
      have : rng (r * width + c) % 1001 < 1001 := Nat.mod_lt _ (by norm_num)
      exact_mod_cast Nat.le_of_lt_succ this
  have ht := turbulence_bound _ width height ((xx : ℚ) * frequency)
    ((yy : ℚ) * frequency) octaves
    (mul_nonneg (Nat.cast_nonneg xx) hf) (mul_nonneg (Nat.cast_nonneg yy) hf) ho hall
  rw [pyInt_of_nonneg _ ht.1]
  constructor
  · exact Int.le_floor.2 (by exact_mod_cast ht.1)
  · exact_mod_cast Int.floor_lt.2 (by exact_mod_cast ht.2)

/-- Witness for `perlin_bounds_nonneg_frequency`: instantiated on a 1 × 1
map with frequency 0 and one octave. -/
theorem perlin_bounds_nonneg_frequency_witness :
    (0 : ℚ) ≤ 0 ∧ (1 : ℕ) ≤ 1 ∧
    (∀ row ∈ PerlinNoiseGenerator.generate_noise (fun _ => 0) 1 1 0 1,
      ∀ v ∈ row, 0 ≤ v ∧ v < 256) := by
  exact ⟨le_rfl, le_rfl,
    perlin_bounds_nonneg_frequency (fun _ => 0) 1 1 0 1 le_rfl le_rfl⟩

/-- Helper: `qSetCell` never changes the number of rows nor any row
length. -/
theorem qSetCell_dims (g : QGrid) (yy xx : ℤ) (v : ℚ) :
    (qSetCell g yy xx v).length = g.length ∧
    ∀ i : ℕ, ((qSetCell g yy xx v).getD i []).length = (g.getD i []).length := by
  unfold qSetCell
  split
  · refine ⟨List.length_set .., ?_⟩
    intro i
    rcases eq_or_ne yy.toNat i with heq | hne
    · subst heq
      rcases Nat.lt_or_ge yy.toNat g.length with hlt | hge
      · rw [list_getD_set_self _ _ _ _ hlt, List.length_set]
      · rw [List.set_eq_of_length_le hge]
    · rw [list_getD_set_ne _ _ _ _ _ hne]
  · exact ⟨rfl, fun _ => rfl⟩

/-- Helper: reading back a just-written in-range cell. -/
theorem qGetCell_qSetCell_self (g : QGrid) (yy xx : ℤ) (v : ℚ)
    (hyy : 0 ≤ yy) (hxx : 0 ≤ xx) (hrow : yy.toNat < g.length)
    (hcol : xx.toNat < (g.getD yy.toNat []).length) :
    qGetCell (qSetCell g yy xx v) yy xx = v := by
  unfold qGetCell qSetCell
  rw [if_pos ⟨hxx, hyy⟩, if_pos ⟨hxx, hyy⟩]
  rw [list_getD_set_self _ _ _ _ hrow]
  exact list_getD_set_self _ _ _ _ hcol

/-- Helper: reading the corner `(0, 0)` ignores the sign guard. -/
theorem qGetCell_zero_eq (g : QGrid) : qGetCell g 0 0 = (g.getD 0 []).getD 0 0 := by
  unfold qGetCell
  rw [if_pos ⟨le_rfl, le_rfl⟩]
  rfl

/-- Helper: a write at a cell other than `(0, 0)` does not change the cell
at `(0, 0)`. -/
theorem qGetCell_qSetCell_zero_ne (g : QGrid) (yy xx : ℤ) (v : ℚ)
    (hne : ¬(yy = 0 ∧ xx = 0)) :
    qGetCell (qSetCell g yy xx v) 0 0 = qGetCell g 0 0 := by
  rw [qGetCell_zero_eq, qGetCell_zero_eq]
  unfold qSetCell
  split
  · rename_i hguard
    rcases eq_or_ne yy 0 with hy | hy
    · subst hy
      have hx : xx ≠ 0 := fun hx => hne ⟨rfl, hx⟩
      have hxx : xx.toNat ≠ 0 := by
        rcases hguard with ⟨hx0, -⟩
        omega
      rcases Nat.lt_or_ge (0 : ℕ) g.length with hlt | hge
      · rw [show ((0 : ℤ)).toNat = 0 from rfl, list_getD_set_self _ _ _ _ hlt,
          list_getD_set_ne _ _ _ _ _ hxx]
      · rw [List.set_eq_of_length_le (by simpa using hge)]
    · have hyy : yy.toNat ≠ 0 := by
        rcases hguard with ⟨-, hy0⟩
        omega
      rw [list_getD_set_ne _ _ _ _ _ hyy]
  · rfl

/-- Helper: if every scattered cell carries the value `c` and some
scattered cell lands exactly on `(0, 0)` (or the grid already holds `c`
there), the scatter fold of `PlasmaFractalGenerator.generate_noise` leaves
`c` at `(0, 0)`. -/
theorem plasma_scatter_corner (c : ℚ) :
    ∀ (L : List (ℚ × ℚ × ℚ)) (g : QGrid),
      (∀ cell ∈ L, cell.2.2 = c) →
      0 < g.length → 0 < (g.getD 0 []).length →
      ((∃ cell ∈ L, pyInt cell.2.1 = 0 ∧ pyInt cell.1 = 0) ∨ qGetCell g 0 0 = c) →
      qGetCell (L.foldl (fun g2 each_cell =>
        qSetCell g2 (pyInt each_cell.2.1) (pyInt each_cell.1) each_cell.2.2) g) 0 0 = c := by
  intro L
  induction L with
  | nil =>
    intro g _ _ _ hdisj
    rcases hdisj with ⟨cell, hmem, -⟩ | hc
    · exact absurd hmem (List.not_mem_nil _)
    · exact hc
  | cons cell rest ih =>
    intro g hall hrows hcols hdisj
    have hdims := qSetCell_dims g (pyInt cell.2.1) (pyInt cell.1) cell.2.2
    simp only [List.foldl_cons]
    by_cases hhit : pyInt cell.2.1 = 0 ∧ pyInt cell.1 = 0
    · refine ih _ (fun q hq => hall q (List.mem_cons_of_mem _ hq))
        (by rw [hdims.1]; exact hrows) (by rw [hdims.2 0]; exact hcols) (Or.inr ?_)
      rw [hhit.1, hhit.2]
      have := qGetCell_qSetCell_self g 0 0 cell.2.2 le_rfl le_rfl
        (by simpa using hrows) (by simpa using hcols)
      rw [this]
      exact hall cell (List.mem_cons_self _ _)
    · refine ih _ (fun q hq => hall q (List.mem_cons_of_mem _ hq))
        (by rw [hdims.1]; exact hrows) (by rw [hdims.2 0]; exact hcols) ?_
      rcases hdisj with ⟨cell', hmem, hcell'⟩ | hc
      · rcases List.mem_cons.1 hmem with heq | hmem'
        · exact absurd (heq ▸ hcell') hhit
        · exact Or.inl ⟨cell', hmem', hcell'⟩
      · exact Or.inr (by rw [qGetCell_qSetCell_zero_ne g _ _ _ hhit]; exact hc)

/-- Helper: a draw from the degenerate range `[0, 0]` is `0`. -/
theorem randint_zero_zero (rng : Rng) (k : ℕ) : randint rng k 0 0 = some (0, k + 1) := by
  unfold randint
  rw [if_pos le_rfl]
  norm_num
  exact Int.emod_one _

/-- Helper: with zero displacement bounds and all four corners equal to
`c`, every cell emitted by `plasma_recursion` has value `c`, and a cell is
emitted at exactly the quadrant origin `(x, y)`. -/
theorem plasma_recursion_const (msd : ℚ) (rng : Rng) (c : ℚ) :
    ∀ (fuel : ℕ) (x y w h : ℚ) (k : ℕ) (res : List (ℚ × ℚ × ℚ) × ℕ),
      PlasmaFractalGenerator.plasma_recursion ⟨0, 0, msd⟩ rng fuel x y w h
        c c c c k = some res →
      (∀ cell ∈ res.1, cell.2.2 = c) ∧ (∃ z, (x, y, z) ∈ res.1) := by
  intro fuel
  induction fuel with
  | zero =>
    intro x y w h k res hrun
    rw [PlasmaFractalGenerator.plasma_recursion] at hrun
    exact absurd hrun (by simp)
  | succ n ih =>
    intro x y w h k res hrun
    rw [PlasmaFractalGenerator.plasma_recursion] at hrun
    simp only [randint_zero_zero, Int.cast_zero, add_zero] at hrun
    rw [show (c + c + c + c) / 4 = c from by ring,
      show (c + c) / 2 = c from by ring] at hrun
    split at hrun
    · rcases Option.bind_eq_some.1 hrun with ⟨s1, hs1, hrun1⟩
      rcases Option.bind_eq_some.1 hrun1 with ⟨s2, hs2, hrun2⟩
      rcases Option.bind_eq_some.1 hrun2 with ⟨s3, hs3, hrun3⟩
      rcases Option.map_eq_some'.1 hrun3 with ⟨s4, hs4, hres⟩
      have r1 := ih _ _ _ _ _ _ hs1
      have r2 := ih _ _ _ _ _ _ hs2
      have r3 := ih _ _ _ _ _ _ hs3
      have r4 := ih _ _ _ _ _ _ hs4
      subst hres
      constructor
      · intro cell hmem
        simp only [List.mem_append] at hmem
        rcases hmem with ((hm | hm) | hm) | hm
        · exact r1.1 cell hm
        · exact r2.1 cell hm
        · exact r3.1 cell hm
        · exact r4.1 cell hm
      · obtain ⟨z, hz⟩ := r1.2
        exact ⟨z, by simp only [List.mem_append]; exact Or.inl (Or.inl (Or.inl hz))⟩
    · have hres : res = ([(x, y, c)], k) := (Option.some.inj hrun).symm
      subst hres
      constructor
      · intro cell hmem
        rcases List.mem_singleton.1 hmem with rfl
        rfl
      · exact ⟨c, List.mem_singleton.2 rfl⟩

/-- C8 (amended): pinning the four corners does not pin the corner cells
in general (see the counterexample); what holds is: when the four supplied
corner values are all the same value `c` and the displacement bounds are
zero, the recursion keeps the whole field constant, so every written cell
— in particular the upper-left corner cell `grid[0][0]`, which is always
written — equals `c` exactly. -/
theorem plasma_constant_corners (msd : ℚ) (rng : Rng) (fuel : ℕ) (w h : ℕ)
    (c : ℚ) (g : QGrid) (k k' : ℕ) (hw : 1 ≤ w) (hh : 1 ≤ h)
    (hrun : PlasmaFractalGenerator.generate_noise ⟨0, 0, msd⟩ rng fuel 0 0 w h
      c c c c k = some (g, k')) :
    qGetCell g 0 0 = c := by
  simp only [PlasmaFractalGenerator.generate_noise, Option.map_eq_some'] at hrun
  obtain ⟨s, hs, heq⟩ := hrun
  obtain ⟨hall, z, hz⟩ := plasma_recursion_const msd rng c fuel 0 0 w h k s hs
  have hg : g = s.1.foldl (fun g2 each_cell =>
      qSetCell g2 (pyInt each_cell.2.1) (pyInt each_cell.1) each_cell.2.2)
      (List.replicate h (List.replicate w (-1 : ℚ))) := by
    have := congrArg Prod.fst heq
    exact this.symm
  subst hg
  apply plasma_scatter_corner c s.1 _ hall
  · simpa using Nat.lt_of_lt_of_le Nat.zero_lt_one hh
  · have hrow : (List.replicate h (List.replicate w (-1 : ℚ))).getD 0 [] =
        List.replicate w (-1 : ℚ) := by
      apply List.eq_of_mem_replicate
      exact list_getD_mem _ _ _ (by simpa using Nat.lt_of_lt_of_le Nat.zero_lt_one hh)
    rw [hrow]
    simpa using Nat.lt_of_lt_of_le Nat.zero_lt_one hw
  · refine Or.inl ⟨(0, 0, z), hz, ?_, ?_⟩ <;>
      simp [pyInt]

/-- Witness for `plasma_constant_corners`: a 2 × 2 run with all corners 7
and zero displacement returns the constant grid, and the theorem gives the
corner value 7. -/
theorem plasma_constant_corners_witness :
    PlasmaFractalGenerator.generate_noise ⟨0, 0, 1⟩ (fun _ => 0) 3 0 0 2 2
      7 7 7 7 0 = some ([[7, 7], [7, 7]], 1) ∧
    (1 : ℕ) ≤ 2 ∧
    qGetCell [[7, 7], [7, 7]] 0 0 = 7 := by
  have hrun : PlasmaFractalGenerator.generate_noise ⟨0, 0, 1⟩ (fun _ => 0) 3 0 0 2 2
      7 7 7 7 0 = some ([[7, 7], [7, 7]], 1) := by
    norm_num [PlasmaFractalGenerator.generate_noise,
      PlasmaFractalGenerator.plasma_recursion, randint, qSetCell, qGetCell, pyInt,
      List.replicate]
  exact ⟨hrun, by norm_num,
    plasma_constant_corners 1 (fun _ => 0) 3 2 2 7 _ 0 1 (by norm_num) (by norm_num) hrun⟩

/-- Helper: a fold preserves any invariant its step preserves. -/
theorem foldl_preserves {α β : Type} (P : α → Prop) (f : α → β → α)
    (hf : ∀ a b, P a → P (f a b)) :
    ∀ (l : List β) (a : α), P a → P (l.foldl f a) := by
  intro l
  induction l with
  | nil => intro a ha; exact ha
  | cons b rest ih => intro a ha; exact ih _ (hf a b ha)

/-- Helper: `qSetCell` preserves the table shape. -/
theorem tableShape_qSetCell (g : QGrid) (rows cols : ℕ) (yy xx : ℤ) (v : ℚ)
    (h : tableShape g rows cols) : tableShape (qSetCell g yy xx v) rows cols := by
  unfold qSetCell
  split
  · rcases Nat.lt_or_ge yy.toNat g.length with hlt | hge
    · refine ⟨by simpa using h.1, ?_⟩
      intro row hrow
      rcases List.mem_or_eq_of_mem_set hrow with hmem | heq
      · exact h.2 row hmem
      · subst heq
        rw [List.length_set]
        exact h.2 _ (list_getD_mem _ _ _ hlt)
    · rw [List.set_eq_of_length_le hge]
      exact h
  · exact h

/-- Helper: `carve_room` preserves the table shape. -/
theorem tableShape_carve_room (rows cols : ℕ) (g : Grid) (r : Rect)
    (h : tableShape g rows cols) :
    tableShape (MarkIIDungeonMapGenerator.carve_room g r) rows cols := by
  unfold MarkIIDungeonMapGenerator.carve_room
  refine foldl_preserves (fun gg => tableShape gg rows cols) _ ?_ _ _ h
  intro g1 hu h1
  refine foldl_preserves (fun gg => tableShape gg rows cols) _ ?_ _ _ h1
  intro g2 wu h2
  exact tableShape_setCell _ _ _ _ _ h2

/-- Helper: `carve_corridor` preserves the table shape. -/
theorem tableShape_carve_corridor (rows cols : ℕ) (g : Grid) (r : Rect)
    (h : tableShape g rows cols) :
    tableShape (MarkIIDungeonMapGenerator.carve_corridor g r) rows cols := by
  unfold MarkIIDungeonMapGenerator.carve_corridor
  refine foldl_preserves (fun gg => tableShape gg rows cols) _ ?_ _ _ h
  intro g1 hu h1
  refine foldl_preserves (fun gg => tableShape gg rows cols) _ ?_ _ _ h1
  intro g2 wu h2
  split
  · exact tableShape_setCell _ _ _ _ _ h2
  · exact h2

/-- Helper: shape of a successful MarkII run's grid (and, along the way,
the fact that the returned grid is the rasterization of the returned
rooms and of the corridor list of the run). -/
theorem markII_generate_shape (p : MarkIIDungeonMapGenerator.Params) (rng : Rng)
    (fuel : ℕ) (g : Grid) (rooms : List Rect)
    (hrun : MarkIIDungeonMapGenerator.generate_noise p rng fuel = some (g, rooms)) :
    tableShape g (p.supplied_map_height - 1).toNat (p.supplied_map_width - 1).toNat := by
  unfold MarkIIDungeonMapGenerator.generate_noise at hrun
  rcases Option.bind_eq_some.1 hrun with ⟨s, -, hrun1⟩
  rcases Option.bind_eq_some.1 hrun1 with ⟨st, -, hrun2⟩
  rcases Option.map_eq_some'.1 hrun2 with ⟨m, -, hres⟩
  have hg : g = m.2.1.foldl MarkIIDungeonMapGenerator.carve_corridor
      (s.1.foldl MarkIIDungeonMapGenerator.carve_room
        (mkZeroGrid (p.supplied_map_height - 1).toNat (p.supplied_map_width - 1).toNat)) :=
    (congrArg Prod.fst hres).symm
  subst hg
  refine foldl_preserves
    (fun gg => tableShape gg (p.supplied_map_height - 1).toNat
      (p.supplied_map_width - 1).toNat) _
    (fun a b ha => tableShape_carve_corridor _ _ _ _ ha) _ _ ?_
  refine foldl_preserves
    (fun gg => tableShape gg (p.supplied_map_height - 1).toNat
      (p.supplied_map_width - 1).toNat) _
    (fun a b ha => tableShape_carve_room _ _ _ _ ha) _ _ ?_
  exact tableShape_mkZeroGrid _ _

/-- Helper: an option-valued fold preserves an invariant of its state. -/
theorem option_foldl_preserves {α β : Type} (P : α → Prop)
    (f : α → β → Option α)
    (hf : ∀ a b a2, f a b = some a2 → P a → P a2) :
    ∀ (l : List β) (s0 : Option α) (s2 : α),
      l.foldl (fun acc b => acc.bind (fun a => f a b)) s0 = some s2 →
      (∀ a, s0 = some a → P a) → P s2 := by
  intro l
  induction l with
  | nil =>
    intro s0 s2 h h0
    exact h0 s2 h
  | cons b rest ih =>
    intro s0 s2 h h0
    rw [List.foldl_cons] at h
    refine ih _ s2 h ?_
    intro a ha
    rcases Option.bind_eq_some.1 ha with ⟨a1, ha1, hf1⟩
    exact hf a1 b a hf1 (h0 a1 ha1)

/-- Helper: inversion for a two-branch conditional of `some` results. -/
theorem ite_some_inv {γ : Type} (c : Prop) [inst : Decidable c] (a b z : γ)
    (h : (if c then some a else some b) = some z) : z = a ∨ z = b := by
  split at h
  · exact Or.inl (Option.some.inj h).symm
  · exact Or.inr (Option.some.inj h).symm

/-- Helper: one RoomFilled cell attempt only ever writes cells, so the
table shape is preserved. -/
theorem cell_attempt_shape (p : RoomFilledMapGenerator.Params) (rng : Rng)
    (rows cols : ℕ) (g : Grid) (k : ℕ) (r c : ℤ) (g2 : Grid) (k2 : ℕ)
    (h : RoomFilledMapGenerator.cell_attempt p rng g k r c = some (g2, k2))
    (hsh : tableShape g rows cols) : tableShape g2 rows cols := by
  simp only [RoomFilledMapGenerator.cell_attempt] at h
  split at h
  · exact absurd h (by simp)
  rename_i w k1 hw
  split at h
  · exact absurd h (by simp)
  rename_i ht k1b hht
  rcases ite_some_inv _ _ _ _ h with h2 | h2 <;>
    simp only [Prod.mk.injEq] at h2 <;> rw [h2.1]
  · exact foldl_preserves (fun gg => tableShape gg rows cols) _
      (fun a b ha => foldl_preserves (fun gg => tableShape gg rows cols) _
        (fun a2 b2 ha2 => tableShape_setCell _ _ _ _ _ ha2) _ _ ha) _ _ hsh
  · exact hsh

/-- Helper: one RoomFilled row scan preserves the table shape. -/
theorem row_scan_shape (p : RoomFilledMapGenerator.Params) (rng : Rng)
    (rows cols row : ℕ) (s s2 : Grid × ℕ)
    (h : RoomFilledMapGenerator.row_scan p rng row s = some s2)
    (hsh : tableShape s.1 rows cols) : tableShape s2.1 rows cols := by
  unfold RoomFilledMapGenerator.row_scan at h
  refine option_foldl_preserves (fun z : Grid × ℕ => tableShape z.1 rows cols)
    (fun z col => RoomFilledMapGenerator.cell_attempt p rng z.1 z.2 (row : ℤ)
      (col : ℤ))
    ?_ _ _ _ h (fun a ha => by rcases Option.some.inj ha with rfl; exact hsh)
  intro a b a2 hstep ha
  obtain ⟨g2, k2⟩ := a2
  exact cell_attempt_shape p rng rows cols a.1 a.2 _ _ g2 k2 hstep ha

/-- Helper: shape of a successful RoomFilled run: the carving scan never
changes the `map_height × map_width` zero grid's shape. -/
theorem roomfilled_generate_shape (p : RoomFilledMapGenerator.Params)
    (rng : Rng) (k : ℕ) (g : Grid) (k2 : ℕ)
    (h : RoomFilledMapGenerator.generate_noise p rng k = some (g, k2)) :
    tableShape g p.map_height.toNat p.map_width.toNat := by
  unfold RoomFilledMapGenerator.generate_noise at h
  refine option_foldl_preserves
    (fun z : Grid × ℕ => tableShape z.1 p.map_height.toNat p.map_width.toNat)
    (fun z row => RoomFilledMapGenerator.row_scan p rng row z) ?_ _ _ (g, k2) h
    (fun a ha => by
      rcases Option.some.inj ha with rfl
      exact tableShape_mkZeroGrid _ _)
  intro a b a2 hstep ha
  exact row_scan_shape p rng _ _ b a a2 hstep ha

/-- Helper: the demonstration RoomFilled run (5 x 5 supplied size, room
sizes fixed to 2, the all-zero oracle) carves one 2 x 2 room. -/
theorem roomfilled_demo_run :
    RoomFilledMapGenerator.generate_noise ⟨5, 5, 2, 2⟩ (fun _ => 0) 0 =
      some (roomfilled_demo_grid, 18) := by
  decide

/-- C3 (amended): the four noise-style generators (Perlin, Plasma,
Simplex, RoomFilled) return grids of exactly `height` rows of `width`
cells, but the two dungeon generators subtract one from the supplied
width and height on entry (reserving the bottom/right border), so their
grids have `height - 1` rows of `width - 1` cells. -/
theorem dimension_invariant_amended :
    (∀ (rng : Rng) (width height : ℕ) (frequency : ℚ) (octaves : ℕ),
      tableShape (PerlinNoiseGenerator.generate_noise rng width height frequency octaves)
        height width) ∧
    (∀ (p : PlasmaFractalGenerator.Params) (rng : Rng) (fuel : ℕ) (x y : ℚ)
      (width height : ℕ) (ul ur ll lr : ℚ) (k : ℕ) (g : QGrid) (k' : ℕ),
      PlasmaFractalGenerator.generate_noise p rng fuel x y width height ul ur ll lr k =
        some (g, k') → tableShape g height width) ∧
    (∀ (st : SimplexNoiseGenerator.SimplexState) (rng : Rng) (k : ℕ)
      (supplied_x supplied_y : ℤ) (scale : ℚ) (octaves : ℕ) (persistence : ℚ),
      tableShape (SimplexNoiseGenerator.generate_noise st rng k supplied_x
          supplied_y scale octaves persistence).1
        supplied_y.toNat supplied_x.toNat) ∧
    (∀ (p : RoomFilledMapGenerator.Params) (rng : Rng) (k : ℕ) (g : Grid) (k2 : ℕ),
      RoomFilledMapGenerator.generate_noise p rng k = some (g, k2) →
      tableShape g p.map_height.toNat p.map_width.toNat) ∧
    (∀ (p : DungeonMapGenerator.Params) (rng : Rng) (fuel : ℕ) (g : Grid),
      DungeonMapGenerator.generate_noise p rng fuel = some g →
      tableShape g (p.supplied_map_height - 1).toNat (p.supplied_map_width - 1).toNat) ∧
    (∀ (p : MarkIIDungeonMapGenerator.Params) (rng : Rng) (fuel : ℕ) (g : Grid)
      (rooms : List Rect),
      MarkIIDungeonMapGenerator.generate_noise p rng fuel = some (g, rooms) →
      tableShape g (p.supplied_map_height - 1).toNat (p.supplied_map_width - 1).toNat) := by
  refine ⟨?_, ?_, ?_, ?_, ?_, ?_⟩
  · intro rng width height frequency octaves
    constructor
    · simp [PerlinNoiseGenerator.generate_noise]
    · intro row hrow
      simp only [PerlinNoiseGenerator.generate_noise, List.mem_map] at hrow
      obtain ⟨yy, -, hrow⟩ := hrow
      subst hrow
      simp
  · intro p rng fuel x y width height ul ur ll lr k g k' hrun
    simp only [PlasmaFractalGenerator.generate_noise, Option.map_eq_some'] at hrun
    obtain ⟨s, -, heq⟩ := hrun
    have hg : g = s.1.foldl (fun g2 each_cell =>
        qSetCell g2 (pyInt each_cell.2.1) (pyInt each_cell.1) each_cell.2.2)
        (List.replicate height (List.replicate width (-1 : ℚ))) :=
      (congrArg Prod.fst heq).symm
    subst hg
    refine foldl_preserves (fun gg => tableShape gg height width) _
      (fun a b ha => tableShape_qSetCell _ _ _ _ _ _ ha) _ _ ?_
    constructor
    · simp
    · intro row hrow
      rw [List.eq_of_mem_replicate hrow]
      simp
  · intro st rng k supplied_x supplied_y scale octaves persistence
    constructor
    · simp [SimplexNoiseGenerator.generate_noise]
    · intro row hrow
      simp only [SimplexNoiseGenerator.generate_noise, List.mem_map] at hrow
      obtain ⟨yy, -, hrow⟩ := hrow
      subst hrow
      simp
  · intro p rng k g k2 hrun
    exact roomfilled_generate_shape p rng k g k2 hrun
  · intro p rng fuel g hrun
    unfold DungeonMapGenerator.generate_noise at hrun
    rcases Option.bind_eq_some.1 hrun with ⟨s, -, hres⟩
    match hrooms : s.1 with
    | [] =>
      rw [hrooms] at hres
      simp only [Option.some.injEq] at hres
      subst hres
      exact tableShape_mkZeroGrid _ _
    | r :: rest =>
      rw [hrooms] at hres
      exact absurd hres (by simp)
  · exact markII_generate_shape

/-- Helper: a successful `randint` returns a value in `[lo, hi]`. -/
theorem randint_bounds (rng : Rng) (k : ℕ) (lo hi v : ℤ) (k' : ℕ)
    (h : randint rng k lo hi = some (v, k')) : lo ≤ v ∧ v ≤ hi := by
  unfold randint at h
  split at h
  · rename_i hle
    have hv : v = lo + Int.emod (rng k) (hi - lo + 1) := by
      have := (Option.some.inj h)
      exact (congrArg Prod.fst this).symm
    have hpos : (0 : ℤ) < hi - lo + 1 := by omega
    have h1 : 0 ≤ Int.emod (rng k) (hi - lo + 1) := Int.emod_nonneg _ (by omega)
    have h2 : Int.emod (rng k) (hi - lo + 1) < hi - lo + 1 := Int.emod_lt_of_pos _ hpos
    omega
  · exact absurd h (by simp)

/-- Helper: when the intersection test answers `False`, the two closed
rectangles share no point at all (the test over-approximates overlap, so a
negative answer certifies closed disjointness; the cross branches catch
the spanning configurations that the interval branches miss). -/
theorem check_false_closed_disjoint (a b : Rect)
    (h : MarkIIDungeonMapGenerator.check_these_two_rectangles_for_intersection a b =
      false) (p : Pt) (hpa : inClosed a p) (hpb : inClosed b p) : False := by
  unfold MarkIIDungeonMapGenerator.check_these_two_rectangles_for_intersection at h
  simp only [Bool.or_eq_false_iff, Bool.and_eq_false_iff,
    decide_eq_false_iff_not, not_le, not_lt, ge_iff_le] at h
  unfold inClosed at hpa hpb
  omega

/-- Helper: every cell of a rectangle lies in its closed extent. -/
theorem inRect_inClosed (r : Rect) (p : Pt) (h : inRect r p) : inClosed r p := by
  unfold inRect at h
  unfold inClosed
  omega

/-- Helper: the MarkII placement attempt preserves (and establishes) the
pairwise-nonintersection order invariant and the per-room bounds. -/
theorem room_attempt_spec (p : MarkIIDungeonMapGenerator.Params) (rng : Rng)
    (s s' : List Rect × ℕ)
    (h : MarkIIDungeonMapGenerator.room_attempt p rng s = some s')
    (hpw : List.Pairwise (fun a b =>
      MarkIIDungeonMapGenerator.check_these_two_rectangles_for_intersection b a =
        false) s.1)
    (hok : ∀ r ∈ s.1, markIIRoomOK p r) :
    List.Pairwise (fun a b =>
      MarkIIDungeonMapGenerator.check_these_two_rectangles_for_intersection b a =
        false) s'.1 ∧ ∀ r ∈ s'.1, markIIRoomOK p r := by
  unfold MarkIIDungeonMapGenerator.room_attempt at h
  split at h
  · exact absurd h (by simp)
  rename_i w k1 hw
  split at h
  · exact absurd h (by simp)
  rename_i ht k2 hh
  split at h
  · exact absurd h (by simp)
  rename_i x k3 hx
  split at h
  · exact absurd h (by simp)
  rename_i y k4 hy
  have hwb := randint_bounds _ _ _ _ _ _ hw
  have hhb := randint_bounds _ _ _ _ _ _ hh
  have hxb := randint_bounds _ _ _ _ _ _ hx
  have hyb := randint_bounds _ _ _ _ _ _ hy
  simp only [Option.some.injEq] at h
  have hlist : s'.1 = if (s.1.any (fun o =>
      MarkIIDungeonMapGenerator.check_these_two_rectangles_for_intersection
        ⟨x, y, w, ht⟩ o)) = true then s.1 else s.1 ++ [⟨x, y, w, ht⟩] := by
    have := congrArg Prod.fst h.symm
    simpa using this
  rw [hlist]
  split
  · exact ⟨hpw, hok⟩
  · rename_i hany
    have hall : ∀ o ∈ s.1,
        MarkIIDungeonMapGenerator.check_these_two_rectangles_for_intersection
          ⟨x, y, w, ht⟩ o = false := by
      have hfalse : s.1.any (fun o =>
          MarkIIDungeonMapGenerator.check_these_two_rectangles_for_intersection
            ⟨x, y, w, ht⟩ o) = false := by
        simpa using hany
      intro o ho
      have := List.any_eq_false.1 hfalse o ho
      simpa using this
    constructor
    · rw [List.pairwise_append]
      refine ⟨hpw, List.pairwise_singleton _ _, ?_⟩
      intro o ho r' hr'
      rcases List.mem_singleton.1 hr' with rfl
      exact hall o ho
    · intro r hr
      rcases List.mem_append.1 hr with hmem | hnew
      · exact hok r hmem
      · rcases List.mem_singleton.1 hnew with rfl
        unfold markIIRoomOK
        constructor; · exact hwb.1
        constructor; · exact hwb.2
        constructor; · exact hhb.1
        constructor; · exact hhb.2
        constructor; · exact hxb.1
        constructor; · simp only; omega
        constructor; · exact hyb.1
        · simp only; omega

/-- Helper: the attempt loop keeps the placement invariants. -/
theorem room_attempts_spec (p : MarkIIDungeonMapGenerator.Params) (rng : Rng) :
    ∀ (n : ℕ) (s s' : List Rect × ℕ),
      MarkIIDungeonMapGenerator.room_attempts p rng n s = some s' →
      List.Pairwise (fun a b =>
        MarkIIDungeonMapGenerator.check_these_two_rectangles_for_intersection b a =
          false) s.1 →
      (∀ r ∈ s.1, markIIRoomOK p r) →
      List.Pairwise (fun a b =>
        MarkIIDungeonMapGenerator.check_these_two_rectangles_for_intersection b a =
          false) s'.1 ∧ ∀ r ∈ s'.1, markIIRoomOK p r := by
  intro n
  induction n with
  | zero =>
    intro s s' h hpw hok
    rw [MarkIIDungeonMapGenerator.room_attempts] at h
    rcases Option.some.inj h with rfl
    exact ⟨hpw, hok⟩
  | succ m ih =>
    intro s s' h hpw hok
    rw [MarkIIDungeonMapGenerator.room_attempts] at h
    rcases Option.bind_eq_some.1 h with ⟨s1, hstep, hrest⟩
    have h1 := room_attempt_spec p rng s s1 hstep hpw hok
    exact ih s1 s' hrest h1.1 h1.2

/-- Helper: every successful MarkII placement returns a room list that is
pairwise non-intersecting (in placement order) with every room inside the
working area. -/
theorem place_rooms_spec (p : MarkIIDungeonMapGenerator.Params) (rng : Rng) :
    ∀ (fuel k : ℕ) (s : List Rect × ℕ),
      MarkIIDungeonMapGenerator.place_rooms p rng fuel k = some s →
      List.Pairwise (fun a b =>
        MarkIIDungeonMapGenerator.check_these_two_rectangles_for_intersection b a =
          false) s.1 ∧ ∀ r ∈ s.1, markIIRoomOK p r := by
  intro fuel
  induction fuel with
  | zero =>
    intro k s h
    rw [MarkIIDungeonMapGenerator.place_rooms] at h
    split at h
    · rcases Option.some.inj h with rfl
      exact ⟨List.Pairwise.nil, by simp⟩
    · exact absurd h (by simp)
  | succ m ih =>
    intro k s h
    rw [MarkIIDungeonMapGenerator.place_rooms] at h
    split at h
    · rcases Option.some.inj h with rfl
      exact ⟨List.Pairwise.nil, by simp⟩
    · rcases Option.bind_eq_some.1 h with ⟨s1, hloop, hrest⟩
      have h1 := room_attempts_spec p rng p.room_max_count.toNat ([], k) s1 hloop
        List.Pairwise.nil (by simp)
      split at hrest
      · exact ih s1.2 s hrest
      · rcases Option.some.inj hrest with rfl
        exact h1

/-- Helper: complete description of a read after a write on an integer
grid of known shape: the written value is visible exactly at the written
cell and only when that cell is inside the grid. -/
theorem getCell_setCell (rows cols : ℕ) (g : Grid) (hsh : tableShape g rows cols)
    (p q : Pt) (v : ℤ) :
    getCell (setCell g p v) q =
      if q = p ∧ inGridBounds rows cols p then v else getCell g q := by
  unfold setCell
  split
  · rename_i hpw
    unfold getCell
    split
    · rename_i hqr
      rcases eq_or_ne q.2 p.2 with hy | hy
      · rcases Nat.lt_or_ge p.2.toNat g.length with hrow | hrow
        · rw [hy, list_getD_set_self _ _ _ _ hrow]
          rcases eq_or_ne q.1 p.1 with hx | hx
          · have hq : q = p := Prod.ext hx hy
            subst hq
            rcases Nat.lt_or_ge q.1.toNat (g.getD q.2.toNat []).length with hcol | hcol
            · rw [list_getD_set_self _ _ _ _ hcol]
              rw [if_pos]
              refine ⟨rfl, hqr.1, ?_, hqr.2, ?_⟩
              · have := hsh.2 _ (list_getD_mem g q.2.toNat [] hrow)
                omega
              · have := hsh.1
                omega
            · have hng : ¬(q = q ∧ inGridBounds rows cols q) := by
                intro hcon
                have := hsh.2 _ (list_getD_mem g q.2.toNat [] hrow)
                rcases hcon.2 with ⟨-, hlt, -, -⟩
                omega
              rw [List.set_eq_of_length_le hcol, if_neg hng]
          · have hxx : q.1.toNat ≠ p.1.toNat := by
              rcases hqr with ⟨hq1, -⟩
              rcases hpw with ⟨hp1, -⟩
              omega
            rw [list_getD_set_ne _ _ _ _ _ (Ne.symm hxx)]
            rw [if_neg (fun hcon => hx (congrArg Prod.fst hcon.1))]
        · have hng : ¬(q = p ∧ inGridBounds rows cols p) := by
            intro hcon
            rcases hcon.2 with ⟨-, -, -, hlt⟩
            have := hsh.1
            omega
          rw [List.set_eq_of_length_le hrow, if_neg hng]
      · have hyy : q.2.toNat ≠ p.2.toNat := by
          rcases hqr with ⟨-, hq2⟩
          rcases hpw with ⟨-, hp2⟩
          omega
        rw [list_getD_set_ne _ _ _ _ _ (Ne.symm hyy)]
        rw [if_neg (fun hcon => hy (congrArg Prod.snd hcon.1))]
    · rename_i hqr
      rw [if_neg]
      intro hcon
      rcases hcon with ⟨rfl, hb⟩
      exact hqr ⟨hb.1, hb.2.2.1⟩
  · rename_i hpw
    rw [if_neg]
    intro hcon
    rcases hcon with ⟨-, hb⟩
    exact hpw ⟨hb.1, hb.2.2.1⟩

/-- Helper: the fresh zero grid reads `0` everywhere. -/
theorem getCell_mkZeroGrid (rows cols : ℕ) (q : Pt) :
    getCell (mkZeroGrid rows cols) q = 0 := by
  unfold getCell mkZeroGrid
  split
  · rcases Nat.lt_or_ge q.2.toNat rows with hrow | hrow
    · have hmem := list_getD_mem (List.replicate rows (List.replicate cols (0 : ℤ)))
        q.2.toNat [] (by simpa using hrow)
      rw [List.eq_of_mem_replicate hmem]
      rcases Nat.lt_or_ge q.1.toNat cols with hcol | hcol
      · have hmem2 := list_getD_mem (List.replicate cols (0 : ℤ)) q.1.toNat 0
          (by simpa using hcol)
        exact List.eq_of_mem_replicate hmem2
      · exact list_getD_default (List.replicate cols (0 : ℤ)) q.1.toNat 0
          (by simpa using hcol)
    · rw [list_getD_default (List.replicate rows (List.replicate cols (0 : ℤ)))
        q.2.toNat [] (by simpa using hrow)]
      simp
  · rfl

/-- Helper: effect of one row of the room-carving double loop: exactly the
in-grid cells `(x0 + i, y0)` for `i < n` are incremented. -/
theorem getCell_carve_row (rows cols : ℕ) :
    ∀ (n : ℕ) (g : Grid), tableShape g rows cols → ∀ (x0 y0 : ℤ) (q : Pt),
      getCell ((List.range n).foldl
        (fun g2 (wu : ℕ) => setCell g2 (x0 + (wu : ℤ), y0)
          (getCell g2 (x0 + (wu : ℤ), y0) + 1)) g) q =
      getCell g q +
        (if (x0 ≤ q.1 ∧ q.1 < x0 + n ∧ q.2 = y0) ∧ inGridBounds rows cols q
          then 1 else 0) := by
  intro n
  induction n with
  | zero =>
    intro g hsh x0 y0 q
    rw [List.range_zero, List.foldl_nil, if_neg, add_zero]
    rintro ⟨⟨h1, h2, -⟩, -⟩
    push_cast at h2
    omega
  | succ m ih =>
    intro g hsh x0 y0 q
    obtain ⟨q1, q2⟩ := q
    rw [List.range_succ, List.foldl_append, List.foldl_cons, List.foldl_nil]
    have hsh' := foldl_preserves (fun gg => tableShape gg rows cols)
      (fun g2 (wu : ℕ) => setCell g2 (x0 + (wu : ℤ), y0)
        (getCell g2 (x0 + (wu : ℤ), y0) + 1))
      (fun a b ha => tableShape_setCell _ _ _ _ _ ha) (List.range m) g hsh
    rw [getCell_setCell rows cols _ hsh' (x0 + (m : ℤ), y0) (q1, q2) _]
    rw [ih g hsh x0 y0 (q1, q2), ih g hsh x0 y0 (x0 + (m : ℤ), y0)]
    by_cases hq : q1 = x0 + (m : ℤ) ∧ q2 = y0
    · obtain ⟨h1, h2⟩ := hq
      subst h1
      subst h2
      simp only [inGridBounds, Prod.mk.injEq, eq_self_iff_true, and_true, true_and]
      push_cast
      split_ifs <;> omega
    · rw [if_neg (fun hcon => hq (by
        have := hcon.1
        exact ⟨congrArg Prod.fst this, congrArg Prod.snd this⟩))]
      simp only [inGridBounds, eq_self_iff_true, and_true, true_and]
      push_cast
      split_ifs <;> omega

/-- Helper: effect of the full room-carving double loop at given row and
column counts: every cell of the `wn × m` block at `(x0, y0)` that lies in
the grid is incremented once. -/
theorem getCell_carve_block (rows cols : ℕ) :
    ∀ (m wn : ℕ) (g : Grid), tableShape g rows cols → ∀ (x0 y0 : ℤ) (q : Pt),
      getCell ((List.range m).foldl
        (fun g1 (hu : ℕ) =>
          (List.range wn).foldl
            (fun g2 (wu : ℕ) => setCell g2 (x0 + (wu : ℤ), y0 + (hu : ℤ))
              (getCell g2 (x0 + (wu : ℤ), y0 + (hu : ℤ)) + 1)) g1) g) q =
      getCell g q +
        (if (x0 ≤ q.1 ∧ q.1 < x0 + wn ∧ y0 ≤ q.2 ∧ q.2 < y0 + m) ∧
            inGridBounds rows cols q then 1 else 0) := by
  intro m
  induction m with
  | zero =>
    intro wn g hsh x0 y0 q
    rw [List.range_zero, List.foldl_nil, if_neg, add_zero]
    rintro ⟨⟨-, -, h3, h4⟩, -⟩
    push_cast at h4
    omega
  | succ m ih =>
    intro wn g hsh x0 y0 q
    obtain ⟨q1, q2⟩ := q
    rw [List.range_succ, List.foldl_append, List.foldl_cons, List.foldl_nil]
    have hsh' := foldl_preserves (fun gg => tableShape gg rows cols)
      (fun g1 (hu : ℕ) =>
        (List.range wn).foldl
          (fun g2 (wu : ℕ) => setCell g2 (x0 + (wu : ℤ), y0 + (hu : ℤ))
            (getCell g2 (x0 + (wu : ℤ), y0 + (hu : ℤ)) + 1)) g1)
      (fun a b ha => foldl_preserves (fun gg => tableShape gg rows cols) _
        (fun a2 b2 ha2 => tableShape_setCell _ _ _ _ _ ha2) (List.range wn) a ha)
      (List.range m) g hsh
    rw [getCell_carve_row rows cols wn _ hsh' x0 (y0 + (m : ℤ)) (q1, q2)]
    rw [ih wn g hsh x0 y0 (q1, q2)]
    simp only [inGridBounds]
    push_cast
    split_ifs <;> omega

/-- Helper: effect of `carve_room` on a single cell: the in-grid cells of
the half-open room rectangle are incremented, all other cells are
untouched. -/
theorem getCell_carve_room (rows cols : ℕ) (g : Grid) (hsh : tableShape g rows cols)
    (r : Rect) (q : Pt) :
    getCell (MarkIIDungeonMapGenerator.carve_room g r) q =
      getCell g q + (if inRect r q ∧ inGridBounds rows cols q then 1 else 0) := by
  unfold MarkIIDungeonMapGenerator.carve_room
  rw [getCell_carve_block rows cols r.h.toNat r.w.toNat g hsh r.x r.y q]
  have hiff : ((r.x ≤ q.1 ∧ q.1 < r.x + (r.w.toNat : ℤ) ∧ r.y ≤ q.2 ∧
      q.2 < r.y + (r.h.toNat : ℤ)) ∧ inGridBounds rows cols q) ↔
      (inRect r q ∧ inGridBounds rows cols q) := by
    unfold inRect
    constructor
    · rintro ⟨⟨h1, h2, h3, h4⟩, hb⟩
      exact ⟨⟨h1, by omega, h3, by omega⟩, hb⟩
    · rintro ⟨⟨h1, h2, h3, h4⟩, hb⟩
      exact ⟨⟨h1, by omega, h3, by omega⟩, hb⟩
  rw [if_congr hiff rfl rfl]

/-- Helper: effect of one row of the corridor-carving loop: in-grid cells
`(x0 + i, y0)` for `i < n` that read `0` become `1`, every other cell is
untouched. -/
theorem getCell_corridor_row (rows cols : ℕ) :
    ∀ (n : ℕ) (g : Grid), tableShape g rows cols → ∀ (x0 y0 : ℤ) (q : Pt),
      getCell ((List.range n).foldl
        (fun g2 (wu : ℕ) =>
          if getCell g2 (x0 + (wu : ℤ), y0) = 0 then
            setCell g2 (x0 + (wu : ℤ), y0) (getCell g2 (x0 + (wu : ℤ), y0) + 1)
          else g2) g) q =
      if (x0 ≤ q.1 ∧ q.1 < x0 + n ∧ q.2 = y0) ∧ inGridBounds rows cols q ∧
          getCell g q = 0 then 1 else getCell g q := by
  intro n
  induction n with
  | zero =>
    intro g hsh x0 y0 q
    rw [List.range_zero, List.foldl_nil, if_neg]
    rintro ⟨⟨h1, h2, -⟩, -⟩
    push_cast at h2
    omega
  | succ m ih =>
    intro g hsh x0 y0 q
    obtain ⟨q1, q2⟩ := q
    rw [List.range_succ, List.foldl_append, List.foldl_cons, List.foldl_nil]
    dsimp only
    have hsh' := foldl_preserves (fun gg => tableShape gg rows cols)
      (fun g2 (wu : ℕ) =>
        if getCell g2 (x0 + (wu : ℤ), y0) = 0 then
          setCell g2 (x0 + (wu : ℤ), y0) (getCell g2 (x0 + (wu : ℤ), y0) + 1)
        else g2)
      (fun a b ha => by
        dsimp only
        split
        · exact tableShape_setCell _ _ _ _ _ ha
        · exact ha)
      (List.range m) g hsh
    have hpt := ih g hsh x0 y0 (x0 + (m : ℤ), y0)
    dsimp only at hpt
    have hm : ¬((x0 ≤ x0 + (m : ℤ) ∧ x0 + (m : ℤ) < x0 + (m : ℤ) ∧ y0 = y0) ∧
        inGridBounds rows cols (x0 + (m : ℤ), y0) ∧
        getCell g (x0 + (m : ℤ), y0) = 0) := by
      rintro ⟨⟨-, h2, -⟩, -⟩
      omega
    rw [if_neg hm] at hpt
    by_cases h0 : getCell g (x0 + (m : ℤ), y0) = 0
    · rw [if_pos (by rw [hpt]; exact h0),
        getCell_setCell rows cols _ hsh' (x0 + (m : ℤ), y0) (q1, q2), hpt, h0,
        ih g hsh x0 y0 (q1, q2)]
      by_cases hq : q1 = x0 + (m : ℤ) ∧ q2 = y0
      · obtain ⟨e1, e2⟩ := hq
        subst e1
        subst e2
        simp only [inGridBounds, Prod.mk.injEq, eq_self_iff_true, and_true, true_and]
        push_cast
        split_ifs <;> omega
      · simp only [inGridBounds, Prod.mk.injEq]
        push_cast
        split_ifs <;> omega
    · rw [if_neg (by rw [hpt]; exact h0), ih g hsh x0 y0 (q1, q2)]
      by_cases hq : q1 = x0 + (m : ℤ) ∧ q2 = y0
      · obtain ⟨e1, e2⟩ := hq
        subst e1
        subst e2
        simp only [inGridBounds, eq_self_iff_true, and_true, true_and]
        push_cast
        split_ifs <;> omega
      · simp only [inGridBounds]
        push_cast
        split_ifs <;> omega

/-- Helper: effect of the full corridor-carving double loop at given row
and column counts. -/
theorem getCell_corridor_block (rows cols : ℕ) :
    ∀ (m wn : ℕ) (g : Grid), tableShape g rows cols → ∀ (x0 y0 : ℤ) (q : Pt),
      getCell ((List.range m).foldl
        (fun g1 (hu : ℕ) =>
          (List.range wn).foldl
            (fun g2 (wu : ℕ) =>
              if getCell g2 (x0 + (wu : ℤ), y0 + (hu : ℤ)) = 0 then
                setCell g2 (x0 + (wu : ℤ), y0 + (hu : ℤ))
                  (getCell g2 (x0 + (wu : ℤ), y0 + (hu : ℤ)) + 1)
              else g2) g1) g) q =
      if (x0 ≤ q.1 ∧ q.1 < x0 + wn ∧ y0 ≤ q.2 ∧ q.2 < y0 + m) ∧
          inGridBounds rows cols q ∧ getCell g q = 0 then 1 else getCell g q := by
  intro m
  induction m with
  | zero =>
    intro wn g hsh x0 y0 q
    rw [List.range_zero, List.foldl_nil, if_neg]
    rintro ⟨⟨-, -, h3, h4⟩, -⟩
    push_cast at h4
    omega
  | succ m ih =>
    intro wn g hsh x0 y0 q
    obtain ⟨q1, q2⟩ := q
    rw [List.range_succ, List.foldl_append, List.foldl_cons, List.foldl_nil]
    have hsh' := foldl_preserves (fun gg => tableShape gg rows cols)
      (fun g1 (hu : ℕ) =>
        (List.range wn).foldl
          (fun g2 (wu : ℕ) =>
            if getCell g2 (x0 + (wu : ℤ), y0 + (hu : ℤ)) = 0 then
              setCell g2 (x0 + (wu : ℤ), y0 + (hu : ℤ))
                (getCell g2 (x0 + (wu : ℤ), y0 + (hu : ℤ)) + 1)
            else g2) g1)
      (fun a b ha => foldl_preserves (fun gg => tableShape gg rows cols) _
        (fun a2 b2 ha2 => by
          dsimp only
          split
          · exact tableShape_setCell _ _ _ _ _ ha2
          · exact ha2) (List.range wn) a ha)
      (List.range m) g hsh
    rw [getCell_corridor_row rows cols wn _ hsh' x0 (y0 + (m : ℤ)) (q1, q2)]
    rw [ih wn g hsh x0 y0 (q1, q2)]
    simp only [inGridBounds]
    push_cast
    split_ifs <;> omega

/-- Helper: effect of `carve_corridor` on a single cell: the in-grid cells
of the half-open corridor rectangle that read `0` become `1`, every other
cell is untouched. -/
theorem getCell_carve_corridor (rows cols : ℕ) (g : Grid)
    (hsh : tableShape g rows cols) (r : Rect) (q : Pt) :
    getCell (MarkIIDungeonMapGenerator.carve_corridor g r) q =
      if inRect r q ∧ inGridBounds rows cols q ∧ getCell g q = 0 then 1
      else getCell g q := by
  unfold MarkIIDungeonMapGenerator.carve_corridor
  rw [getCell_corridor_block rows cols r.h.toNat r.w.toNat g hsh r.x r.y q]
  have hiff : ((r.x ≤ q.1 ∧ q.1 < r.x + (r.w.toNat : ℤ) ∧ r.y ≤ q.2 ∧
      q.2 < r.y + (r.h.toNat : ℤ)) ∧ inGridBounds rows cols q ∧
      getCell g q = 0) ↔
      (inRect r q ∧ inGridBounds rows cols q ∧ getCell g q = 0) := by
    unfold inRect
    constructor
    · rintro ⟨⟨h1, h2, h3, h4⟩, hb⟩
      exact ⟨⟨h1, by omega, h3, by omega⟩, hb⟩
    · rintro ⟨⟨h1, h2, h3, h4⟩, hb⟩
      exact ⟨⟨h1, by omega, h3, by omega⟩, hb⟩
  rw [if_congr hiff rfl rfl]

/-- Helper: carving a pairwise-disjoint room list increments each in-grid
covered cell exactly once. -/
theorem getCell_rooms_fold (rows cols : ℕ) :
    ∀ (L : List Rect) (g : Grid), tableShape g rows cols →
      List.Pairwise (fun a b => ∀ z : Pt, ¬(inRect a z ∧ inRect b z)) L →
      ∀ q : Pt, getCell (L.foldl MarkIIDungeonMapGenerator.carve_room g) q =
        getCell g q + (if covered L q ∧ inGridBounds rows cols q then 1 else 0) := by
  intro L
  induction L with
  | nil =>
    intro g hsh hpw q
    simp [covered]
  | cons r L ih =>
    intro g hsh hpw q
    rcases List.pairwise_cons.1 hpw with ⟨hhead, htail⟩
    rw [List.foldl_cons,
      ih (MarkIIDungeonMapGenerator.carve_room g r)
        (tableShape_carve_room _ _ _ _ hsh) htail q,
      getCell_carve_room rows cols g hsh r q]
    have hcov : covered (r :: L) q ↔ inRect r q ∨ covered L q := by
      simp [covered]
    have hdisj : inRect r q → ¬covered L q := by
      intro hr hc
      rcases hc with ⟨rr, hrr, hrrq⟩
      exact hhead rr hrr q ⟨hr, hrrq⟩
    by_cases hb : inGridBounds rows cols q
    · by_cases hr : inRect r q
      · rw [if_pos ⟨hr, hb⟩, if_neg (fun h => hdisj hr h.1),
          if_pos ⟨hcov.mpr (Or.inl hr), hb⟩]
        omega
      · rw [if_neg (fun h => hr h.1)]
        by_cases hc : covered L q
        · rw [if_pos ⟨hc, hb⟩, if_pos ⟨hcov.mpr (Or.inr hc), hb⟩]
          omega
        · rw [if_neg (fun h => hc h.1),
            if_neg (fun h => (hcov.mp h.1).elim hr hc)]
          omega
    · rw [if_neg (fun h => hb h.2), if_neg (fun h => hb h.2),
        if_neg (fun h => hb h.2)]
      omega

/-- Helper: the corridor-carving fold keeps cells 0/1-valued and excavates
exactly the additional in-grid covered cells. -/
theorem getCell_cors_fold (rows cols : ℕ) :
    ∀ (C : List Rect) (g : Grid), tableShape g rows cols →
      (∀ z : Pt, getCell g z = 0 ∨ getCell g z = 1) →
      ∀ q : Pt,
        (getCell (C.foldl MarkIIDungeonMapGenerator.carve_corridor g) q = 0 ∨
          getCell (C.foldl MarkIIDungeonMapGenerator.carve_corridor g) q = 1) ∧
        (1 ≤ getCell (C.foldl MarkIIDungeonMapGenerator.carve_corridor g) q ↔
          (covered C q ∧ inGridBounds rows cols q) ∨ 1 ≤ getCell g q) := by
  intro C
  induction C with
  | nil =>
    intro g hsh hbin q
    refine ⟨hbin q, ?_⟩
    simp [covered]
  | cons r C ih =>
    intro g hsh hbin q
    have hbin2 : ∀ z : Pt,
        getCell (MarkIIDungeonMapGenerator.carve_corridor g r) z = 0 ∨
        getCell (MarkIIDungeonMapGenerator.carve_corridor g r) z = 1 := by
      intro z
      rw [getCell_carve_corridor rows cols g hsh r z]
      split_ifs
      · right; rfl
      · exact hbin z
    have hcc : 1 ≤ getCell (MarkIIDungeonMapGenerator.carve_corridor g r) q ↔
        (inRect r q ∧ inGridBounds rows cols q) ∨ 1 ≤ getCell g q := by
      rw [getCell_carve_corridor rows cols g hsh r q]
      rcases hbin q with h0 | h1
      · constructor
        · intro h
          by_cases hcond : inRect r q ∧ inGridBounds rows cols q ∧ getCell g q = 0
          · exact Or.inl ⟨hcond.1, hcond.2.1⟩
          · rw [if_neg hcond] at h
            omega
        · rintro (⟨hr, hb⟩ | hgq)
          · rw [if_pos ⟨hr, hb, h0⟩]
          · exact absurd hgq (by omega)
      · rw [if_neg (fun hcond => absurd hcond.2.2 (by omega))]
        constructor
        · intro h
          exact Or.inr h
        · intro h
          omega
    rw [List.foldl_cons]
    have h2 := ih (MarkIIDungeonMapGenerator.carve_corridor g r)
      (tableShape_carve_corridor _ _ _ _ hsh) hbin2 q
    refine ⟨h2.1, ?_⟩
    rw [h2.2, hcc]
    have hcov : covered (r :: C) q ↔ inRect r q ∨ covered C q := by
      simp [covered]
    rw [hcov]
    constructor
    · rintro (⟨hc, hb⟩ | ⟨hr, hb⟩ | hg)
      · exact Or.inl ⟨Or.inr hc, hb⟩
      · exact Or.inl ⟨Or.inl hr, hb⟩
      · exact Or.inr hg
    · rintro (⟨hr | hc, hb⟩ | hg)
      · exact Or.inr (Or.inl ⟨hr, hb⟩)
      · exact Or.inl ⟨hc, hb⟩
      · exact Or.inr (Or.inr hg)

/-- Helper: every entry of a grid is the value `getCell` reads at some
point. -/
theorem getCell_of_mem (g : Grid) (row : List ℤ) (v : ℤ)
    (hrow : row ∈ g) (hv : v ∈ row) : ∃ q : Pt, getCell g q = v := by
  rcases List.mem_iff_getElem.1 hrow with ⟨i, hi, hrowe⟩
  rcases List.mem_iff_getElem.1 hv with ⟨j, hj, hve⟩
  refine ⟨((j : ℤ), (i : ℤ)), ?_⟩
  unfold getCell
  rw [if_pos ⟨Int.natCast_nonneg j, Int.natCast_nonneg i⟩]
  simp only [Int.toNat_natCast]
  rw [List.getD_eq_getElem?_getD, List.getD_eq_getElem?_getD,
    List.getElem?_eq_getElem hi, Option.getD_some, hrowe,
    List.getElem?_eq_getElem hj, Option.getD_some, hve]

/-- Helper: the accepted rooms of a successful MarkII placement have
pairwise disjoint half-open cell sets. -/
theorem place_rooms_disjoint (p : MarkIIDungeonMapGenerator.Params) (rng : Rng)
    (fuel k : ℕ) (s : List Rect × ℕ)
    (h : MarkIIDungeonMapGenerator.place_rooms p rng fuel k = some s) :
    List.Pairwise (fun a b => ∀ z : Pt, ¬(inRect a z ∧ inRect b z)) s.1 :=
  (place_rooms_spec p rng fuel k s h).1.imp
    (fun hab z hz => check_false_closed_disjoint _ _ hab z
      (inRect_inClosed _ _ hz.2) (inRect_inClosed _ _ hz.1))

/-- Helper: one covered-adjacency step is symmetric. -/
theorem reachStep_symm (L : List Rect) (p q : Pt) (h : reachStep L p q) :
    reachStep L q p := by
  unfold reachStep at h ⊢
  refine ⟨h.2.1, h.1, ?_⟩
  have := h.2.2
  unfold adjStep at this ⊢
  omega

/-- Helper: reachability through covered cells is symmetric. -/
theorem reachIn_symm (L : List Rect) (p q : Pt) (h : reachIn L p q) :
    reachIn L q p :=
  Relation.ReflTransGen.symmetric (fun a b hab => reachStep_symm L a b hab) h

/-- Helper: reachability through covered cells is monotone in the
rectangle list. -/
theorem reachIn_mono (L L2 : List Rect) (hsub : ∀ r ∈ L, r ∈ L2) (p q : Pt)
    (h : reachIn L p q) : reachIn L2 p q := by
  refine Relation.ReflTransGen.mono ?_ h
  intro a b hab
  unfold reachStep covered at hab ⊢
  rcases hab with ⟨⟨ra, hra, hpa⟩, ⟨rb, hrb, hpb⟩, hadj⟩
  exact ⟨⟨ra, hsub ra hra, hpa⟩, ⟨rb, hsub rb hrb, hpb⟩, hadj⟩

/-- Helper: any two cells of one listed rectangle are mutually reachable
through covered cells (walk one axis, then the other), by strong
induction on the L1 distance. -/
theorem reachIn_of_rect (L : List Rect) (r : Rect) (hr : r ∈ L) :
    ∀ (n : ℕ) (p q : Pt), (p.1 - q.1).natAbs + (p.2 - q.2).natAbs = n →
      inRect r p → inRect r q → reachIn L p q := by
  intro n
  induction n using Nat.strong_induction_on with
  | _ n ih =>
    intro p q hn hp hq
    by_cases hpq : p = q
    · subst hpq
      exact Relation.ReflTransGen.refl
    · have hpr := hp
      have hqr := hq
      unfold inRect at hpr hqr
      rcases lt_trichotomy p.1 q.1 with hx | hx | hx
      · have hstep : reachStep L p (p.1 + 1, p.2) := by
          refine ⟨⟨r, hr, hp⟩, ⟨r, hr, ?_⟩, ?_⟩
          · unfold inRect
            dsimp only
            omega
          · unfold adjStep
            dsimp only
            omega
        refine Relation.ReflTransGen.head hstep ?_
        refine ih (((p.1 + 1, p.2).1 - q.1).natAbs +
            ((p.1 + 1, p.2).2 - q.2).natAbs) (by dsimp only; omega)
          (p.1 + 1, p.2) q rfl ?_ hq
        unfold inRect
        dsimp only
        omega
      · rcases lt_trichotomy p.2 q.2 with hy | hy | hy
        · have hstep : reachStep L p (p.1, p.2 + 1) := by
            refine ⟨⟨r, hr, hp⟩, ⟨r, hr, ?_⟩, ?_⟩
            · unfold inRect
              dsimp only
              omega
            · unfold adjStep
              dsimp only
              omega
          refine Relation.ReflTransGen.head hstep ?_
          refine ih (((p.1, p.2 + 1).1 - q.1).natAbs +
              ((p.1, p.2 + 1).2 - q.2).natAbs) (by dsimp only; omega)
            (p.1, p.2 + 1) q rfl ?_ hq
          unfold inRect
          dsimp only
          omega
        · exact absurd (Prod.ext hx hy) hpq
        · have hstep : reachStep L p (p.1, p.2 - 1) := by
            refine ⟨⟨r, hr, hp⟩, ⟨r, hr, ?_⟩, ?_⟩
            · unfold inRect
              dsimp only
              omega
            · unfold adjStep
              dsimp only
              omega
          refine Relation.ReflTransGen.head hstep ?_
          refine ih (((p.1, p.2 - 1).1 - q.1).natAbs +
              ((p.1, p.2 - 1).2 - q.2).natAbs) (by dsimp only; omega)
            (p.1, p.2 - 1) q rfl ?_ hq
          unfold inRect
          dsimp only
          omega
      · have hstep : reachStep L p (p.1 - 1, p.2) := by
          refine ⟨⟨r, hr, hp⟩, ⟨r, hr, ?_⟩, ?_⟩
          · unfold inRect
            dsimp only
            omega
          · unfold adjStep
            dsimp only
            omega
        refine Relation.ReflTransGen.head hstep ?_
        refine ih (((p.1 - 1, p.2).1 - q.1).natAbs +
            ((p.1 - 1, p.2).2 - q.2).natAbs) (by dsimp only; omega)
          (p.1 - 1, p.2) q rfl ?_ hq
        unfold inRect
        dsimp only
        omega

/-- Helper: wrapper of `reachIn_of_rect` without the explicit distance. -/
theorem reachIn_of_mem_rect (L : List Rect) (r : Rect) (hr : r ∈ L) (p q : Pt)
    (hp : inRect r p) (hq : inRect r q) : reachIn L p q :=
  reachIn_of_rect L r hr _ p q rfl hp hq

/-- Helper: the two corridor builders, unfolded at their literal
orientation strings. -/
theorem define_corridor_horizontal (x y x2 y2 : ℤ) :
    define_corridor "horizontal" x y x2 y2 =
      (if x2 - x < 0 then (⟨x - -(x2 - x), y, -(x2 - x) + 1, 1⟩ : Rect)
       else ⟨x, y, x2 - x + 1, 1⟩) := rfl

/-- Helper: vertical analogue of `define_corridor_horizontal`. -/
theorem define_corridor_vertical (x y x2 y2 : ℤ) :
    define_corridor "vertical" x y x2 y2 =
      (if y2 - y < 0 then (⟨x, y - -(y2 - y), 1, -(y2 - y) + 1⟩ : Rect)
       else ⟨x, y, 1, y2 - y + 1⟩) := rfl

/-- Helper: a horizontal corridor covers both of its defining endpoints
projected to the first row. -/
theorem horizontal_covers (x y x2 y2 : ℤ) :
    inRect (define_corridor "horizontal" x y x2 y2) (x, y) ∧
    inRect (define_corridor "horizontal" x y x2 y2) (x2, y) := by
  rw [define_corridor_horizontal]
  split_ifs with hw <;>
    exact ⟨by unfold inRect; dsimp only; omega,
      by unfold inRect; dsimp only; omega⟩

/-- Helper: a vertical corridor covers both of its defining endpoints
projected to the first column. -/
theorem vertical_covers (x y x2 y2 : ℤ) :
    inRect (define_corridor "vertical" x y x2 y2) (x, y) ∧
    inRect (define_corridor "vertical" x y x2 y2) (x, y2) := by
  rw [define_corridor_vertical]
  split_ifs with hh <;>
    exact ⟨by unfold inRect; dsimp only; omega,
      by unfold inRect; dsimp only; omega⟩

/-- Helper: corridor extents are positive (width and height at least 1). -/
theorem corridor_dims (x y x2 y2 : ℤ) :
    1 ≤ (define_corridor "horizontal" x y x2 y2).w ∧
    1 ≤ (define_corridor "horizontal" x y x2 y2).h ∧
    1 ≤ (define_corridor "vertical" x y x2 y2).w ∧
    1 ≤ (define_corridor "vertical" x y x2 y2).h := by
  rw [define_corridor_horizontal, define_corridor_vertical]
  split_ifs <;> refine ⟨?_, ?_, ?_, ?_⟩ <;> dsimp only <;> omega

/-- Helper: the centerpoint of a rectangle with positive extents is one of
its cells. -/
theorem rectCenter_mem (r : Rect) (hw : 1 ≤ r.w) (hh : 1 ≤ r.h) :
    inRect r (rectCenter r) := by
  unfold rectCenter return_the_center_of_this_rectangle inRect
  dsimp only
  rw [Int.fdiv_eq_ediv _ (by omega), Int.fdiv_eq_ediv _ (by omega)]
  omega

/-- Helper: every cell of a corridor between two in-grid points is in the
grid (the corridor spans the bounding box of its endpoints). -/
theorem corridor_inBounds (rows cols : ℕ) (o : String) (x y x2 y2 : ℤ)
    (h1 : inGridBounds rows cols (x, y))
    (h2 : inGridBounds rows cols (x2, y2)) :
    rectInBounds rows cols (define_corridor o x y x2 y2) := by
  intro q hq
  unfold inGridBounds at h1 h2 ⊢
  dsimp only at h1 h2
  simp only [define_corridor] at hq
  unfold inRect at hq
  split_ifs at hq <;> dsimp only at hq <;> omega

/-- Helper: a covered cell of an in-grid rectangle list is in the grid. -/
theorem covered_inBounds (rows cols : ℕ) (L : List Rect)
    (hL : ∀ r ∈ L, rectInBounds rows cols r) (q : Pt) (h : covered L q) :
    inGridBounds rows cols q := by
  rcases h with ⟨r, hr, hq⟩
  exact hL r hr q hq

/-- Helper: every cell of an accepted MarkII room is inside the working
grid. -/
theorem markIIRoomOK_inBounds (p : MarkIIDungeonMapGenerator.Params) (r : Rect)
    (hok : markIIRoomOK p r) :
    rectInBounds (p.supplied_map_height - 1).toNat
      (p.supplied_map_width - 1).toNat r := by
  intro q hq
  unfold markIIRoomOK at hok
  unfold inRect at hq
  unfold inGridBounds
  omega

/-- Helper: reachability through covered cells whose cells are all
excavated transfers to grid reachability. -/
theorem gridReach_of_reachIn (g : Grid) (L : List Rect)
    (hex : ∀ z : Pt, covered L z → 1 ≤ getCell g z) (p q : Pt)
    (h : reachIn L p q) : gridReach g p q := by
  refine Relation.ReflTransGen.mono ?_ h
  intro a b hab
  unfold reachStep at hab
  exact ⟨hex a hab.1, hex b hab.2.1, hab.2.2⟩

/-- Helper: an L-shaped corridor pair (horizontal from `a`, vertical from
`b`) connects `a`, `b` and its two centerpoints through covered cells. -/
theorem hv_link (L : List Rect) (a b : Pt)
    (hH : define_corridor "horizontal" a.1 a.2 b.1 b.2 ∈ L)
    (hV : define_corridor "vertical" b.1 b.2 a.1 a.2 ∈ L) :
    reachIn L a b ∧
    reachIn L a (rectCenter (define_corridor "horizontal" a.1 a.2 b.1 b.2)) ∧
    reachIn L a (rectCenter (define_corridor "vertical" b.1 b.2 a.1 a.2)) := by
  have hH1 := horizontal_covers a.1 a.2 b.1 b.2
  have hV1 := vertical_covers b.1 b.2 a.1 a.2
  have hHa : inRect (define_corridor "horizontal" a.1 a.2 b.1 b.2) a := by
    have := hH1.1
    rwa [Prod.mk.eta] at this
  have hVb : inRect (define_corridor "vertical" b.1 b.2 a.1 a.2) b := by
    have := hV1.1
    rwa [Prod.mk.eta] at this
  have hd := corridor_dims a.1 a.2 b.1 b.2
  have hd2 := corridor_dims b.1 b.2 a.1 a.2
  have hreach1 : reachIn L a (b.1, a.2) :=
    reachIn_of_mem_rect L _ hH a (b.1, a.2) hHa hH1.2
  have hreach2 : reachIn L (b.1, a.2) b :=
    reachIn_of_mem_rect L _ hV (b.1, a.2) b hV1.2 hVb
  have hab : reachIn L a b := Relation.ReflTransGen.trans hreach1 hreach2
  refine ⟨hab, ?_, ?_⟩
  · exact reachIn_of_mem_rect L _ hH a _ hHa
      (rectCenter_mem _ hd.1 hd.2.1)
  · exact Relation.ReflTransGen.trans hab
      (reachIn_of_mem_rect L _ hV b _ hVb
        (rectCenter_mem _ hd2.2.2.1 hd2.2.2.2))

open MarkIIDungeonMapGenerator

/-- Helper: the membership tests inside the color bookkeeping. -/
theorem any_eq_mem (c : List Pt) (a : Pt) :
    (c.any (fun q => decide (q = a))) = true ↔ a ∈ c := by
  simp [List.any_eq_true]

/-- Helper: the nearest-centerpoint fold returns a propagated accumulator
or a pair whose point is a list member. -/
theorem nearest_fold_mem (alpha : Pt) :
    ∀ (cps : List Pt) (acc res : Option (ℤ × Pt)) (hres : res.isSome),
      cps.foldl
        (fun best each_centerpoint =>
          if each_centerpoint = alpha then best
          else
            let d := (each_centerpoint.1 - alpha.1) ^ 2 +
              (each_centerpoint.2 - alpha.2) ^ 2
            match best with
            | none => some (d, each_centerpoint)
            | some (bd, bcp) =>
              if d < bd then some (d, each_centerpoint) else some (bd, bcp))
        acc = res →
      acc = res ∨ ∃ x, res = some x ∧ x.2 ∈ cps := by
  intro cps
  induction cps with
  | nil =>
    intro acc res hres h
    exact Or.inl h
  | cons cp rest ih =>
    intro acc res hres h
    rw [List.foldl_cons] at h
    rcases ih _ res hres h with hacc | ⟨x, hx, hmem⟩
    · by_cases heq : cp = alpha
      · rw [if_pos heq] at hacc
        exact Or.inl hacc
      · rw [if_neg heq] at hacc
        match acc, hacc with
        | none, hacc =>
          refine Or.inr ⟨((cp.1 - alpha.1) ^ 2 + (cp.2 - alpha.2) ^ 2, cp),
            hacc.symm, List.mem_cons_self cp rest⟩
        | some (bd, bcp), hacc =>
          dsimp only at hacc
          split at hacc
          · exact Or.inr ⟨_, hacc.symm, List.mem_cons_self cp rest⟩
          · exact Or.inl hacc
    · exact Or.inr ⟨x, hx, List.mem_cons_of_mem cp hmem⟩

/-- Helper: a found nearest centerpoint is one of the searched
centerpoints. -/
theorem nearest_other_mem (alpha : Pt) (cps : List Pt) (b : Pt)
    (h : nearest_other alpha cps = some b) : b ∈ cps := by
  unfold nearest_other at h
  rcases Option.map_eq_some'.1 h with ⟨res, hres, hb⟩
  rcases nearest_fold_mem alpha cps none (some res) rfl hres with hacc | ⟨x, hx, hmem⟩
  · exact absurd hacc (by simp)
  · have hxres : x = res := (Option.some.inj hx).symm
    subst hxres
    exact hb ▸ hmem

/-- Helper: the nearest-member fold returns a propagated accumulator or a
pair whose point is a list member. -/
theorem member_fold_mem (target : Pt) :
    ∀ (c : List Pt) (acc res : Option (ℤ × Pt)),
      c.foldl
        (fun best q =>
          let d := (target.1 - q.1) ^ 2 + (target.2 - q.2) ^ 2
          match best with
          | none => some (d, q)
          | some (bd, bq) => if d < bd then some (d, q) else some (bd, bq))
        acc = res →
      acc = res ∨ ∃ x, res = some x ∧ x.2 ∈ c := by
  intro c
  induction c with
  | nil =>
    intro acc res h
    exact Or.inl h
  | cons q rest ih =>
    intro acc res h
    rw [List.foldl_cons] at h
    rcases ih _ res h with hacc | ⟨x, hx, hmem⟩
    · match acc, hacc with
      | none, hacc =>
        exact Or.inr ⟨_, hacc.symm, List.mem_cons_self q rest⟩
      | some (bd, bq), hacc =>
        dsimp only at hacc
        split at hacc
        · exact Or.inr ⟨_, hacc.symm, List.mem_cons_self q rest⟩
        · exact Or.inl hacc
    · exact Or.inr ⟨x, hx, List.mem_cons_of_mem q hmem⟩

/-- Helper: a found nearest member is a member. -/
theorem nearest_member_mem (c : List Pt) (target p : Pt)
    (h : nearest_member c target = some p) : p ∈ c := by
  unfold nearest_member at h
  rcases Option.map_eq_some'.1 h with ⟨res, hres, hb⟩
  rcases member_fold_mem target c none (some res) hres with hacc | ⟨x, hx, hmem⟩
  · exact absurd hacc (by simp)
  · have hxres : x = res := (Option.some.inj hx).symm
    subst hxres
    exact hb ▸ hmem

/-- Helper: the nearest-color fold ties the returned index, color and
centroid together and keeps the index in the searched index list. -/
theorem color_fold_mem (colors : List (List Pt)) (alphaAvg : Pt) :
    ∀ (l : List ℕ) (acc res : Option (ℤ × ℕ × List Pt × Pt)),
      l.foldl
        (fun best i =>
          let color_beta := colors.getD i []
          let avg := color_centroid color_beta
          let d := (avg.1 - alphaAvg.1) ^ 2 + (avg.2 - alphaAvg.2) ^ 2
          match best with
          | none => some (d, i, color_beta, avg)
          | some (bd, brest) =>
            if d < bd then some (d, i, color_beta, avg) else some (bd, brest))
        acc = res →
      acc = res ∨ ∃ x, res = some x ∧ x.2.1 ∈ l ∧
        x.2.2.1 = colors.getD x.2.1 [] ∧
        x.2.2.2 = color_centroid (colors.getD x.2.1 []) := by
  intro l
  induction l with
  | nil =>
    intro acc res h
    exact Or.inl h
  | cons i rest ih =>
    intro acc res h
    rw [List.foldl_cons] at h
    rcases ih _ res h with hacc | ⟨x, hx, hmem, hcb, havg⟩
    · match acc, hacc with
      | none, hacc =>
        exact Or.inr ⟨_, hacc.symm, List.mem_cons_self i rest, rfl, rfl⟩
      | some (bd, brest), hacc =>
        dsimp only at hacc
        split at hacc
        · exact Or.inr ⟨_, hacc.symm, List.mem_cons_self i rest, rfl, rfl⟩
        · exact Or.inl hacc
    · exact Or.inr ⟨x, hx, List.mem_cons_of_mem i hmem, hcb, havg⟩

/-- Helper: specification of a successful nearest-color search: the index
is one of `1 .. len-1` and the returned color and centroid belong to it. -/
theorem nearest_color_spec (colors : List (List Pt)) (alphaAvg : Pt)
    (bidx : ℕ) (cb : List Pt) (bavg : Pt)
    (h : nearest_color colors alphaAvg = some (bidx, cb, bavg)) :
    1 ≤ bidx ∧ bidx < colors.length ∧ cb = colors.getD bidx [] ∧
      bavg = color_centroid cb := by
  unfold nearest_color at h
  rcases Option.map_eq_some'.1 h with ⟨res, hres, hb⟩
  rcases color_fold_mem colors alphaAvg _ none (some res) hres with
    hacc | ⟨x, hx, hmem, hcb, havg⟩
  · exact absurd hacc (by simp)
  · have hxres : x = res := (Option.some.inj hx).symm
    subst hxres
    have hb2 : x.2 = (bidx, cb, bavg) := hb
    have he1 : x.2.1 = bidx := by rw [hb2]
    have he2 : x.2.2.1 = cb := by rw [hb2]
    have he3 : x.2.2.2 = bavg := by rw [hb2]
    rw [he1] at hmem hcb havg
    rw [he2] at hcb
    rw [he3] at havg
    have hlt : bidx < colors.length :=
      List.mem_range.1 (List.mem_of_mem_drop hmem)
    have hge : 1 ≤ bidx := by
      rcases Nat.eq_zero_or_pos colors.length with h0 | hpos
      · rw [h0] at hmem
        simp at hmem
      · rcases Nat.exists_eq_succ_of_ne_zero (Nat.pos_iff_ne_zero.1 hpos)
          with ⟨mm, hm⟩
        rw [hm, List.range_succ_eq_map] at hmem
        simp only [List.drop_succ_cons, List.drop_zero] at hmem
        rcases List.mem_map.1 hmem with ⟨j, -, hj⟩
        omega
    refine ⟨hge, hlt, hcb, ?_⟩
    rw [hcb]
    exact havg

/-- Helper: a color is a prefix of its grown version. -/
theorem grow_color_subset (a b hc vc : Pt) (c : List Pt) :
    ∀ p ∈ c, p ∈ grow_color a b hc vc c := by
  intro p hp
  simp only [grow_color]
  split
  · simp [List.mem_append, hp]
  · exact hp

/-- Helper: members of a grown color come from the color or the four new
centerpoints. -/
theorem grow_color_mem_cases (a b hc vc : Pt) (c : List Pt) :
    ∀ p ∈ grow_color a b hc vc c,
      p ∈ c ∨ p = a ∨ p = b ∨ p = hc ∨ p = vc := by
  intro p hp
  simp only [grow_color] at hp
  split at hp
  · split_ifs at hp <;>
      simp only [List.mem_append, List.mem_singleton, List.not_mem_nil,
        or_false] at hp <;>
      tauto
  · exact Or.inl hp

/-- Helper: a color containing none of the four centerpoints does not
grow. -/
theorem grow_color_fire (a b hc vc : Pt) (c : List Pt)
    (h : ¬((c.any (fun q => decide (q = a)) || c.any (fun q => decide (q = b)) ||
      c.any (fun q => decide (q = hc)) ||
      c.any (fun q => decide (q = vc))) = true)) :
    grow_color a b hc vc c = c := by
  simp only [grow_color]
  rw [if_neg h]

/-- Helper: a color whose growth test fires contains one of the four
centerpoints. -/
theorem grow_color_anchor (a b hc vc : Pt) (c : List Pt)
    (h : (c.any (fun q => decide (q = a)) || c.any (fun q => decide (q = b)) ||
      c.any (fun q => decide (q = hc)) ||
      c.any (fun q => decide (q = vc))) = true) :
    ∃ m ∈ c, m = a ∨ m = b ∨ m = hc ∨ m = vc := by
  simp only [Bool.or_eq_true, any_eq_mem] at h
  rcases h with ((h | h) | h) | h
  exacts [⟨a, h, Or.inl rfl⟩, ⟨b, h, Or.inr (Or.inl rfl)⟩,
    ⟨hc, h, Or.inr (Or.inr (Or.inl rfl))⟩,
    ⟨vc, h, Or.inr (Or.inr (Or.inr rfl))⟩]

/-- Helper: a color whose growth test fires grows to contain the first
centerpoint. -/
theorem grow_color_has_alpha (a b hc vc : Pt) (c : List Pt)
    (h : (c.any (fun q => decide (q = a)) || c.any (fun q => decide (q = b)) ||
      c.any (fun q => decide (q = hc)) ||
      c.any (fun q => decide (q = vc))) = true) :
    a ∈ grow_color a b hc vc c := by
  simp only [grow_color]
  rw [if_pos h]
  by_cases ha : (c.any (fun q => decide (q = a))) = true
  · have := (any_eq_mem c a).1 ha
    simp [List.mem_append, this]
  · rw [if_neg ha]
    simp [List.mem_append]

/-- Helper: the fresh four-centerpoint color satisfies the per-color
invariant. -/
theorem four_color_inv (L : List Rect) (a b hc vc : Pt)
    (hca : covered L a) (hcb : covered L b) (hch : covered L hc)
    (hcv : covered L vc)
    (hrb : reachIn L a b) (hrh : reachIn L a hc) (hrv : reachIn L a vc) :
    (∀ p ∈ [a, b, hc, vc], covered L p) ∧
    ∀ p ∈ [a, b, hc, vc], ∀ q ∈ [a, b, hc, vc], reachIn L p q := by
  have hto : ∀ p ∈ [a, b, hc, vc], reachIn L p a := by
    intro p hp
    rcases List.mem_cons.1 hp with rfl | hp
    · exact Relation.ReflTransGen.refl
    rcases List.mem_cons.1 hp with rfl | hp
    · exact reachIn_symm L a p hrb
    rcases List.mem_cons.1 hp with rfl | hp
    · exact reachIn_symm L a p hrh
    rcases List.mem_cons.1 hp with rfl | hp
    · exact reachIn_symm L a p hrv
    · exact absurd hp (List.not_mem_nil p)
  constructor
  · intro p hp
    rcases List.mem_cons.1 hp with rfl | hp
    · exact hca
    rcases List.mem_cons.1 hp with rfl | hp
    · exact hcb
    rcases List.mem_cons.1 hp with rfl | hp
    · exact hch
    rcases List.mem_cons.1 hp with rfl | hp
    · exact hcv
    · exact absurd hp (List.not_mem_nil p)
  · intro p hp q hq
    exact Relation.ReflTransGen.trans (hto p hp)
      (reachIn_symm L q a (hto q hq))

/-- Helper: growing a color preserves the per-color invariant when the
four centerpoints are covered and mutually reachable from the first. -/
theorem grow_color_inv (L : List Rect) (a b hc vc : Pt) (c : List Pt)
    (hcov : ∀ p ∈ c, covered L p)
    (hmut : ∀ p ∈ c, ∀ q ∈ c, reachIn L p q)
    (hca : covered L a) (hcb : covered L b) (hch : covered L hc)
    (hcv : covered L vc)
    (hrb : reachIn L a b) (hrh : reachIn L a hc) (hrv : reachIn L a vc) :
    (∀ p ∈ grow_color a b hc vc c, covered L p) ∧
    ∀ p ∈ grow_color a b hc vc c, ∀ q ∈ grow_color a b hc vc c,
      reachIn L p q := by
  constructor
  · intro p hp
    rcases grow_color_mem_cases a b hc vc c p hp with h | h | h | h | h
    · exact hcov p h
    · exact h ▸ hca
    · exact h ▸ hcb
    · exact h ▸ hch
    · exact h ▸ hcv
  · by_cases hfire : (c.any (fun q => decide (q = a)) ||
        c.any (fun q => decide (q = b)) || c.any (fun q => decide (q = hc)) ||
        c.any (fun q => decide (q = vc))) = true
    · obtain ⟨m, hmc, hm4⟩ := grow_color_anchor a b hc vc c hfire
      have hma : reachIn L m a := by
        rcases hm4 with rfl | rfl | rfl | rfl
        · exact Relation.ReflTransGen.refl
        · exact reachIn_symm L a m hrb
        · exact reachIn_symm L a m hrh
        · exact reachIn_symm L a m hrv
      have key : ∀ p ∈ grow_color a b hc vc c, reachIn L p a := by
        intro p hp
        rcases grow_color_mem_cases a b hc vc c p hp with h | h | h | h | h
        · exact Relation.ReflTransGen.trans (hmut p h m hmc) hma
        · exact h ▸ Relation.ReflTransGen.refl
        · exact h ▸ reachIn_symm L a b hrb
        · exact h ▸ reachIn_symm L a hc hrh
        · exact h ▸ reachIn_symm L a vc hrv
      intro p hp q hq
      exact Relation.ReflTransGen.trans (key p hp)
        (reachIn_symm L q a (key q hq))
    · rw [grow_color_fire a b hc vc c hfire]
      exact hmut

/-- Helper: the three shapes `update_colors` can take. -/
theorem update_colors_cases (colors : List (List Pt)) (a b hc vc : Pt) :
    (colors = [] ∧ update_colors colors a b hc vc = [[a, b, hc, vc]]) ∨
    ((∃ c ∈ colors, a ∈ c ∨ b ∈ c ∨ hc ∈ c ∨ vc ∈ c) ∧
      update_colors colors a b hc vc = colors.map (grow_color a b hc vc)) ∨
    update_colors colors a b hc vc =
      colors.map (grow_color a b hc vc) ++ [[a, b, hc, vc]] := by
  simp only [update_colors]
  split
  · rename_i h0
    exact Or.inl ⟨List.length_eq_zero.1 h0, rfl⟩
  · rename_i h0
    split
    · rename_i hfits
      rcases List.any_eq_true.1 hfits with ⟨c, hcmem, hcc⟩
      simp only [Bool.or_eq_true, any_eq_mem] at hcc
      refine Or.inr (Or.inl ⟨⟨c, hcmem, by tauto⟩, rfl⟩)
    · exact Or.inr (Or.inr rfl)

/-- Helper: `update_colors` keeps the color invariant, keeps every old
member in some color, registers the first centerpoint, and is never
empty. -/
theorem update_colors_inv (L : List Rect) (colors : List (List Pt))
    (a b hc vc : Pt)
    (hinv : colorsInv L colors)
    (hca : covered L a) (hcb : covered L b) (hch : covered L hc)
    (hcv : covered L vc)
    (hrb : reachIn L a b) (hrh : reachIn L a hc) (hrv : reachIn L a vc) :
    colorsInv L (update_colors colors a b hc vc) ∧
    (∃ c ∈ update_colors colors a b hc vc, a ∈ c) ∧
    (∀ p, (∃ c ∈ colors, p ∈ c) →
      ∃ c ∈ update_colors colors a b hc vc, p ∈ c) ∧
    update_colors colors a b hc vc ≠ [] := by
  have h4 := four_color_inv L a b hc vc hca hcb hch hcv hrb hrh hrv
  have hmap : ∀ c2 ∈ colors.map (grow_color a b hc vc),
      (∀ p ∈ c2, covered L p) ∧ ∀ p ∈ c2, ∀ q ∈ c2, reachIn L p q := by
    intro c2 hc2
    rcases List.mem_map.1 hc2 with ⟨c, hcmem, rfl⟩
    exact grow_color_inv L a b hc vc c (hinv c hcmem).1 (hinv c hcmem).2
      hca hcb hch hcv hrb hrh hrv
  rcases update_colors_cases colors a b hc vc with ⟨hnil, he⟩ | ⟨⟨c, hcmem, hc4⟩, he⟩ | he
  · rw [he]
    refine ⟨?_, ⟨[a, b, hc, vc], List.mem_singleton_self _, by simp⟩, ?_, by simp⟩
    · intro c2 hc2
      rcases List.mem_singleton.1 hc2 with rfl
      exact h4
    · rintro p ⟨c2, hcmem2, -⟩
      rw [hnil] at hcmem2
      exact absurd hcmem2 (List.not_mem_nil c2)
  · rw [he]
    refine ⟨?_, ?_, ?_, ?_⟩
    · intro c2 hc2
      exact hmap c2 hc2
    · refine ⟨grow_color a b hc vc c, List.mem_map_of_mem _ hcmem, ?_⟩
      apply grow_color_has_alpha
      simp only [Bool.or_eq_true, any_eq_mem]
      tauto
    · rintro p ⟨c3, hc3, hp3⟩
      exact ⟨grow_color a b hc vc c3, List.mem_map_of_mem _ hc3,
        grow_color_subset a b hc vc c3 p hp3⟩
    · intro hemp
      rw [List.map_eq_nil_iff] at hemp
      rw [hemp] at hcmem
      exact absurd hcmem (List.not_mem_nil c)
  · rw [he]
    refine ⟨?_, ?_, ?_, by simp⟩
    · intro c2 hc2
      rcases List.mem_append.1 hc2 with hc2 | hc2
      · exact hmap c2 hc2
      · rcases List.mem_singleton.1 hc2 with rfl
        exact h4
    · exact ⟨[a, b, hc, vc], List.mem_append_right _ (List.mem_singleton_self _),
        by simp⟩
    · rintro p ⟨c3, hc3, hp3⟩
      exact ⟨grow_color a b hc vc c3,
        List.mem_append_left _ (List.mem_map_of_mem _ hc3),
        grow_color_subset a b hc vc c3 p hp3⟩

/-- Helper: coverage is monotone in the rectangle list. -/
theorem covered_mono (L L2 : List Rect) (hsub : ∀ r ∈ L, r ∈ L2) (p : Pt)
    (h : covered L p) : covered L2 p := by
  rcases h with ⟨r, hr, hq⟩
  exact ⟨r, hsub r hr, hq⟩

/-- Helper: erasing an index keeps a sublist. -/
theorem eraseIdx_sub {α : Type} :
    ∀ (l : List α) (i : ℕ), ∀ x ∈ l.eraseIdx i, x ∈ l := by
  intro l
  induction l with
  | nil =>
    intro i x hx
    cases i <;> exact absurd hx (List.not_mem_nil x)
  | cons a t ih =>
    intro i x hx
    match i with
    | 0 => exact List.mem_cons_of_mem a hx
    | i2 + 1 =>
      rcases List.mem_cons.1 hx with rfl | hx
      · exact List.mem_cons_self x t
      · exact List.mem_cons_of_mem a (ih i2 x hx)

/-- Helper: an element at an index other than the erased one survives. -/
theorem getElem_mem_eraseIdx {α : Type} :
    ∀ (l : List α) (i j : ℕ) (hj : j < l.length), j ≠ i → l[j] ∈ l.eraseIdx i := by
  intro l
  induction l with
  | nil =>
    intro i j hj hne
    simp at hj
  | cons a t ih =>
    intro i j hj hne
    match i, j with
    | 0, 0 => exact absurd rfl hne
    | 0, j2 + 1 =>
      show (a :: t)[j2 + 1] ∈ t
      simp only [List.getElem_cons_succ]
      exact List.getElem_mem _
    | i2 + 1, 0 =>
      show (a :: t)[0] ∈ a :: t.eraseIdx i2
      simp only [List.getElem_cons_zero]
      exact List.mem_cons_self a _
    | i2 + 1, j2 + 1 =>
      show (a :: t)[j2 + 1] ∈ a :: t.eraseIdx i2
      simp only [List.getElem_cons_succ]
      refine List.mem_cons_of_mem a (ih i2 j2 ?_ (by omega))
      simp only [List.length_cons] at hj
      omega

/-- Helper: erasing an in-range index shortens the list by one. -/
theorem length_eraseIdx_lt {α : Type} :
    ∀ (l : List α) (i : ℕ), i < l.length →
      (l.eraseIdx i).length = l.length - 1 := by
  intro l
  induction l with
  | nil =>
    intro i h
    simp at h
  | cons a t ih =>
    intro i h
    match i with
    | 0 => simp
    | i2 + 1 =>
      show (a :: t.eraseIdx i2).length = (a :: t).length - 1
      simp only [List.length_cons] at h ⊢
      rw [ih i2 (by omega)]
      omega

/-- Helper: one merge iteration keeps the merge invariant, keeps every
point in some color, and shortens the color list by exactly one when more
than one color remains (and does nothing otherwise). -/
theorem merge_step_inv (rng : Rng) (rooms : List Rect) (rows cols : ℕ)
    (hrooms : ∀ r ∈ rooms, rectInBounds rows cols r)
    (s s2 : List (List Pt) × List Rect × ℕ)
    (h : merge_step rng s = some s2)
    (hinv : mergeInv rooms rows cols s.1 s.2.1) :
    mergeInv rooms rows cols s2.1 s2.2.1 ∧
    (∀ p, (∃ c ∈ s.1, p ∈ c) → ∃ c ∈ s2.1, p ∈ c) ∧
    ((1 < s.1.length ∧ s2.1.length = s.1.length - 1) ∨
      (s.1.length ≤ 1 ∧ s2 = s)) := by
  simp only [merge_step] at h
  split at h
  case isFalse hlen =>
    rcases Option.some.inj h with rfl
    exact ⟨hinv, fun p hp => hp, Or.inr ⟨by omega, rfl⟩⟩
  case isTrue hlen =>
    split at h
    · exact absurd h (by simp)
    rename_i bidx cb bavg hnc
    split at h
    · exact absurd h (by simp)
    rename_i apt hapt
    split at h
    · exact absurd h (by simp)
    rename_i bpt hbpt
    split at h
    · exact absurd h (by simp)
    rename_i d k1 hd
    rcases Option.some.inj h with rfl
    dsimp only
    obtain ⟨hge, hlt, hcbeq, hbavgeq⟩ := nearest_color_spec s.1 _ bidx cb bavg hnc
    have hca_mem : s.1.getD 0 [] ∈ s.1 := by
      rw [List.getD_eq_getElem?_getD, List.getElem?_eq_getElem (by omega),
        Option.getD_some]
      exact List.getElem_mem _
    have hcb_mem : cb ∈ s.1 := by
      rw [hcbeq, List.getD_eq_getElem?_getD, List.getElem?_eq_getElem hlt,
        Option.getD_some]
      exact List.getElem_mem _
    have hapt_mem : apt ∈ s.1.getD 0 [] := nearest_member_mem _ _ _ hapt
    have hbpt_mem : bpt ∈ cb := nearest_member_mem _ _ _ hbpt
    have hcov_apt : covered (rooms ++ s.2.1) apt :=
      (hinv.2 _ hca_mem).1 apt hapt_mem
    have hcov_bpt : covered (rooms ++ s.2.1) bpt :=
      (hinv.2 _ hcb_mem).1 bpt hbpt_mem
    have hallB : ∀ r ∈ rooms ++ s.2.1, rectInBounds rows cols r := by
      intro r hr
      rcases List.mem_append.1 hr with hr | hr
      · exact hrooms r hr
      · exact hinv.1 r hr
    have hB_apt : inGridBounds rows cols (apt.1, apt.2) := by
      rw [Prod.mk.eta]
      exact covered_inBounds rows cols _ hallB apt hcov_apt
    have hB_bpt : inGridBounds rows cols (bpt.1, bpt.2) := by
      rw [Prod.mk.eta]
      exact covered_inBounds rows cols _ hallB bpt hcov_bpt
    have hHb : rectInBounds rows cols
        (if d = 0 then define_corridor "horizontal" apt.1 apt.2 bpt.1 bpt.2
         else define_corridor "horizontal" bpt.1 bpt.2 apt.1 apt.2) := by
      split_ifs with hdir
      · exact corridor_inBounds rows cols _ _ _ _ _ hB_apt hB_bpt
      · exact corridor_inBounds rows cols _ _ _ _ _ hB_bpt hB_apt
    have hVb : rectInBounds rows cols
        (if d = 0 then define_corridor "vertical" bpt.1 bpt.2 apt.1 apt.2
         else define_corridor "vertical" apt.1 apt.2 bpt.1 bpt.2) := by
      split_ifs with hdir
      · exact corridor_inBounds rows cols _ _ _ _ _ hB_bpt hB_apt
      · exact corridor_inBounds rows cols _ _ _ _ _ hB_apt hB_bpt
    have hlink : reachIn (rooms ++ (s.2.1 ++
        [(if d = 0 then define_corridor "horizontal" apt.1 apt.2 bpt.1 bpt.2
          else define_corridor "horizontal" bpt.1 bpt.2 apt.1 apt.2),
         (if d = 0 then define_corridor "vertical" bpt.1 bpt.2 apt.1 apt.2
          else define_corridor "vertical" apt.1 apt.2 bpt.1 bpt.2)])) apt bpt := by
      by_cases hdir : d = 0
      · rw [if_pos hdir, if_pos hdir]
        exact (hv_link _ apt bpt (by simp) (by simp)).1
      · rw [if_neg hdir, if_neg hdir]
        exact reachIn_symm _ bpt apt (hv_link _ bpt apt (by simp) (by simp)).1
    have hsub : ∀ r ∈ rooms ++ s.2.1, r ∈ rooms ++ (s.2.1 ++
        [(if d = 0 then define_corridor "horizontal" apt.1 apt.2 bpt.1 bpt.2
          else define_corridor "horizontal" bpt.1 bpt.2 apt.1 apt.2),
         (if d = 0 then define_corridor "vertical" bpt.1 bpt.2 apt.1 apt.2
          else define_corridor "vertical" apt.1 apt.2 bpt.1 bpt.2)]) := by
      intro r hr
      rcases List.mem_append.1 hr with hr | hr
      · exact List.mem_append_left _ hr
      · exact List.mem_append_right _ (List.mem_append_left _ hr)
    obtain ⟨c0, rest, hcolors⟩ : ∃ c0 rest, s.1 = c0 :: rest := by
      cases hs1 : s.1 with
      | nil =>
        rw [hs1] at hlen
        simp at hlen
      | cons c0 rest => exact ⟨c0, rest, rfl⟩
    obtain ⟨b2, hbidx⟩ : ∃ b2, bidx = b2 + 1 := by
      cases bidx with
      | zero => omega
      | succ b2 => exact ⟨b2, rfl⟩
    have hca0 : s.1.getD 0 [] = c0 := by
      rw [hcolors]
      rfl
    have hset : (s.1.set 0 (s.1.getD 0 [] ++ cb)).eraseIdx bidx =
        (c0 ++ cb) :: rest.eraseIdx b2 := by
      rw [hcolors, hbidx]
      rfl
    have hb2lt : b2 < rest.length := by
      have : s.1.length = rest.length + 1 := by
        rw [hcolors]
        rfl
      omega
    have hcb2 : rest[b2] = cb := by
      rw [hcbeq, hcolors, hbidx]
      rw [List.getD_eq_getElem?_getD, List.getElem?_eq_getElem
        (by simpa using Nat.succ_lt_succ hb2lt), Option.getD_some]
      rfl
    have hkey : ∀ x ∈ c0 ++ cb, reachIn (rooms ++ (s.2.1 ++
        [(if d = 0 then define_corridor "horizontal" apt.1 apt.2 bpt.1 bpt.2
          else define_corridor "horizontal" bpt.1 bpt.2 apt.1 apt.2),
         (if d = 0 then define_corridor "vertical" bpt.1 bpt.2 apt.1 apt.2
          else define_corridor "vertical" apt.1 apt.2 bpt.1 bpt.2)])) x apt := by
      intro x hx
      rcases List.mem_append.1 hx with hx | hx
      · refine reachIn_mono _ _ hsub x apt ?_
        exact (hinv.2 _ hca_mem).2 x (by rw [hca0]; exact hx) apt hapt_mem
      · refine Relation.ReflTransGen.trans
          (reachIn_mono _ _ hsub x bpt ((hinv.2 _ hcb_mem).2 x hx bpt hbpt_mem))
          (reachIn_symm _ apt bpt hlink)
    have hcovnew : ∀ x ∈ c0 ++ cb, covered (rooms ++ (s.2.1 ++
        [(if d = 0 then define_corridor "horizontal" apt.1 apt.2 bpt.1 bpt.2
          else define_corridor "horizontal" bpt.1 bpt.2 apt.1 apt.2),
         (if d = 0 then define_corridor "vertical" bpt.1 bpt.2 apt.1 apt.2
          else define_corridor "vertical" apt.1 apt.2 bpt.1 bpt.2)])) x := by
      intro x hx
      rcases List.mem_append.1 hx with hx | hx
      · exact covered_mono _ _ hsub x ((hinv.2 _ hca_mem).1 x (by rw [hca0]; exact hx))
      · exact covered_mono _ _ hsub x ((hinv.2 _ hcb_mem).1 x hx)
    rw [hset]
    refine ⟨⟨?_, ?_⟩, ?_, Or.inl ⟨hlen, ?_⟩⟩
    · intro r hr
      rcases List.mem_append.1 hr with hr | hr
      · exact hinv.1 r hr
      · rcases List.mem_cons.1 hr with rfl | hr
        · exact hHb
        rcases List.mem_cons.1 hr with rfl | hr
        · exact hVb
        · exact absurd hr (List.not_mem_nil r)
    · intro c2 hc2
      rcases List.mem_cons.1 hc2 with rfl | hc2
      · refine ⟨hcovnew, ?_⟩
        intro x hx y hy
        exact Relation.ReflTransGen.trans (hkey x hx)
          (reachIn_symm _ y apt (hkey y hy))
      · have hc2old : c2 ∈ s.1 := by
          rw [hcolors]
          exact List.mem_cons_of_mem _ (eraseIdx_sub rest b2 c2 hc2)
        refine ⟨?_, ?_⟩
        · intro x hx
          exact covered_mono _ _ hsub x ((hinv.2 _ hc2old).1 x hx)
        · intro x hx y hy
          exact reachIn_mono _ _ hsub x y ((hinv.2 _ hc2old).2 x hx y hy)
    · intro p hp
      rcases hp with ⟨c2, hc2, hpc2⟩
      rw [hcolors] at hc2
      rcases List.mem_cons.1 hc2 with heq | hc2
      · rw [heq] at hpc2
        exact ⟨c0 ++ cb, List.mem_cons_self _ _, List.mem_append_left _ hpc2⟩
      · rcases List.mem_iff_getElem.1 hc2 with ⟨j, hj, hjc⟩
        by_cases hjb : j = b2
        · subst hjb
          rw [hcb2] at hjc
          exact ⟨c0 ++ cb, List.mem_cons_self _ _,
            List.mem_append_right _ (hjc ▸ hpc2)⟩
        · refine ⟨c2, List.mem_cons_of_mem _ ?_, hpc2⟩
          exact hjc ▸ getElem_mem_eraseIdx rest b2 j hj hjb
    · have : s.1.length = rest.length + 1 := by
        rw [hcolors]
        rfl
      simp only [List.length_cons]
      rw [length_eraseIdx_lt rest b2 hb2lt]
      omega

/-- Helper: the merge loop keeps the merge invariant, keeps every point in
some color, and drives the number of colors down to one. -/
theorem merge_loop_inv (rng : Rng) (rooms : List Rect) (rows cols : ℕ)
    (hrooms : ∀ r ∈ rooms, rectInBounds rows cols r) :
    ∀ (n : ℕ) (s s2 : List (List Pt) × List Rect × ℕ),
      merge_loop rng n s = some s2 →
      mergeInv rooms rows cols s.1 s.2.1 →
      mergeInv rooms rows cols s2.1 s2.2.1 ∧
      (∀ p, (∃ c ∈ s.1, p ∈ c) → ∃ c ∈ s2.1, p ∈ c) ∧
      s2.1.length ≤ max 1 (s.1.length - n) ∧
      (1 ≤ s.1.length → 1 ≤ s2.1.length) := by
  intro n
  induction n with
  | zero =>
    intro s s2 h hinv
    rw [merge_loop] at h
    rcases Option.some.inj h with rfl
    exact ⟨hinv, fun p hp => hp, by omega, fun h1 => h1⟩
  | succ m ih =>
    intro s s2 h hinv
    rw [merge_loop] at h
    rcases Option.bind_eq_some.1 h with ⟨s1, hstep, hrest⟩
    have h1 := merge_step_inv rng rooms rows cols hrooms s s1 hstep hinv
    have h2 := ih s1 s2 hrest h1.1
    refine ⟨h2.1, fun p hp => h2.2.1 p (h1.2.1 p hp), ?_, ?_⟩
    · rcases h1.2.2 with ⟨hgt, hlen⟩ | ⟨hle, rfl⟩
      · have := h2.2.2.1
        omega
      · have := h2.2.2.1
        omega
    · intro hs
      rcases h1.2.2 with ⟨hgt, hlen⟩ | ⟨hle, rfl⟩
      · exact h2.2.2.2 (by omega)
      · exact h2.2.2.2 hs

/-- Helper: one first-pass iteration keeps the linking invariant, keeps
every colored point colored, and colors the processed room's centerpoint. -/
theorem link_room_inv (rng : Rng) (rooms : List Rect) (rows cols : ℕ)
    (hrooms : ∀ r ∈ rooms, rectInBounds rows cols r)
    (st st2 : LinkState) (r : Rect)
    (hcen : covered rooms (rectCenter r))
    (h : link_room rng st r = some st2)
    (hinv : linkInv rooms rows cols st) :
    linkInv rooms rows cols st2 ∧
    (∀ p, (∃ c ∈ st.list_of_room_connection_colors, p ∈ c) →
      ∃ c ∈ st2.list_of_room_connection_colors, p ∈ c) ∧
    (∃ c ∈ st2.list_of_room_connection_colors, rectCenter r ∈ c) := by
  simp only [link_room] at h
  split at h
  · exact absurd h (by simp)
  rename_i d k1 hd
  split at h
  · exact absurd h (by simp)
  rename_i beta hbeta
  rcases Option.some.inj h with rfl
  dsimp only
  have hbeta_mem : beta ∈ st.list_of_all_centerpoints :=
    nearest_other_mem _ _ _ hbeta
  have hcov_beta : covered (rooms ++ st.list_of_new_corridors) beta :=
    hinv.2.1 beta hbeta_mem
  have hcov_alpha : covered (rooms ++ st.list_of_new_corridors) (rectCenter r) :=
    covered_mono rooms _ (fun r2 hr2 => List.mem_append_left _ hr2) _ hcen
  have hallB : ∀ r2 ∈ rooms ++ st.list_of_new_corridors,
      rectInBounds rows cols r2 := by
    intro r2 hr2
    rcases List.mem_append.1 hr2 with hr2 | hr2
    · exact hrooms r2 hr2
    · exact hinv.1 r2 hr2
  have hB_a : inGridBounds rows cols ((rectCenter r).1, (rectCenter r).2) := by
    rw [Prod.mk.eta]
    exact covered_inBounds rows cols _ hallB _ hcov_alpha
  have hB_b : inGridBounds rows cols (beta.1, beta.2) := by
    rw [Prod.mk.eta]
    exact covered_inBounds rows cols _ hallB beta hcov_beta
  have hHb : rectInBounds rows cols
      (if d = 0 then
        define_corridor "horizontal" (rectCenter r).1 (rectCenter r).2 beta.1 beta.2
       else define_corridor "horizontal" beta.1 beta.2 (rectCenter r).1
        (rectCenter r).2) := by
    split_ifs with hdir
    · exact corridor_inBounds rows cols _ _ _ _ _ hB_a hB_b
    · exact corridor_inBounds rows cols _ _ _ _ _ hB_b hB_a
  have hVb : rectInBounds rows cols
      (if d = 0 then
        define_corridor "vertical" beta.1 beta.2 (rectCenter r).1 (rectCenter r).2
       else define_corridor "vertical" (rectCenter r).1 (rectCenter r).2 beta.1
        beta.2) := by
    split_ifs with hdir
    · exact corridor_inBounds rows cols _ _ _ _ _ hB_b hB_a
    · exact corridor_inBounds rows cols _ _ _ _ _ hB_a hB_b
  have hsub : ∀ r2 ∈ rooms ++ st.list_of_new_corridors,
      r2 ∈ rooms ++ (st.list_of_new_corridors ++
        [(if d = 0 then
            define_corridor "horizontal" (rectCenter r).1 (rectCenter r).2
              beta.1 beta.2
          else define_corridor "horizontal" beta.1 beta.2 (rectCenter r).1
            (rectCenter r).2),
         (if d = 0 then
            define_corridor "vertical" beta.1 beta.2 (rectCenter r).1
              (rectCenter r).2
          else define_corridor "vertical" (rectCenter r).1 (rectCenter r).2
            beta.1 beta.2)]) := by
    intro r2 hr2
    rcases List.mem_append.1 hr2 with hr2 | hr2
    · exact List.mem_append_left _ hr2
    · exact List.mem_append_right _ (List.mem_append_left _ hr2)
  have hlinks : reachIn (rooms ++ (st.list_of_new_corridors ++
        [(if d = 0 then
            define_corridor "horizontal" (rectCenter r).1 (rectCenter r).2
              beta.1 beta.2
          else define_corridor "horizontal" beta.1 beta.2 (rectCenter r).1
            (rectCenter r).2),
         (if d = 0 then
            define_corridor "vertical" beta.1 beta.2 (rectCenter r).1
              (rectCenter r).2
          else define_corridor "vertical" (rectCenter r).1 (rectCenter r).2
            beta.1 beta.2)])) (rectCenter r) beta ∧
      reachIn (rooms ++ (st.list_of_new_corridors ++
        [(if d = 0 then
            define_corridor "horizontal" (rectCenter r).1 (rectCenter r).2
              beta.1 beta.2
          else define_corridor "horizontal" beta.1 beta.2 (rectCenter r).1
            (rectCenter r).2),
         (if d = 0 then
            define_corridor "vertical" beta.1 beta.2 (rectCenter r).1
              (rectCenter r).2
          else define_corridor "vertical" (rectCenter r).1 (rectCenter r).2
            beta.1 beta.2)])) (rectCenter r)
        (rectCenter (if d = 0 then
            define_corridor "horizontal" (rectCenter r).1 (rectCenter r).2
              beta.1 beta.2
          else define_corridor "horizontal" beta.1 beta.2 (rectCenter r).1
            (rectCenter r).2)) ∧
      reachIn (rooms ++ (st.list_of_new_corridors ++
        [(if d = 0 then
            define_corridor "horizontal" (rectCenter r).1 (rectCenter r).2
              beta.1 beta.2
          else define_corridor "horizontal" beta.1 beta.2 (rectCenter r).1
            (rectCenter r).2),
         (if d = 0 then
            define_corridor "vertical" beta.1 beta.2 (rectCenter r).1
              (rectCenter r).2
          else define_corridor "vertical" (rectCenter r).1 (rectCenter r).2
            beta.1 beta.2)])) (rectCenter r)
        (rectCenter (if d = 0 then
            define_corridor "vertical" beta.1 beta.2 (rectCenter r).1
              (rectCenter r).2
          else define_corridor "vertical" (rectCenter r).1 (rectCenter r).2
            beta.1 beta.2)) := by
    by_cases hdir : d = 0
    · rw [if_pos hdir, if_pos hdir]
      exact hv_link _ (rectCenter r) beta (by simp) (by simp)
    · rw [if_neg hdir, if_neg hdir]
      refine ⟨reachIn_symm _ beta _
          (hv_link _ beta (rectCenter r) (by simp) (by simp)).1,
        Relation.ReflTransGen.trans (reachIn_symm _ beta _
          (hv_link _ beta (rectCenter r) (by simp) (by simp)).1)
          (hv_link _ beta (rectCenter r) (by simp) (by simp)).2.1,
        Relation.ReflTransGen.trans (reachIn_symm _ beta _
          (hv_link _ beta (rectCenter r) (by simp) (by simp)).1)
          (hv_link _ beta (rectCenter r) (by simp) (by simp)).2.2⟩
  have hupd := update_colors_inv _ st.list_of_room_connection_colors
    (rectCenter r) beta _ _
    (fun c hc => ⟨fun pt hpt => covered_mono _ _ hsub pt
        ((hinv.2.2 c hc).1 pt hpt),
      fun pt hpt qt hqt => reachIn_mono _ _ hsub pt qt
        ((hinv.2.2 c hc).2 pt hpt qt hqt)⟩)
    (covered_mono _ _ hsub _ hcov_alpha)
    (covered_mono _ _ hsub _ hcov_beta)
    ?hcovh ?hcovv hlinks.1 hlinks.2.1 hlinks.2.2
  case hcovh =>
    refine ⟨_, by simp, rectCenter_mem _ ?_ ?_⟩ <;>
      (by_cases hdir : d = 0
       · rw [if_pos hdir]
         first
           | exact (corridor_dims _ _ _ _).1
           | exact (corridor_dims _ _ _ _).2.1
       · rw [if_neg hdir]
         first
           | exact (corridor_dims _ _ _ _).1
           | exact (corridor_dims _ _ _ _).2.1)
  case hcovv =>
    refine ⟨_, by simp, rectCenter_mem _ ?_ ?_⟩ <;>
      (by_cases hdir : d = 0
       · rw [if_pos hdir]
         first
           | exact (corridor_dims _ _ _ _).2.2.1
           | exact (corridor_dims _ _ _ _).2.2.2
       · rw [if_neg hdir]
         first
           | exact (corridor_dims _ _ _ _).2.2.1
           | exact (corridor_dims _ _ _ _).2.2.2)
  refine ⟨⟨?_, ?_, hupd.1⟩, ?_, ?_⟩
  · intro r2 hr2
    rcases List.mem_append.1 hr2 with hr2 | hr2
    · exact hinv.1 r2 hr2
    · rcases List.mem_cons.1 hr2 with heq | hr2
      · rw [heq]
        exact hHb
      rcases List.mem_cons.1 hr2 with heq | hr2
      · rw [heq]
        exact hVb
      · exact absurd hr2 (List.not_mem_nil r2)
  · intro pt hpt
    rcases List.mem_append.1 hpt with hpt | hpt
    · exact covered_mono _ _ hsub pt (hinv.2.1 pt hpt)
    · rcases List.mem_cons.1 hpt with heq | hpt
      · rw [heq]
        rcases hupd.2.1 with ⟨-, -, -⟩
        refine ⟨_, by simp, rectCenter_mem _ ?_ ?_⟩ <;>
          (by_cases hdir : d = 0
           · rw [if_pos hdir]
             first
               | exact (corridor_dims _ _ _ _).1
               | exact (corridor_dims _ _ _ _).2.1
           · rw [if_neg hdir]
             first
               | exact (corridor_dims _ _ _ _).1
               | exact (corridor_dims _ _ _ _).2.1)
      rcases List.mem_cons.1 hpt with heq | hpt
      · rw [heq]
        refine ⟨_, by simp, rectCenter_mem _ ?_ ?_⟩ <;>
          (by_cases hdir : d = 0
           · rw [if_pos hdir]
             first
               | exact (corridor_dims _ _ _ _).2.2.1
               | exact (corridor_dims _ _ _ _).2.2.2
           · rw [if_neg hdir]
             first
               | exact (corridor_dims _ _ _ _).2.2.1
               | exact (corridor_dims _ _ _ _).2.2.2)
      · exact absurd hpt (List.not_mem_nil pt)
  · exact hupd.2.2.1
  · exact hupd.2.1

/-- Helper: the first linking pass keeps the linking invariant, keeps
every colored point colored, and colors every processed room's
centerpoint. -/
theorem first_pass_inv (rng : Rng) (rooms : List Rect) (rows cols : ℕ)
    (hrooms : ∀ r ∈ rooms, rectInBounds rows cols r)
    (hcens : ∀ r ∈ rooms, covered rooms (rectCenter r)) :
    ∀ (todo : List Rect) (st st2 : LinkState),
      first_pass rng st todo = some st2 →
      (∀ r ∈ todo, r ∈ rooms) →
      linkInv rooms rows cols st →
      linkInv rooms rows cols st2 ∧
      (∀ p, (∃ c ∈ st.list_of_room_connection_colors, p ∈ c) →
        ∃ c ∈ st2.list_of_room_connection_colors, p ∈ c) ∧
      (∀ r ∈ todo, ∃ c ∈ st2.list_of_room_connection_colors,
        rectCenter r ∈ c) := by
  intro todo
  induction todo with
  | nil =>
    intro st st2 h htodo hinv
    rw [first_pass] at h
    rcases Option.some.inj h with rfl
    exact ⟨hinv, fun p hp => hp, by simp⟩
  | cons r rest ih =>
    intro st st2 h htodo hinv
    rw [first_pass] at h
    rcases Option.bind_eq_some.1 h with ⟨st1, hlr, hrest⟩
    have h1 := link_room_inv rng rooms rows cols hrooms st st1 r
      (hcens r (htodo r (List.mem_cons_self r rest))) hlr hinv
    have h2 := ih st1 st2 hrest (fun r2 hr2 => htodo r2 (List.mem_cons_of_mem r hr2))
      h1.1
    refine ⟨h2.1, fun p hp => h2.2.1 p (h1.2.1 p hp), ?_⟩
    intro r2 hr2
    rcases List.mem_cons.1 hr2 with heq | hr2
    · rw [heq]
      rcases h1.2.2 with ⟨c, hcmem, hcenmem⟩
      exact h2.2.1 _ ⟨c, hcmem, hcenmem⟩
    · exact h2.2.2 r2 hr2

set_option maxRecDepth 4000 in
/-- Helper: the demonstration MarkII run returns the recorded grid and
room list. -/
theorem markII_demo_run :
    MarkIIDungeonMapGenerator.generate_noise markII_demo_params markII_demo_rng 2 =
      some (markII_demo_grid, markII_demo_rooms) := by
  decide

/-- C7: `check_these_two_rectangles_for_intersection` (in both the
`DungeonMapGenerator` and the `MarkIIDungeonMapGenerator` class) returns
`True` on the cross configuration `[1, 1, 5, 5]` versus `[3, 0, 1, 10]`,
in either argument order. -/
theorem cross_rectangles_detected :
    DungeonMapGenerator.check_these_two_rectangles_for_intersection
        ⟨1, 1, 5, 5⟩ ⟨3, 0, 1, 10⟩ = true ∧
    DungeonMapGenerator.check_these_two_rectangles_for_intersection
        ⟨3, 0, 1, 10⟩ ⟨1, 1, 5, 5⟩ = true ∧
    MarkIIDungeonMapGenerator.check_these_two_rectangles_for_intersection
        ⟨1, 1, 5, 5⟩ ⟨3, 0, 1, 10⟩ = true ∧
    MarkIIDungeonMapGenerator.check_these_two_rectangles_for_intersection
        ⟨3, 0, 1, 10⟩ ⟨1, 1, 5, 5⟩ = true := by
  decide

/-- C2: `DungeonMapGenerator.generate_noise` does not return a 0/1 grid on
parameters that permit `room_min_count` rooms: on a 10 × 10 map asking for
one size-2 room, the placement loop accepts a room, after which the call
raises (`return_the_center_of_this_rectangle()` at line 1393 is invoked
without its four required arguments, and `room_alpha_center` at line 1413
is never assigned); the model returns `none` on every run with a nonempty
room list. -/
theorem dmg_generate_noise_raises :
    DungeonMapGenerator.place_rooms ⟨10, 10, 2, 2, 1, 1⟩ (fun _ => 0) 2 0 =
      some ([⟨1, 1, 2, 2⟩], 4) ∧
    DungeonMapGenerator.generate_noise ⟨10, 10, 2, 2, 1, 1⟩ (fun _ => 0) 2 = none := by
  decide

set_option maxRecDepth 2000 in
/-- C4: with `room_min_count = room_max_count = 1` the MarkII generator
accepts exactly one room, and then the first linking pass crashes instead
of being skipped: the nearest-centerpoint search skips the room's own
centerpoint, finds nothing, and line 2428 subscripts `None`
(`TypeError`); the model returns `none`. -/
theorem markII_single_room_crash :
    MarkIIDungeonMapGenerator.place_rooms ⟨8, 8, 2, 2, 1, 1⟩ (fun _ => 0) 2 0 =
      some ([⟨1, 1, 2, 2⟩], 4) ∧
    MarkIIDungeonMapGenerator.generate_noise ⟨8, 8, 2, 2, 1, 1⟩ (fun _ => 0) 2 = none := by
  decide

/-- C3 counterexample: a `generate_noise(10, 10, ...)` call of the MarkII
generator returns a grid with 9 rows of 9 cells, not 10 rows of 10. -/
theorem dimension_invariant_cex :
    MarkIIDungeonMapGenerator.generate_noise markII_demo_params markII_demo_rng 2 =
      some (markII_demo_grid, markII_demo_rooms) ∧
    markII_demo_params.supplied_map_width = 10 ∧
    markII_demo_params.supplied_map_height = 10 ∧
    markII_demo_grid.length = 9 ∧
    (markII_demo_grid.getD 0 []).length = 9 ∧
    (9 : ℕ) ≠ 10 := by
  exact ⟨markII_demo_run, rfl, rfl, rfl, rfl, by decide⟩

/-- Witness for `dimension_invariant_amended`: instantiated on a concrete
Perlin call (3 rows of 2 cells), a concrete Simplex call (3 rows of 2
cells), the demonstration RoomFilled run (5 rows of 5 cells for supplied
5 × 5) and the demonstration MarkII run (9 rows of 9 cells for supplied
10 × 10). -/
theorem dimension_invariant_amended_witness :
    tableShape (PerlinNoiseGenerator.generate_noise (fun _ => 0) 2 3 0 1) 3 2 ∧
    tableShape (SimplexNoiseGenerator.generate_noise
      ⟨SimplexNoiseGenerator.the_noise_array_seed, [], some 255, []⟩
      (fun _ => 0) 0 2 3 1 1 1).1 3 2 ∧
    tableShape roomfilled_demo_grid 5 5 ∧
    tableShape markII_demo_grid 9 9 := by
  exact ⟨dimension_invariant_amended.1 (fun _ => 0) 2 3 0 1,
    dimension_invariant_amended.2.2.1
      ⟨SimplexNoiseGenerator.the_noise_array_seed, [], some 255, []⟩
      (fun _ => 0) 0 2 3 1 1 1,
    dimension_invariant_amended.2.2.2.1 ⟨5, 5, 2, 2⟩ (fun _ => 0) 0
      roomfilled_demo_grid 18 roomfilled_demo_run,
    dimension_invariant_amended.2.2.2.2.2 markII_demo_params markII_demo_rng 2
      markII_demo_grid markII_demo_rooms markII_demo_run⟩

set_option maxRecDepth 100000 in
set_option maxHeartbeats 2000000 in
/-- C5 counterexample: a `generate_noise` call changes the permutation
table without any explicit reseed by the caller.  The generator is
initialised with one oracle; the later `generate_noise` call, run with a
different oracle, replaces the table (entry 0 changes from 151 to 160). -/
theorem simplex_table_changes_cex :
    (SimplexNoiseGenerator.generate_noise_state
        (SimplexNoiseGenerator.simplex_init (some 255) (fun _ => 0) 0).1
        (fun _ => 1) 0).1.permutations_table.getD 0 0 = 160 ∧
    (SimplexNoiseGenerator.simplex_init (some 255)
        (fun _ => 0) 0).1.permutations_table.getD 0 0 = 151 ∧
    (SimplexNoiseGenerator.generate_noise_state
        (SimplexNoiseGenerator.simplex_init (some 255) (fun _ => 0) 0).1
        (fun _ => 1) 0).1.permutations_table ≠
      (SimplexNoiseGenerator.simplex_init (some 255)
        (fun _ => 0) 0).1.permutations_table := by
  refine ⟨by decide, by decide, fun hEq => ?_⟩
  have h0 := congrArg (fun l => l.getD 0 0) hEq
  simp only at h0
  rw [show (SimplexNoiseGenerator.generate_noise_state
      (SimplexNoiseGenerator.simplex_init (some 255) (fun _ => 0) 0).1
      (fun _ => 1) 0).1.permutations_table.getD 0 0 = 160 from by decide,
    show (SimplexNoiseGenerator.simplex_init (some 255)
      (fun _ => 0) 0).1.permutations_table.getD 0 0 = 151 from by decide] at h0
  exact absurd h0 (by decide)

set_option maxRecDepth 4000 in
set_option maxHeartbeats 2000000 in
/-- C9 counterexample: with the (negative) frequency `-1` and
`octaves = 2`, a Perlin run produces the cell value 288, outside
`[0, 256]`: the truncated-fractional weights of `smooth_noise` are
negative for negative sample coordinates, so the bilinear combination
escapes `[0, 1]`. -/
theorem perlin_negative_frequency_cex :
    ((PerlinNoiseGenerator.generate_noise (fun k => if k = 3 then 1000 else 0)
        2 2 (-1) 2).getD 1 []).getD 1 0 = 288 ∧
    (256 : ℤ) < 288 := by
  constructor
  · have hc1 : ⌈-(1/2 : ℚ)⌉ = 0 := by norm_num
    have hc2 : ⌈(-1 : ℚ)⌉ = -1 := by
      rw [show ((-1 : ℚ)) = ((-1 : ℤ) : ℚ) from by norm_num, Int.ceil_intCast]
    have hf0 : ⌊(0 : ℚ)⌋ = 0 := by norm_num
    norm_num [PerlinNoiseGenerator.generate_noise,
      PerlinNoiseGenerator.totally_justified_turbulence_function,
      PerlinNoiseGenerator.turbulence_loop, PerlinNoiseGenerator.smooth_noise,
      qGetCell, pyInt, List.range_succ, hc1, hc2, hf0]
  · decide

set_option maxRecDepth 4000 in
set_option maxHeartbeats 2000000 in
/-- C8 counterexample: a plasma run with all four corners supplied
(0, 0, 0, 255) and zero displacement returns a grid whose upper-left
corner cell is `255/16`, not the supplied corner value `0`: leaf cells
hold the average of the four converged quadrant corners, not the
inherited corner value. -/
theorem plasma_corner_cex :
    (PlasmaFractalGenerator.generate_noise ⟨0, 0, 1⟩ (fun _ => 0) 3 0 0 2 2
        0 0 0 255 0).map (fun s => qGetCell s.1 0 0) = some (255 / 16) ∧
    (255 / 16 : ℚ) ≠ 0 := by
  constructor
  · norm_num [PlasmaFractalGenerator.generate_noise,
      PlasmaFractalGenerator.plasma_recursion, randint, qSetCell, qGetCell, pyInt,
      List.replicate]
  · norm_num

/-- C10: every cell of the grid returned by a successful
`MarkIIDungeonMapGenerator.generate_noise` run is exactly `0` or `1`:
room carving is additive, but the accepted rooms are pairwise disjoint, so
no cell is incremented twice, and corridor carving writes only into
still-zero cells. -/
theorem markII_cells_binary (p : MarkIIDungeonMapGenerator.Params) (rng : Rng)
    (fuel : ℕ) (g : Grid) (rooms : List Rect)
    (hrun : MarkIIDungeonMapGenerator.generate_noise p rng fuel = some (g, rooms)) :
    ∀ row ∈ g, ∀ v ∈ row, v = 0 ∨ v = 1 := by
  intro row hrow v hv
  rcases getCell_of_mem g row v hrow hv with ⟨q, hq⟩
  rw [← hq]
  unfold MarkIIDungeonMapGenerator.generate_noise at hrun
  rcases Option.bind_eq_some.1 hrun with ⟨s, hplace, hrun1⟩
  rcases Option.bind_eq_some.1 hrun1 with ⟨st, hfp, hrun2⟩
  rcases Option.map_eq_some'.1 hrun2 with ⟨m, hml, hres⟩
  have hg : g = m.2.1.foldl MarkIIDungeonMapGenerator.carve_corridor
      (s.1.foldl MarkIIDungeonMapGenerator.carve_room
        (mkZeroGrid (p.supplied_map_height - 1).toNat
          (p.supplied_map_width - 1).toNat)) :=
    (congrArg Prod.fst hres).symm
  subst hg
  have hsh1 : tableShape (s.1.foldl MarkIIDungeonMapGenerator.carve_room
      (mkZeroGrid (p.supplied_map_height - 1).toNat
        (p.supplied_map_width - 1).toNat))
      (p.supplied_map_height - 1).toNat (p.supplied_map_width - 1).toNat :=
    foldl_preserves (fun gg => tableShape gg (p.supplied_map_height - 1).toNat
        (p.supplied_map_width - 1).toNat) _
      (fun a b ha => tableShape_carve_room _ _ _ _ ha) _ _
      (tableShape_mkZeroGrid _ _)
  have hbin1 : ∀ z : Pt,
      getCell (s.1.foldl MarkIIDungeonMapGenerator.carve_room
        (mkZeroGrid (p.supplied_map_height - 1).toNat
          (p.supplied_map_width - 1).toNat)) z = 0 ∨
      getCell (s.1.foldl MarkIIDungeonMapGenerator.carve_room
        (mkZeroGrid (p.supplied_map_height - 1).toNat
          (p.supplied_map_width - 1).toNat)) z = 1 := by
    intro z
    rw [getCell_rooms_fold (p.supplied_map_height - 1).toNat
      (p.supplied_map_width - 1).toNat s.1 _ (tableShape_mkZeroGrid _ _)
      (place_rooms_disjoint p rng fuel 0 s hplace) z, getCell_mkZeroGrid]
    split_ifs <;> omega
  exact (getCell_cors_fold (p.supplied_map_height - 1).toNat
    (p.supplied_map_width - 1).toNat m.2.1 _ hsh1 hbin1 q).1

/-- C10 witness: the 0/1-valuedness theorem instantiated at a concrete
cell of the demonstration run's returned grid. -/
theorem markII_cells_binary_witness : (1 : ℤ) = 0 ∨ (1 : ℤ) = 1 :=
  markII_cells_binary markII_demo_params markII_demo_rng 2 markII_demo_grid
    markII_demo_rooms markII_demo_run ([0, 1, 1, 0, 0, 0, 0, 0, 0] : List ℤ)
    (by decide) 1 (by decide)

/-- C1: in every successful `MarkIIDungeonMapGenerator.generate_noise`
run (with the positive room sizes every demonstrated configuration uses)
that accepts at least two rooms, treating the cells of value at least 1 of
the returned grid as a graph connected by 4-adjacency, every cell of every
accepted room is reachable from every cell of every other accepted room:
the first linking pass joins every room's centerpoint into some connection
color through an L-shaped corridor pair, and the merging loop then joins
the colors into one, so the excavated cells form one connected component
containing all room interiors. -/
theorem markII_full_connectivity (p : MarkIIDungeonMapGenerator.Params)
    (rng : Rng) (fuel : ℕ) (g : Grid) (rooms : List Rect)
    (hmin : 1 ≤ p.room_min_size)
    (hrun : MarkIIDungeonMapGenerator.generate_noise p rng fuel = some (g, rooms))
    (htwo : 2 ≤ rooms.length)
    (r1 r2 : Rect) (h1 : r1 ∈ rooms) (h2 : r2 ∈ rooms)
    (p1 p2 : Pt) (hp1 : inRect r1 p1) (hp2 : inRect r2 p2) :
    gridReach g p1 p2 := by
  unfold MarkIIDungeonMapGenerator.generate_noise at hrun
  rcases Option.bind_eq_some.1 hrun with ⟨s, hplace, hrun1⟩
  rcases Option.bind_eq_some.1 hrun1 with ⟨st, hfp, hrun2⟩
  rcases Option.map_eq_some'.1 hrun2 with ⟨m, hml, hres⟩
  have hg : g = m.2.1.foldl carve_corridor
      (s.1.foldl carve_room
        (mkZeroGrid (p.supplied_map_height - 1).toNat
          (p.supplied_map_width - 1).toNat)) :=
    (congrArg Prod.fst hres).symm
  have hrooms_eq : s.1 = rooms := congrArg Prod.snd hres
  subst hg
  rw [← hrooms_eq] at htwo h1 h2
  have hspec := place_rooms_spec p rng fuel 0 s hplace
  have hroomsB : ∀ r ∈ s.1, rectInBounds (p.supplied_map_height - 1).toNat
      (p.supplied_map_width - 1).toNat r :=
    fun r hr => markIIRoomOK_inBounds p r (hspec.2 r hr)
  have hwh : ∀ r ∈ s.1, 1 ≤ r.w ∧ 1 ≤ r.h := by
    intro r hr
    have := hspec.2 r hr
    unfold markIIRoomOK at this
    omega
  have hcens : ∀ r ∈ s.1, covered s.1 (rectCenter r) := fun r hr =>
    ⟨r, hr, rectCenter_mem r (hwh r hr).1 (hwh r hr).2⟩
  have hinv0 : linkInv s.1 (p.supplied_map_height - 1).toNat
      (p.supplied_map_width - 1).toNat ⟨s.1.map rectCenter, [], [], s.2⟩ := by
    refine ⟨by simp, ?_, ?_⟩
    · intro pt hpt
      rcases List.mem_map.1 hpt with ⟨r, hr, hrc⟩
      rw [List.append_nil]
      exact hrc ▸ hcens r hr
    · intro c hcmem
      exact absurd hcmem (List.not_mem_nil c)
  have hfpinv := first_pass_inv rng s.1 (p.supplied_map_height - 1).toNat
    (p.supplied_map_width - 1).toNat hroomsB hcens s.1
    ⟨s.1.map rectCenter, [], [], s.2⟩ st hfp (fun r hr => hr) hinv0
  have hminv := merge_loop_inv rng s.1 (p.supplied_map_height - 1).toNat
    (p.supplied_map_width - 1).toNat hroomsB
    st.list_of_room_connection_colors.length
    (st.list_of_room_connection_colors, st.list_of_new_corridors, st.k) m hml
    ⟨hfpinv.1.1, hfpinv.1.2.2⟩
  have hc1 := hfpinv.2.2 r1 h1
  have hc2 := hfpinv.2.2 r2 h2
  have hlen1 : 1 ≤ st.list_of_room_connection_colors.length := by
    rcases hc1 with ⟨c, hcmem, -⟩
    rcases List.mem_iff_getElem.1 hcmem with ⟨j, hj, -⟩
    omega
  have hlenfin : m.1.length = 1 := by
    have ha := hminv.2.2.1
    have hb := hminv.2.2.2
    dsimp only at ha hb
    have hb2 := hb hlen1
    omega
  obtain ⟨cfin, hcfin⟩ := List.length_eq_one.1 hlenfin
  have hm1 := hminv.2.1 (rectCenter r1) hc1
  have hm2 := hminv.2.1 (rectCenter r2) hc2
  rcases hm1 with ⟨ca, hcamem, hcen1⟩
  rcases hm2 with ⟨cb2, hcbmem, hcen2⟩
  rw [hcfin, List.mem_singleton] at hcamem hcbmem
  rw [hcamem] at hcen1
  rw [hcbmem] at hcen2
  have hcfin_mem : cfin ∈ m.1 := by
    rw [hcfin]
    exact List.mem_singleton_self _
  have hcreach : reachIn (s.1 ++ m.2.1) (rectCenter r1) (rectCenter r2) :=
    (hminv.1.2 cfin hcfin_mem).2 _ hcen1 _ hcen2
  have hreach1 : reachIn (s.1 ++ m.2.1) p1 (rectCenter r1) :=
    reachIn_of_mem_rect _ r1 (List.mem_append_left _ h1) p1 _ hp1
      (rectCenter_mem r1 (hwh r1 h1).1 (hwh r1 h1).2)
  have hreach2 : reachIn (s.1 ++ m.2.1) (rectCenter r2) p2 :=
    reachIn_of_mem_rect _ r2 (List.mem_append_left _ h2) _ p2
      (rectCenter_mem r2 (hwh r2 h2).1 (hwh r2 h2).2) hp2
  have hreach : reachIn (s.1 ++ m.2.1) p1 p2 :=
    Relation.ReflTransGen.trans hreach1
      (Relation.ReflTransGen.trans hcreach hreach2)
  have hallB : ∀ r ∈ s.1 ++ m.2.1, rectInBounds (p.supplied_map_height - 1).toNat
      (p.supplied_map_width - 1).toNat r := by
    intro r hr
    rcases List.mem_append.1 hr with hr | hr
    · exact hroomsB r hr
    · exact hminv.1.1 r hr
  have hsh1 : tableShape (s.1.foldl carve_room
      (mkZeroGrid (p.supplied_map_height - 1).toNat
        (p.supplied_map_width - 1).toNat))
      (p.supplied_map_height - 1).toNat (p.supplied_map_width - 1).toNat :=
    foldl_preserves (fun gg => tableShape gg (p.supplied_map_height - 1).toNat
        (p.supplied_map_width - 1).toNat) _
      (fun a b ha => tableShape_carve_room _ _ _ _ ha) _ _
      (tableShape_mkZeroGrid _ _)
  have hchar1 := getCell_rooms_fold (p.supplied_map_height - 1).toNat
    (p.supplied_map_width - 1).toNat s.1 _ (tableShape_mkZeroGrid _ _)
    (place_rooms_disjoint p rng fuel 0 s hplace)
  have hbin1 : ∀ z : Pt,
      getCell (s.1.foldl carve_room
        (mkZeroGrid (p.supplied_map_height - 1).toNat
          (p.supplied_map_width - 1).toNat)) z = 0 ∨
      getCell (s.1.foldl carve_room
        (mkZeroGrid (p.supplied_map_height - 1).toNat
          (p.supplied_map_width - 1).toNat)) z = 1 := by
    intro z
    rw [hchar1 z, getCell_mkZeroGrid]
    split_ifs <;> omega
  have hex : ∀ z : Pt, covered (s.1 ++ m.2.1) z →
      1 ≤ getCell (m.2.1.foldl carve_corridor
        (s.1.foldl carve_room
          (mkZeroGrid (p.supplied_map_height - 1).toNat
            (p.supplied_map_width - 1).toNat))) z := by
    intro z hz
    have hzB : inGridBounds (p.supplied_map_height - 1).toNat
        (p.supplied_map_width - 1).toNat z :=
      covered_inBounds _ _ _ hallB z hz
    rw [(getCell_cors_fold (p.supplied_map_height - 1).toNat
      (p.supplied_map_width - 1).toNat m.2.1 _ hsh1 hbin1 z).2]
    rcases hz with ⟨r, hr, hrz⟩
    rcases List.mem_append.1 hr with hr | hr
    · right
      rw [hchar1 z, getCell_mkZeroGrid, if_pos ⟨⟨r, hr, hrz⟩, hzB⟩]
      omega
    · exact Or.inl ⟨⟨r, hr, hrz⟩, hzB⟩
  exact gridReach_of_reachIn _ (s.1 ++ m.2.1) hex p1 p2 hreach

/-- C1 witness: the connectivity theorem instantiated at the
demonstration run, connecting a cell of the first accepted room to a cell
of the second. -/
theorem markII_full_connectivity_witness :
    (1 : ℤ) ≤ markII_demo_params.room_min_size ∧
    2 ≤ markII_demo_rooms.length ∧
    gridReach markII_demo_grid (1, 1) (5, 5) :=
  ⟨by decide, by decide,
    markII_full_connectivity markII_demo_params markII_demo_rng 2
      markII_demo_grid markII_demo_rooms (by decide) markII_demo_run (by decide)
      ⟨1, 1, 2, 2⟩ ⟨5, 5, 2, 2⟩ (by decide) (by decide) (1, 1) (5, 5)
      (by decide) (by decide)⟩

end TerrainGen
